import Mathlib

/-!
# VRAY_OpenVDB_Points: bounds reduction, colour from velocity, attribute selection

A shallow embedding of `openvdb_houdini/houdini/VRAY_OpenVDB_Points.cc`.

Numbers (`float`, `half`, `double`) are exact rationals: rounding, infinities and NaN are
outside the model.  Library types the file only uses (`BBoxd`, `math::Transform`,
attribute arrays and handles, `MultiGroupFilter`) are modelled from the specification and
marked so.  Everything under "source" is a line-by-line transcription of the C++.
-/

namespace OpenVDBPoints

/-! ## Library data model -/

abbrev Name := String

/-- The exceptions the library can raise in the modelled code. -/
inductive Error where
  | typeError (msg : String)
  | lookupError (msg : String)
deriving DecidableEq, Repr

/-- A `Vec3d` / `Vec3f` / `Vec3H`: three exact components. -/
structure Vec3d where
  x : ℚ
  y : ℚ
  z : ℚ
deriving DecidableEq

namespace Vec3d

/-- The constructor `Vec3d(s)`: all three components equal to `s`. -/
def splat (s : ℚ) : Vec3d := ⟨s, s, s⟩

def add (a b : Vec3d) : Vec3d := ⟨a.x + b.x, a.y + b.y, a.z + b.z⟩

def sub (a b : Vec3d) : Vec3d := ⟨a.x - b.x, a.y - b.y, a.z - b.z⟩

instance : Add Vec3d := ⟨add⟩

instance : Sub Vec3d := ⟨sub⟩

def minComponent (a b : Vec3d) : Vec3d := ⟨min a.x b.x, min a.y b.y, min a.z b.z⟩

def maxComponent (a b : Vec3d) : Vec3d := ⟨max a.x b.x, max a.y b.y, max a.z b.z⟩

/-- Componentwise order: `a` is below `b` on every axis. -/
def le (a b : Vec3d) : Prop := a.x ≤ b.x ∧ a.y ≤ b.y ∧ a.z ≤ b.z

instance (a b : Vec3d) : Decidable (le a b) := by unfold le; infer_instance

end Vec3d

/-- An integer voxel coordinate (`Coord`). -/
structure Coord where
  x : ℤ
  y : ℤ
  z : ℤ
deriving DecidableEq

/-- The conversion `Coord::asVec3d`. -/
def Coord.asVec3d (c : Coord) : Vec3d := ⟨c.x, c.y, c.z⟩

/-- Modelled from the spec: `BBoxd` (openvdb/math/BBox.h is not part of the sources).  The
accumulator is a min/max corner pair that starts empty (no point seen); the library's
sentinel corners of the empty box are represented by the constructor `empty`. -/
inductive BBoxd where
  | empty
  | box (min max : Vec3d)
deriving DecidableEq

namespace BBoxd

/-- The test `BBoxd::empty()`. -/
def isEmpty : BBoxd → Bool
  | empty => true
  | box _ _ => false

/-- The method `BBoxd::expand(const Vec3d&)`: grow the box to cover a point. -/
def expand : BBoxd → Vec3d → BBoxd
  | empty, p => box p p
  | box mn mx, p => box (Vec3d.minComponent mn p) (Vec3d.maxComponent mx p)

/-- The method `BBoxd::expand(const BBoxd&)`: union of two boxes. -/
def expandBox : BBoxd → BBoxd → BBoxd
  | b, empty => b
  | empty, box mn mx => box mn mx
  | box mn mx, box mn2 mx2 => box (Vec3d.minComponent mn mn2) (Vec3d.maxComponent mx mx2)

/-- The test `BBoxd::isInside(const Vec3d&)`: the point lies in the box on every axis. -/
def isInside : BBoxd → Vec3d → Prop
  | empty, _ => False
  | box mn mx, p => Vec3d.le mn p ∧ Vec3d.le p mx

instance (b : BBoxd) (p : Vec3d) : Decidable (isInside b p) := by
  cases b <;> unfold isInside <;> infer_instance

end BBoxd

/-- Modelled from the spec: the tree's index-to-world affine transform (`math::Transform`
is not part of the sources), here a per-axis voxel scale followed by a translation. -/
structure Transform where
  scale : Vec3d
  translation : Vec3d
deriving DecidableEq

namespace Transform

/-- The point map `Transform::indexToWorld(const Vec3d&)`. -/
def indexToWorld (t : Transform) (p : Vec3d) : Vec3d :=
  ⟨t.scale.x * p.x + t.translation.x, t.scale.y * p.y + t.translation.y,
   t.scale.z * p.z + t.translation.z⟩

/-- The point map `Transform::worldToIndex(const Vec3d&)`, the inverse of `indexToWorld`. -/
def worldToIndex (t : Transform) (p : Vec3d) : Vec3d :=
  ⟨(p.x - t.translation.x) / t.scale.x, (p.y - t.translation.y) / t.scale.y,
   (p.z - t.translation.z) / t.scale.z⟩

/-- The box map `Transform::indexToWorld(const BBoxd&)`: the axis-aligned box of the images
of the eight corners. -/
def indexToWorldBBox (t : Transform) : BBoxd → BBoxd
  | BBoxd.empty => BBoxd.empty
  | BBoxd.box mn mx =>
    let corners : List Vec3d :=
      [⟨mx.x, mn.y, mn.z⟩, ⟨mn.x, mx.y, mn.z⟩, ⟨mx.x, mx.y, mn.z⟩, ⟨mn.x, mn.y, mx.z⟩,
       ⟨mx.x, mn.y, mx.z⟩, ⟨mn.x, mx.y, mx.z⟩, ⟨mx.x, mx.y, mx.z⟩]
    let w0 := t.indexToWorld mn
    corners.foldl (fun b c => b.expand (t.indexToWorld c)) (BBoxd.box w0 w0)

end Transform

/-- One element of an attribute array: a scalar or a three-vector. -/
inductive AttrValue where
  | scalar (s : ℚ)
  | vec3 (v : Vec3d)
deriving DecidableEq

/-- The value a scalar handle (`AttributeHandle<float>`, `AttributeHandle<half>`) reads. -/
def AttrValue.toScalar : AttrValue → ℚ
  | scalar s => s
  | vec3 v => v.x

/-- The value a vector handle (`AttributeHandle<Vec3f>`, `AttributeHandle<Vec3H>`) reads. -/
def AttrValue.toVec3 : AttrValue → Vec3d
  | scalar s => Vec3d.splat s
  | vec3 v => v

/-- Modelled from the spec: an attribute array (openvdb/points/AttributeArray.h is not part
of the sources).  It holds `size` elements, stored one per point or as a single uniform
value kept in slot 0. -/
structure AttributeArray where
  size : Nat
  isUniform : Bool
  data : Nat → AttrValue

namespace AttributeArray

/-- The read `get(n)`: a uniform array answers with its single stored value. -/
def get (a : AttributeArray) (n : Nat) : AttrValue :=
  a.data (if a.isUniform then 0 else n)

/-- The operation `expand()`: a uniform array becomes per-point, every slot holding the value. -/
def expand (a : AttributeArray) : AttributeArray :=
  if a.isUniform then { size := a.size, isUniform := false, data := fun _ => a.data 0 } else a

/-- The write `set(n, v)`: the array is expanded first, then slot `n` alone is replaced. -/
def set (a : AttributeArray) (n : Nat) (v : AttrValue) : AttributeArray :=
  let e := a.expand
  { e with data := fun i => if i = n then v else e.data i }

/-- The operation `collapse(v)`: the array becomes uniform with the single value `v`. -/
def collapse (a : AttributeArray) (v : AttrValue) : AttributeArray :=
  { size := a.size, isUniform := true, data := fun _ => v }

end AttributeArray

/-- One entry of a leaf's attribute set: name, declared element type, and the array. -/
structure Attribute where
  name : Name
  type : String
  array : AttributeArray

/-- Modelled from the spec: a leaf of the point tree (openvdb/points/PointDataGrid.h is not
part of the sources).  A leaf owns the positional attribute `P`, its named auxiliary
attributes in descriptor order, the active point indices with the voxel each lies in (the
order of `beginIndexOn`), and the group membership of every point index. -/
structure PointDataLeaf where
  P : AttributeArray
  attributes : List Attribute
  indexOn : List (Nat × Coord)
  inGroup : Name → Nat → Bool

/-- The lookup `Descriptor::find(name)`: position of the attribute, `none` for `INVALID_POS`. -/
def findPos (name : Name) : List Attribute → Option Nat
  | [] => none
  | a :: rest => if a.name = name then some 0 else (findPos name rest).map (· + 1)

namespace PointDataLeaf

/-- The lookup `attributeSet().find(name)` on a leaf. -/
def find (leaf : PointDataLeaf) (name : Name) : Option Nat := findPos name leaf.attributes

/-- The query `attributeSet().descriptor().type(pos).first`: the declared element type. -/
def type (leaf : PointDataLeaf) (pos : Nat) : String :=
  match leaf.attributes[pos]? with
  | some a => a.type
  | none => ""

/-- The accessor `attributeArray(pos)`; an out-of-range position is a lookup error. -/
def attributeArray (leaf : PointDataLeaf) (pos : Nat) : Except Error AttributeArray :=
  match leaf.attributes[pos]? with
  | some a => .ok a.array
  | none => .error (.lookupError "Attribute Out Of Range")

end PointDataLeaf

/-- Modelled from the spec: `MultiGroupFilter` (openvdb/points/PointGroup.h is not part of
the sources).  A point passes iff (the include list is empty or the point is in some
included group) and the point is in no excluded group. -/
def MultiGroupFilter (includeGroups excludeGroups : List Name) (leaf : PointDataLeaf)
    (i : Nat) : Bool :=
  (includeGroups.isEmpty || includeGroups.any (fun g => leaf.inGroup g i)) &&
    !(excludeGroups.any (fun g => leaf.inGroup g i))

/-- The type names `typeNameAsString<float>()` and `typeNameAsString<half>()`. -/
def typeNameFloat : String := "float"

def typeNameHalf : String := "half"

/-- The type names `typeNameAsString<Vec3f>()` and `typeNameAsString<Vec3H>()`. -/
def typeNameVec3f : String := "vec3s"

def typeNameVec3H : String := "vec3h"

/-- A grid of the forest: a point tree (its leaves in leaf-manager order) and its transform. -/
structure PointDataGrid where
  transform : Transform
  tree : List PointDataLeaf

/-! ## Source: `GenerateBBoxOp` and `getBoundingBox` -/

/-- The constant `DEFAULT_PSCALE = 0.05f`. -/
def DEFAULT_PSCALE : ℚ := 1 / 20

/-- The members of `GenerateBBoxOp`. -/
structure GenerateBBoxOp where
  mTransform : Transform
  mBbox : BBoxd
  mIncludeGroups : List Name
  mExcludeGroups : List Name

namespace GenerateBBoxOp

/-- The splitting constructor `GenerateBBoxOp(const GenerateBBoxOp& parent, tbb::split)`:
every member, the box included, is copied from the parent. -/
def split (parent : GenerateBBoxOp) : GenerateBBoxOp :=
  { mTransform := parent.mTransform, mBbox := parent.mBbox,
    mIncludeGroups := parent.mIncludeGroups, mExcludeGroups := parent.mExcludeGroups }

/-- The method `join(rhs)`: `mBbox.expand(rhs.mBbox)`. -/
def join (op rhs : GenerateBBoxOp) : GenerateBBoxOp :=
  { op with mBbox := op.mBbox.expandBox rhs.mBbox }

/-- The body shared by both loops of `expandBBox`: the two `mBbox.expand` calls for the
active point `ic`, its index paired with the voxel it lies in. -/
def expandPoint (t : Transform) (positionHandle : AttributeArray)
    (pscaleIsUniform : Bool) (uniformPscale : ℚ) (pscaleHandle : Option AttributeArray)
    (b : BBoxd) (ic : Nat × Coord) : BBoxd :=
  let pscale : ℚ :=
    if pscaleIsUniform then uniformPscale
    else match pscaleHandle with
      | some h => (h.get ic.1).toScalar
      | none => uniformPscale
  let radius := t.worldToIndex (Vec3d.splat pscale)
  let position := ic.2.asVec3d + (positionHandle.get ic.1).toVec3
  (b.expand (position - radius)).expand (position + radius)

/-- The local `pscaleHandle` of `expandBBox<PscaleType>`: bound only when the declared type
of the attribute is the template type, whose type name is `pscaleType`. -/
def pscaleHandle (pscaleType : String) (leaf : PointDataLeaf) (pscaleIndex : Option Nat) :
    Option AttributeArray :=
  match pscaleIndex with
  | some idx =>
    if leaf.type idx = pscaleType then (leaf.attributes[idx]?).map (·.array) else none
  | none => none

/-- The local `pscaleIsUniform` of `expandBBox`: `true` unless a bound handle says otherwise. -/
def pscaleIsUniform (handle : Option AttributeArray) : Bool :=
  match handle with
  | some h => h.isUniform
  | none => true

/-- The local `uniformPscale` of `expandBBox`: `DEFAULT_PSCALE` unless a handle is bound,
in which case it is element 0 of the attribute. -/
def uniformPscale (handle : Option AttributeArray) : ℚ :=
  match handle with
  | some h => (h.get 0).toScalar
  | none => DEFAULT_PSCALE

/-- The method `expandBBox<PscaleType>(leaf, pscaleIndex)`; the template argument is
passed as its type name. -/
def expandBBox (op : GenerateBBoxOp) (pscaleType : String) (leaf : PointDataLeaf)
    (pscaleIndex : Option Nat) : GenerateBBoxOp :=
  let positionHandle := leaf.P
  let handle := pscaleHandle pscaleType leaf pscaleIndex
  let body := expandPoint op.mTransform positionHandle (pscaleIsUniform handle)
    (uniformPscale handle) handle
  if !op.mIncludeGroups.isEmpty || !op.mExcludeGroups.isEmpty then
    let iter := leaf.indexOn.filter
      (fun ic => MultiGroupFilter op.mIncludeGroups op.mExcludeGroups leaf ic.1)
    { op with mBbox := iter.foldl body op.mBbox }
  else
    let iter := leaf.indexOn
    { op with mBbox := iter.foldl body op.mBbox }

/-- The method `operator()(range)`: the leaves of the range are visited in order. -/
def call (op : GenerateBBoxOp) : List PointDataLeaf → Except Error GenerateBBoxOp
  | [] => .ok op
  | leaf :: rest =>
    match leaf.find "pscale" with
    | some pscaleIndex =>
      let pscaleType := leaf.type pscaleIndex
      if pscaleType = typeNameFloat then
        call (op.expandBBox typeNameFloat leaf (some pscaleIndex)) rest
      else if pscaleType = typeNameHalf then
        call (op.expandBBox typeNameHalf leaf (some pscaleIndex)) rest
      else .error (.typeError ("Unsupported pscale type - " ++ pscaleType))
    | none => call op rest

end GenerateBBoxOp

/-- The loop of `getBoundingBox` over the grids, `worldBounds` being the accumulator.  The
parallel reduction over a tree is run as one sequential pass. -/
def getBoundingBoxLoop (includeGroups excludeGroups : List Name) :
    List PointDataGrid → BBoxd → Except Error BBoxd
  | [], worldBounds => .ok worldBounds
  | grid :: rest, worldBounds =>
    match GenerateBBoxOp.call
        { mTransform := grid.transform, mBbox := BBoxd.empty,
          mIncludeGroups := includeGroups, mExcludeGroups := excludeGroups } grid.tree with
    | .error e => .error e
    | .ok generateBbox =>
      if generateBbox.mBbox.isEmpty then
        getBoundingBoxLoop includeGroups excludeGroups rest worldBounds
      else
        let gridBounds := grid.transform.indexToWorldBBox generateBbox.mBbox
        getBoundingBoxLoop includeGroups excludeGroups rest (worldBounds.expandBox gridBounds)

/-- The function `getBoundingBox(gridPtrs, includeGroups, excludeGroups)`. -/
def getBoundingBox (gridPtrs : List PointDataGrid) (includeGroups excludeGroups : List Name) :
    Except Error BBoxd :=
  getBoundingBoxLoop includeGroups excludeGroups gridPtrs BBoxd.empty

/-! ## Source: `PopulateColorFromVelocityOp` -/

/-- The attribute list with the array at position `pos` replaced by `f` of it (the effect
of a write through a handle bound to `leaf.attributeArray(pos)`). -/
def modifyArrayAt (f : AttributeArray → AttributeArray) : List Attribute → Nat → List Attribute
  | [], _ => []
  | a :: rest, 0 => { a with array := f a.array } :: rest
  | a :: rest, pos + 1 => a :: modifyArrayAt f rest pos

namespace PointDataLeaf

/-- A read `handle->get(i)` through a vector handle bound to the array at position `pos`. -/
def readVec3 (leaf : PointDataLeaf) (pos i : Nat) : Vec3d :=
  match leaf.attributes[pos]? with
  | some a => (a.array.get i).toVec3
  | none => ⟨0, 0, 0⟩

/-- A write `handle->set(i, v)` through a vector handle bound to the array at `pos`. -/
def writeVec3 (leaf : PointDataLeaf) (pos i : Nat) (v : Vec3d) : PointDataLeaf :=
  { leaf with attributes := modifyArrayAt (fun a => a.set i (AttrValue.vec3 v)) leaf.attributes pos }

/-- The call `handle->collapse(v)` through a vector handle bound to the array at `pos`. -/
def collapseVec3 (leaf : PointDataLeaf) (pos : Nat) (v : Vec3d) : PointDataLeaf :=
  { leaf with attributes := modifyArrayAt (fun a => a.collapse (AttrValue.vec3 v)) leaf.attributes pos }

end PointDataLeaf

/-- The ramp `UT_Ramp`: its lookup `rampLookup(pos, float[4])` is an opaque function from the
position to the four values it stores. -/
structure UT_Ramp where
  rampLookup : ℚ → Fin 4 → ℚ

/-- The members of `PopulateColorFromVelocityOp`. -/
structure PopulateColorFromVelocityOp where
  mColorIndex : Nat
  mVelocityIndex : Nat
  mRamp : UT_Ramp
  mMaxSpeed : ℚ
  mIncludeGroups : List Name
  mExcludeGroups : List Name
  mCollapseVelocityAfter : Bool

namespace PopulateColorFromVelocityOp

/-- The local `proportionalSpeed` of `getColorFromRamp` after its two clamping statements,
in exact arithmetic on finite numbers: no rounding, no infinity, nothing that is not a
number (`proportionalSpeedFloat` is the same statements in `float` arithmetic, and agrees
with this one on finite operands).  The Euclidean norm `Vec3::length` is not rational in
general; it is the parameter `length`. -/
def proportionalSpeed (op : PopulateColorFromVelocityOp) (length : Vec3d → ℚ)
    (velocity : Vec3d) : ℚ :=
  let p0 : ℚ := if op.mMaxSpeed = 0 then 0 else length velocity / op.mMaxSpeed
  let p1 : ℚ := if p0 > 1 then 1 else p0
  if p1 < 0 then 0 else p1

/-- The method `getColorFromRamp(velocity)`. -/
def getColorFromRamp (op : PopulateColorFromVelocityOp) (length : Vec3d → ℚ)
    (velocity : Vec3d) : Vec3d :=
  let rampVal := op.mRamp.rampLookup (op.proportionalSpeed length velocity)
  ⟨rampVal 0, rampVal 1, rampVal 2⟩

/-- The body shared by both loops of `operator()`: colour the point `ic` of the leaf. -/
def colorPoint (op : PopulateColorFromVelocityOp) (length : Vec3d → ℚ) (uniform : Bool)
    (uniformColor : Vec3d) (leaf : PointDataLeaf) (ic : Nat × Coord) : PointDataLeaf :=
  let color : Vec3d :=
    if uniform then uniformColor
    else op.getColorFromRamp length (leaf.readVec3 op.mVelocityIndex ic.1)
  leaf.writeVec3 op.mColorIndex ic.1 color

/-- The body of the leaf loop of `operator()`: both handles are bound (an out-of-range
position is a lookup error), the points are coloured, the velocity is collapsed on request. -/
def callLeaf (op : PopulateColorFromVelocityOp) (length : Vec3d → ℚ) (leaf : PointDataLeaf) :
    Except Error PointDataLeaf :=
  match leaf.attributeArray op.mColorIndex with
  | .error e => .error e
  | .ok _ =>
    match leaf.attributeArray op.mVelocityIndex with
    | .error e => .error e
    | .ok velocityArray =>
      let uniform := velocityArray.isUniform
      let uniformColor := op.getColorFromRamp length (velocityArray.get 0).toVec3
      let colored : PointDataLeaf :=
        if !op.mIncludeGroups.isEmpty || !op.mExcludeGroups.isEmpty then
          let iter := leaf.indexOn.filter
            (fun ic => MultiGroupFilter op.mIncludeGroups op.mExcludeGroups leaf ic.1)
          iter.foldl (op.colorPoint length uniform uniformColor) leaf
        else
          let iter := leaf.indexOn
          iter.foldl (op.colorPoint length uniform uniformColor) leaf
      if op.mCollapseVelocityAfter then
        .ok (colored.collapseVec3 op.mVelocityIndex ⟨0, 0, 0⟩)
      else .ok colored

/-- The method `operator()(range)`: every leaf of the range is processed on its own. -/
def call (op : PopulateColorFromVelocityOp) (length : Vec3d → ℚ) :
    List PointDataLeaf → Except Error (List PointDataLeaf)
  | [] => .ok []
  | leaf :: rest =>
    match op.callLeaf length leaf with
    | .error e => .error e
    | .ok leaf1 =>
      match call op length rest with
      | .error e => .error e
      | .ok rest1 => .ok (leaf1 :: rest1)

end PopulateColorFromVelocityOp

/-! ## Source: attribute selection in `render()` -/

/-- The algorithm `std::sort` on a vector of names: any sorting procedure returns the one
ascending rearrangement. -/
def stdSort (l : List Name) : List Name := l.insertionSort (· ≤ ·)

/-- The algorithm `std::unique` followed by `erase`: of every run of equal neighbours only
the first element is kept. -/
def stdUnique : List Name → List Name
  | [] => []
  | [a] => [a]
  | a :: b :: rest => if a = b then stdUnique (b :: rest) else a :: stdUnique (b :: rest)

/-- The algorithm `std::set_difference` on two ranges, the output resized to what was
written. -/
def stdSetDifference : List Name → List Name → List Name
  | [], _ => []
  | a :: as, [] => a :: as
  | a :: as, b :: bs =>
    if a < b then a :: stdSetDifference as (b :: bs)
    else if b < a then stdSetDifference (a :: as) bs
    else stdSetDifference as bs
termination_by l1 l2 => l1.length + l2.length

/-- Lines 486-496 of `render()`: sort both lists, remove duplicates, subtract. -/
def validAttributes (includeAttributes excludeAttributes : List Name) : List Name :=
  let includeSorted := stdUnique (stdSort includeAttributes)
  let excludeSorted := stdUnique (stdSort excludeAttributes)
  stdSetDifference includeSorted excludeSorted

/-- The names in `descriptor.map()` of a leaf: the positional attribute and the named
attributes. -/
def PointDataLeaf.descriptorNames (leaf : PointDataLeaf) : List Name :=
  "P" :: leaf.attributes.map (·.name)

/-- The loop of lines 470-483 of `render()`: for every grid that has a leaf, every name of
the descriptor of its first leaf is pushed onto `includeAttributes`. -/
def seedIncludeAttributes : List PointDataGrid → List Name → List Name
  | [], includeAttributes => includeAttributes
  | grid :: rest, includeAttributes =>
    match grid.tree.head? with
    | none => seedIncludeAttributes rest includeAttributes
    | some leaf => seedIncludeAttributes rest (includeAttributes ++ leaf.descriptorNames)

/-- Lines 467-496 of `render()`: the include list is seeded when it is empty and the exclude
list is not, then `validAttributes` is computed. -/
def renderValidAttributes (mGridPtrs : List PointDataGrid)
    (includeAttributes excludeAttributes : List Name) : List Name :=
  if includeAttributes.isEmpty && !excludeAttributes.isEmpty then
    validAttributes (seedIncludeAttributes mGridPtrs includeAttributes) excludeAttributes
  else validAttributes includeAttributes excludeAttributes

/-! ## Source: speed to colour in `render()` -/

/-- The sentinel `AttributeSet::INVALID_POS`, the largest `size_t`. -/
def INVALID_POS : Nat := 2 ^ 64 - 1

/-- A position as a `size_t`: `INVALID_POS` when the lookup found nothing. -/
def posOrInvalid : Option Nat → Nat
  | some pos => pos
  | none => INVALID_POS

/-- The algorithm `std::binary_search` on an ascending range: the first element not below
the value (`std::lower_bound`) exists and is not above it. -/
def stdBinarySearch (l : List Name) (value : Name) : Bool :=
  match l.dropWhile (· < value) with
  | [] => false
  | first :: _ => !(value < first)

/-- Modelled from the spec: `dropAttribute(tree, name)` (openvdb/points/PointAttribute.h is
not part of the sources) removes the named attribute from every leaf of the tree. -/
def dropAttribute (tree : List PointDataLeaf) (name : Name) : List PointDataLeaf :=
  tree.map (fun leaf => { leaf with attributes := leaf.attributes.filter (fun a => a.name ≠ name) })

/-- Modelled from the spec: `appendAttribute<T>(tree, name)` (openvdb/points/PointAttribute.h
is not part of the sources) appends to every leaf of the tree a new attribute of the given
declared type, uniform and zero. -/
def appendAttribute (tree : List PointDataLeaf) (name : Name) (type : String) :
    List PointDataLeaf :=
  tree.map (fun leaf => { leaf with attributes := leaf.attributes ++
    [⟨name, type, ⟨leaf.P.size, true, fun _ => AttrValue.vec3 ⟨0, 0, 0⟩⟩⟩] })

/-- The local `collapseVelocityAfter` of lines 536-537 of `render()`. -/
def collapseVelocityAfter (validAttributes : List Name) : Bool :=
  !validAttributes.isEmpty && !stdBinarySearch validAttributes "v"

/-- The members of `VRAY_OpenVDB_Points` that the speed-to-colour block of `render()` reads. -/
structure RenderParms where
  mIncludeGroups : List Name
  mExcludeGroups : List Name
  mMaxSpeed : ℚ
  mFunctionRamp : UT_Ramp

/-- The body of the loop of lines 505-560 of `render()` for the tree of one grid, the tree
being updated in place.  The four instantiations of `PopulateColorFromVelocityOp` differ in
storage width only and are one operator here. -/
def speedToColorTree (parms : RenderParms) (length : Vec3d → ℚ) (validAttributes : List Name)
    (tree : List PointDataLeaf) : Except Error (List PointDataLeaf) :=
  match tree.head? with
  | none => .ok tree
  | some leaf =>
    match leaf.find "v" with
    | none => .ok tree
    | some velocityIndex =>
      let velocityType := leaf.type velocityIndex
      -- keep existing Cd attribute only if it is a supported type
      let found := leaf.find "Cd"
      let colorType : String :=
        match found with
        | some colorIndex => leaf.type colorIndex
        | none => ""
      let dropped : Bool :=
        found.isSome && (colorType ≠ typeNameVec3f && colorType ≠ typeNameVec3H)
      let tree1 := if dropped then dropAttribute tree "Cd" else tree
      let colorIndex1 : Option Nat := if dropped then none else found
      -- create new Cd attribute of supported type if one did not previously exist
      let tree2 := if colorIndex1.isNone then appendAttribute tree1 "Cd" typeNameVec3H else tree1
      let colorIndex2 : Option Nat :=
        if colorIndex1.isNone then tree2.head?.bind (fun first => first.find "Cd")
        else colorIndex1
      let populateColor : PopulateColorFromVelocityOp :=
        { mColorIndex := posOrInvalid colorIndex2, mVelocityIndex := velocityIndex,
          mRamp := parms.mFunctionRamp, mMaxSpeed := parms.mMaxSpeed,
          mIncludeGroups := parms.mIncludeGroups, mExcludeGroups := parms.mExcludeGroups,
          mCollapseVelocityAfter := collapseVelocityAfter validAttributes }
      if colorType = typeNameVec3f ∧ velocityType = typeNameVec3f then
        populateColor.call length tree2
      else if colorType = typeNameVec3f ∧ velocityType = typeNameVec3H then
        populateColor.call length tree2
      else if colorType = typeNameVec3H ∧ velocityType = typeNameVec3f then
        populateColor.call length tree2
      else if colorType = typeNameVec3H ∧ velocityType = typeNameVec3H then
        populateColor.call length tree2
      else .ok tree2

/-- The loop of lines 504-561 of `render()` over the grids, run when `mSpeedToColor` is set. -/
def speedToColor (parms : RenderParms) (length : Vec3d → ℚ) (validAttributes : List Name) :
    List PointDataGrid → Except Error (List PointDataGrid)
  | [] => .ok []
  | grid :: rest =>
    match speedToColorTree parms length validAttributes grid.tree with
    | .error e => .error e
    | .ok tree =>
      match speedToColor parms length validAttributes rest with
      | .error e => .error e
      | .ok rest1 => .ok ({ grid with tree := tree } :: rest1)

/-! ## Vocabulary of the statements -/

/-- The leaf has a `pscale` attribute whose declared element type is neither float nor half. -/
def PointDataLeaf.hasUnsupportedPscale (leaf : PointDataLeaf) : Prop :=
  ∃ idx, leaf.find "pscale" = some idx ∧
    leaf.type idx ≠ typeNameFloat ∧ leaf.type idx ≠ typeNameHalf

/-- The leaf has a `pscale` attribute at position `idx` declared as float or as half. -/
def PointDataLeaf.hasSupportedPscale (leaf : PointDataLeaf) (idx : Nat) : Prop :=
  leaf.find "pscale" = some idx ∧
    (leaf.type idx = typeNameFloat ∨ leaf.type idx = typeNameHalf)

/-- The scale value of point `i` read from the attribute at position `idx` (uniform or
per-point). -/
def PointDataLeaf.pscaleValue (leaf : PointDataLeaf) (idx i : Nat) : ℚ :=
  match leaf.attributes[idx]? with
  | some a => (a.array.get i).toScalar
  | none => 0

/-- The index-space position of the active point `ic`: voxel coordinate plus stored offset. -/
def PointDataLeaf.indexPosition (leaf : PointDataLeaf) (ic : Nat × Coord) : Vec3d :=
  ic.2.asVec3d + (leaf.P.get ic.1).toVec3

/-- No active point of any leaf of any grid passes the group filter. -/
def noPointPasses (gridPtrs : List PointDataGrid) (includeGroups excludeGroups : List Name) :
    Prop :=
  ∀ grid ∈ gridPtrs, ∀ leaf ∈ grid.tree, ∀ ic ∈ leaf.indexOn,
    MultiGroupFilter includeGroups excludeGroups leaf ic.1 = false

/-- What `operator()` does to the operator on one leaf it accepts: nothing when the leaf
has no `pscale`, otherwise the `expandBBox` instantiated at the declared type. -/
def GenerateBBoxOp.leafStep (op : GenerateBBoxOp) (leaf : PointDataLeaf) : GenerateBBoxOp :=
  match leaf.find "pscale" with
  | some idx => op.expandBBox (leaf.type idx) leaf (some idx)
  | none => op

/-- A run of `tbb::parallel_reduce` over one tree: a body processes a range (`run`), does
one thing after another (`seq`), or is split (`fork`): the split-off body is constructed
from the current body, handles `right` while the current body handles `left`, and is
joined into the current body afterwards. -/
inductive Schedule where
  | run (range : List PointDataLeaf)
  | seq (first second : Schedule)
  | fork (left right : Schedule)

namespace Schedule

/-- The leaves a schedule processes, range by range. -/
def leaves : Schedule → List PointDataLeaf
  | run range => range
  | seq first second => first.leaves ++ second.leaves
  | fork left right => left.leaves ++ right.leaves

/-- The body that results from running the schedule on the body `op`. -/
def exec : Schedule → GenerateBBoxOp → Except Error GenerateBBoxOp
  | run range, op => op.call range
  | seq first second, op =>
    match first.exec op with
    | .error e => .error e
    | .ok op1 => second.exec op1
  | fork left right, op =>
    let rhs := GenerateBBoxOp.split op
    match left.exec op with
    | .error e => .error e
    | .ok op1 =>
      match right.exec rhs with
      | .error e => .error e
      | .ok rhs1 => .ok (op1.join rhs1)

end Schedule

/-- The box one leaf contributes to the reduction: what `operator()` accumulates on that
leaf when it starts from the empty box. -/
def leafBox (t : Transform) (includeGroups excludeGroups : List Name) (leaf : PointDataLeaf) :
    BBoxd :=
  (GenerateBBoxOp.leafStep
    { mTransform := t, mBbox := BBoxd.empty, mIncludeGroups := includeGroups,
      mExcludeGroups := excludeGroups } leaf).mBbox

/-- The union of the boxes the leaves of a range contribute. -/
def rangeBox (t : Transform) (includeGroups excludeGroups : List Name) :
    List PointDataLeaf → BBoxd
  | [] => BBoxd.empty
  | leaf :: rest =>
    (leafBox t includeGroups excludeGroups leaf).expandBox
      (rangeBox t includeGroups excludeGroups rest)

/-- The index-space box the reduction over one tree produces. -/
def treeBox (includeGroups excludeGroups : List Name) (grid : PointDataGrid) : BBoxd :=
  rangeBox grid.transform includeGroups excludeGroups grid.tree

/-- Some leaf of some tree of the forest has a `pscale` of an unsupported declared type. -/
def forestHasUnsupportedPscale (gridPtrs : List PointDataGrid) : Prop :=
  ∃ grid ∈ gridPtrs, ∃ leaf ∈ grid.tree, leaf.hasUnsupportedPscale

/-- The normalised speed in the words of the specification: `clamp(speed / maxSpeed, 0, 1)`,
and 0 when `maxSpeed` is 0. -/
def normalizedSpeed (maxSpeed speed : ℚ) : ℚ :=
  if maxSpeed = 0 then 0 else max 0 (min (speed / maxSpeed) 1)

/-- The RGB part of the ramp value at position `t`. -/
def UT_Ramp.rgb (ramp : UT_Ramp) (t : ℚ) : Vec3d :=
  ⟨ramp.rampLookup t 0, ramp.rampLookup t 1, ramp.rampLookup t 2⟩

/-- The index-space radius `expandBBox` uses for point `i` of a leaf whose scale attribute
is at position `idx`: the point map `worldToIndex` applied to the splatted scale value. -/
def PointDataLeaf.indexRadius (leaf : PointDataLeaf) (t : Transform) (idx i : Nat) : Vec3d :=
  t.worldToIndex (Vec3d.splat (leaf.pscaleValue idx i))

/-- The operator with its collapse flag set to `flag`, every other member kept. -/
def PopulateColorFromVelocityOp.withCollapse (op : PopulateColorFromVelocityOp) (flag : Bool) :
    PopulateColorFromVelocityOp :=
  { op with mCollapseVelocityAfter := flag }

/-- The filtered branch of `expandBBox` (lines 159-172): the loop over `beginIndexOn(filter)`
with the filter built from the two group lists of the operator. -/
def GenerateBBoxOp.expandBBoxFiltered (op : GenerateBBoxOp) (pscaleType : String)
    (leaf : PointDataLeaf) (pscaleIndex : Option Nat) : GenerateBBoxOp :=
  let handle := GenerateBBoxOp.pscaleHandle pscaleType leaf pscaleIndex
  let body := GenerateBBoxOp.expandPoint op.mTransform leaf.P
    (GenerateBBoxOp.pscaleIsUniform handle) (GenerateBBoxOp.uniformPscale handle) handle
  let iter := leaf.indexOn.filter
    (fun ic => MultiGroupFilter op.mIncludeGroups op.mExcludeGroups leaf ic.1)
  GenerateBBoxOp.mk op.mTransform (iter.foldl body op.mBbox) op.mIncludeGroups op.mExcludeGroups

/-- The unfiltered branch of `expandBBox` (lines 176-189): the loop over `beginIndexOn()`. -/
def GenerateBBoxOp.expandBBoxUnfiltered (op : GenerateBBoxOp) (pscaleType : String)
    (leaf : PointDataLeaf) (pscaleIndex : Option Nat) : GenerateBBoxOp :=
  let handle := GenerateBBoxOp.pscaleHandle pscaleType leaf pscaleIndex
  let body := GenerateBBoxOp.expandPoint op.mTransform leaf.P
    (GenerateBBoxOp.pscaleIsUniform handle) (GenerateBBoxOp.uniformPscale handle) handle
  let iter := leaf.indexOn
  GenerateBBoxOp.mk op.mTransform (iter.foldl body op.mBbox) op.mIncludeGroups op.mExcludeGroups

/-- The filtered branch of the leaf loop of `PopulateColorFromVelocityOp::operator()`
(lines 256-263), the velocity handle being bound to `velocityArray`. -/
def PopulateColorFromVelocityOp.colorFiltered (op : PopulateColorFromVelocityOp)
    (length : Vec3d → ℚ) (leaf : PointDataLeaf) (velocityArray : AttributeArray) :
    PointDataLeaf :=
  let uniform := velocityArray.isUniform
  let uniformColor := op.getColorFromRamp length (velocityArray.get 0).toVec3
  let iter := leaf.indexOn.filter
    (fun ic => MultiGroupFilter op.mIncludeGroups op.mExcludeGroups leaf ic.1)
  iter.foldl (op.colorPoint length uniform uniformColor) leaf

/-- The unfiltered branch of the leaf loop of `PopulateColorFromVelocityOp::operator()`
(lines 267-273). -/
def PopulateColorFromVelocityOp.colorUnfiltered (op : PopulateColorFromVelocityOp)
    (length : Vec3d → ℚ) (leaf : PointDataLeaf) (velocityArray : AttributeArray) :
    PointDataLeaf :=
  let uniform := velocityArray.isUniform
  let uniformColor := op.getColorFromRamp length (velocityArray.get 0).toVec3
  let iter := leaf.indexOn
  iter.foldl (op.colorPoint length uniform uniformColor) leaf

/-- The method `getColorFromRamp` with the number of ramp lookups made so far threaded
through: one call makes one lookup. -/
def PopulateColorFromVelocityOp.getColorFromRampCounted (op : PopulateColorFromVelocityOp)
    (length : Vec3d → ℚ) (velocity : Vec3d) (lookups : Nat) : Vec3d × Nat :=
  (op.getColorFromRamp length velocity, lookups + 1)

/-- The loop body `colorPoint` with the number of ramp lookups threaded through. -/
def PopulateColorFromVelocityOp.colorPointCounted (op : PopulateColorFromVelocityOp)
    (length : Vec3d → ℚ) (uniform : Bool) (uniformColor : Vec3d)
    (state : PointDataLeaf × Nat) (ic : Nat × Coord) : PointDataLeaf × Nat :=
  let colorAndCount : Vec3d × Nat :=
    if uniform then (uniformColor, state.2)
    else op.getColorFromRampCounted length (state.1.readVec3 op.mVelocityIndex ic.1) state.2
  (state.1.writeVec3 op.mColorIndex ic.1 colorAndCount.1, colorAndCount.2)

/-- The leaf loop body `callLeaf` with the number of ramp lookups threaded through,
starting from zero. -/
def PopulateColorFromVelocityOp.callLeafCounted (op : PopulateColorFromVelocityOp)
    (length : Vec3d → ℚ) (leaf : PointDataLeaf) : Except Error (PointDataLeaf × Nat) :=
  match leaf.attributeArray op.mColorIndex with
  | .error e => .error e
  | .ok _ =>
    match leaf.attributeArray op.mVelocityIndex with
    | .error e => .error e
    | .ok velocityArray =>
      let uniform := velocityArray.isUniform
      let first := op.getColorFromRampCounted length (velocityArray.get 0).toVec3 0
      let uniformColor := first.1
      let colored : PointDataLeaf × Nat :=
        if !op.mIncludeGroups.isEmpty || !op.mExcludeGroups.isEmpty then
          let iter := leaf.indexOn.filter
            (fun ic => MultiGroupFilter op.mIncludeGroups op.mExcludeGroups leaf ic.1)
          iter.foldl (op.colorPointCounted length uniform uniformColor) (leaf, first.2)
        else
          let iter := leaf.indexOn
          iter.foldl (op.colorPointCounted length uniform uniformColor) (leaf, first.2)
      if op.mCollapseVelocityAfter then
        .ok (colored.1.collapseVec3 op.mVelocityIndex ⟨0, 0, 0⟩, colored.2)
      else .ok colored

/-- The leaf with the array at position `pos` expanded: stored per point, every point
holding the value a uniform array held. -/
def PointDataLeaf.expandAt (leaf : PointDataLeaf) (pos : Nat) : PointDataLeaf :=
  { leaf with attributes := modifyArrayAt AttributeArray.expand leaf.attributes pos }

/-- The include list as `render()` holds it after the seeding block of lines 467-484. -/
def seededInclude (mGridPtrs : List PointDataGrid)
    (includeAttributes excludeAttributes : List Name) : List Name :=
  if includeAttributes.isEmpty && !excludeAttributes.isEmpty then
    seedIncludeAttributes mGridPtrs includeAttributes
  else includeAttributes

/-- The union in the words of the specification: over exactly those trees of the forest
whose reduced index-space box is non-empty, of the tree's own index-to-world transform
applied to that box. -/
def worldUnion (includeGroups excludeGroups : List Name) (gridPtrs : List PointDataGrid) :
    BBoxd :=
  ((gridPtrs.filter (fun g => !(treeBox includeGroups excludeGroups g).isEmpty)).map
    (fun g => g.transform.indexToWorldBBox (treeBox includeGroups excludeGroups g))).foldl
    BBoxd.expandBox BBoxd.empty

/-- The box spanned by two corners given in any order: the box `[a, b]` when `a` is below
`b` on every axis. -/
def spanBox (a b : Vec3d) : BBoxd :=
  BBoxd.box (Vec3d.minComponent a b) (Vec3d.maxComponent a b)

/-! ## Bounds-checked reads and writes -/

/-- Modelled from the spec: the read `get(n)` with its range check (the attribute array
library is not part of the sources).  A uniform array answers with its single stored value;
an array stored one value per point holds elements `0 .. size - 1`, and `none` is the
out-of-range branch. -/
def AttributeArray.get? (a : AttributeArray) (n : Nat) : Option AttrValue :=
  if a.isUniform then some (a.data 0)
  else if n < a.size then some (a.data n)
  else none

/-- Modelled from the spec: the write `set(n, v)` with its range check; the array is
expanded to its `size` elements, of which `n` must be one. -/
def AttributeArray.set? (a : AttributeArray) (n : Nat) (v : AttrValue) :
    Option AttributeArray :=
  if n < a.size then some (a.set n v) else none

namespace PointDataLeaf

/-- The checked read through a vector handle bound to the array at position `pos`. -/
def readVec3? (leaf : PointDataLeaf) (pos i : Nat) : Option Vec3d :=
  match leaf.attributes[pos]? with
  | some a => (a.array.get? i).map AttrValue.toVec3
  | none => none

/-- The checked write through a vector handle bound to the array at position `pos`. -/
def writeVec3? (leaf : PointDataLeaf) (pos i : Nat) (v : Vec3d) : Option PointDataLeaf :=
  match leaf.attributes[pos]? with
  | some a => if i < a.array.size then some (leaf.writeVec3 pos i v) else none
  | none => none

end PointDataLeaf

namespace GenerateBBoxOp

/-- The loop body `expandPoint` with every read checked: `none` when the read of the scale
or of the position of the point is out of range. -/
def expandPointChecked (t : Transform) (positionHandle : AttributeArray)
    (pscaleIsUniform : Bool) (uniformPscale : ℚ) (pscaleHandle : Option AttributeArray)
    (b : BBoxd) (ic : Nat × Coord) : Option BBoxd :=
  let pscaleRead : Option ℚ :=
    if pscaleIsUniform then some uniformPscale
    else match pscaleHandle with
      | some h => (h.get? ic.1).map AttrValue.toScalar
      | none => some uniformPscale
  match pscaleRead with
  | none => none
  | some pscale =>
    match positionHandle.get? ic.1 with
    | none => none
    | some offset =>
      let radius := t.worldToIndex (Vec3d.splat pscale)
      let position := ic.2.asVec3d + offset.toVec3
      some ((b.expand (position - radius)).expand (position + radius))

/-- The method `expandBBox` with every read checked: the unconditional read of element 0
of a bound scale handle, then the reads of the loop. -/
def expandBBoxChecked (op : GenerateBBoxOp) (pscaleType : String) (leaf : PointDataLeaf)
    (pscaleIndex : Option Nat) : Option GenerateBBoxOp :=
  let positionHandle := leaf.P
  let handle := pscaleHandle pscaleType leaf pscaleIndex
  let uniformRead : Option ℚ :=
    match handle with
    | some h => (h.get? 0).map AttrValue.toScalar
    | none => some DEFAULT_PSCALE
  match uniformRead with
  | none => none
  | some uniformPscale =>
    let body := fun (state : Option BBoxd) (ic : Nat × Coord) =>
      state.bind (fun b => expandPointChecked op.mTransform positionHandle
        (pscaleIsUniform handle) uniformPscale handle b ic)
    let iter :=
      if !op.mIncludeGroups.isEmpty || !op.mExcludeGroups.isEmpty then
        leaf.indexOn.filter
          (fun ic => MultiGroupFilter op.mIncludeGroups op.mExcludeGroups leaf ic.1)
      else leaf.indexOn
    (iter.foldl body (some op.mBbox)).map
      (fun b => GenerateBBoxOp.mk op.mTransform b op.mIncludeGroups op.mExcludeGroups)

end GenerateBBoxOp

namespace PopulateColorFromVelocityOp

/-- The loop body `colorPoint` with its read and its write checked. -/
def colorPointChecked (op : PopulateColorFromVelocityOp) (length : Vec3d → ℚ)
    (uniform : Bool) (uniformColor : Vec3d) (leaf : PointDataLeaf) (ic : Nat × Coord) :
    Option PointDataLeaf :=
  let colorRead : Option Vec3d :=
    if uniform then some uniformColor
    else (leaf.readVec3? op.mVelocityIndex ic.1).map (op.getColorFromRamp length)
  match colorRead with
  | none => none
  | some color => leaf.writeVec3? op.mColorIndex ic.1 color

/-- The leaf loop body `callLeaf` with every read and write checked: the unconditional read
of element 0 of the velocity, then the loop; `.ok none` is the out-of-range branch. -/
def callLeafChecked (op : PopulateColorFromVelocityOp) (length : Vec3d → ℚ)
    (leaf : PointDataLeaf) : Except Error (Option PointDataLeaf) :=
  match leaf.attributeArray op.mColorIndex with
  | .error e => .error e
  | .ok _ =>
    match leaf.attributeArray op.mVelocityIndex with
    | .error e => .error e
    | .ok velocityArray =>
      let uniform := velocityArray.isUniform
      match velocityArray.get? 0 with
      | none => .ok none
      | some first =>
        let uniformColor := op.getColorFromRamp length first.toVec3
        let body := fun (state : Option PointDataLeaf) (ic : Nat × Coord) =>
          state.bind (fun l => op.colorPointChecked length uniform uniformColor l ic)
        let iter :=
          if !op.mIncludeGroups.isEmpty || !op.mExcludeGroups.isEmpty then
            leaf.indexOn.filter
              (fun ic => MultiGroupFilter op.mIncludeGroups op.mExcludeGroups leaf ic.1)
          else leaf.indexOn
        .ok ((iter.foldl body (some leaf)).map (fun colored =>
          if op.mCollapseVelocityAfter then colored.collapseVec3 op.mVelocityIndex ⟨0, 0, 0⟩
          else colored))

end PopulateColorFromVelocityOp

/-- The array holds an element for every index listed: it is uniform, or every index is
below its size. -/
def AttributeArray.holds (a : AttributeArray) (indices : List (Nat × Coord)) : Prop :=
  a.isUniform = true ∨ ∀ ic ∈ indices, ic.1 < a.size

/-- Element 0 of the array exists: it is uniform, or it has at least one element. -/
def AttributeArray.hasFirst (a : AttributeArray) : Prop :=
  a.isUniform = true ∨ 0 < a.size

/-! ## Source: the normalised speed in `float` arithmetic -/

/-- A value of the machine type `float`: not a number, an infinity, or a finite number.
The two zeros are not told apart. -/
inductive FloatValue where
  | nan
  | negInf
  | posInf
  | finite (q : ℚ)
deriving DecidableEq

namespace FloatValue

/-- The comparison `a > b` of two floats: false as soon as an operand is not a number. -/
def gt : FloatValue → FloatValue → Bool
  | nan, _ => false
  | _, nan => false
  | negInf, _ => false
  | _, posInf => false
  | posInf, _ => true
  | finite _, negInf => true
  | finite a, finite b => decide (b < a)

/-- The comparison `a < b` of two floats. -/
def lt (a b : FloatValue) : Bool := b.gt a

/-- The comparison `a == b` of two floats: false as soon as an operand is not a number. -/
def eq : FloatValue → FloatValue → Bool
  | nan, _ => false
  | _, nan => false
  | a, b => decide (a = b)

/-- The quotient `a / b` of two floats.  The quotient of two finite numbers with a
non-zero divisor is the rounding `fl` of the exact quotient; a finite number over zero is
an infinity of the sign of the dividend, and zero over zero is not a number. -/
def div (fl : ℚ → FloatValue) : FloatValue → FloatValue → FloatValue
  | nan, _ => nan
  | _, nan => nan
  | finite a, finite b =>
    if b = 0 then (if a = 0 then nan else if 0 < a then posInf else negInf)
    else fl (a / b)
  | finite _, _ => finite 0
  | posInf, finite b => if b < 0 then negInf else posInf
  | negInf, finite b => if b < 0 then posInf else negInf
  | _, _ => nan

end FloatValue

/-- The local `proportionalSpeed` of `getColorFromRamp` in `float` arithmetic, after its two
clamping statements, paired with the number of divisions performed.  The argument `len` is
the value of `velocity.length()`. -/
def proportionalSpeedFloat (fl : ℚ → FloatValue) (mMaxSpeed len : FloatValue) :
    FloatValue × Nat :=
  let p0 : FloatValue × Nat :=
    if mMaxSpeed.eq (FloatValue.finite 0) then (FloatValue.finite 0, 0)
    else (len.div fl mMaxSpeed, 1)
  let p1 : FloatValue := if p0.1.gt (FloatValue.finite 1) then FloatValue.finite 1 else p0.1
  (if p1.lt (FloatValue.finite 0) then FloatValue.finite 0 else p1, p0.2)

/-- The float is a number of the closed interval [0,1]. -/
def FloatValue.inUnitInterval (v : FloatValue) : Prop :=
  ∃ q, v = FloatValue.finite q ∧ 0 ≤ q ∧ q ≤ 1

/-- The clamp to [0,1] in the words of the specification, on floats: an infinity goes to
the nearer end, and what is not a number stays so. -/
def FloatValue.clamp : FloatValue → FloatValue
  | FloatValue.nan => FloatValue.nan
  | FloatValue.negInf => FloatValue.finite 0
  | FloatValue.posInf => FloatValue.finite 1
  | FloatValue.finite q => FloatValue.finite (max 0 (min q 1))

/-- The scale value `s`, a world-space length, in index units of the tree: `s` divided by
the voxel size along each axis. -/
def Transform.indexSpaceRadius (t : Transform) (s : ℚ) : Vec3d :=
  ⟨s / t.scale.x, s / t.scale.y, s / t.scale.z⟩

/-- The preparation of `Cd` that the speed-to-colour block performs before its dispatch, in
the words of its two comments: an existing `Cd` of a supported type is kept, one of another
type is dropped, and a `Vec3H` `Cd` is appended when none is left.  `leaf` is the first
leaf of the tree. -/
def prepareColor (tree : List PointDataLeaf) (leaf : PointDataLeaf) : List PointDataLeaf :=
  match leaf.find "Cd" with
  | some colorIndex =>
    if leaf.type colorIndex = typeNameVec3f ∨ leaf.type colorIndex = typeNameVec3H then tree
    else appendAttribute (dropAttribute tree "Cd") "Cd" typeNameVec3H
  | none => appendAttribute tree "Cd" typeNameVec3H

/-! ## Concrete inputs -/

/-- The transform with unit voxel size and no translation. -/
def identityTransform : Transform := ⟨⟨1, 1, 1⟩, ⟨0, 0, 0⟩⟩

/-- A per-point position array whose every offset is the zero vector. -/
def zeroPositions : AttributeArray :=
  { size := 1, isUniform := false, data := fun _ => AttrValue.vec3 ⟨0, 0, 0⟩ }

/-- A leaf with one active point (index 0, voxel origin), in no group, and no attribute
besides `P`: in particular no `pscale`. -/
def leafWithoutPscale : PointDataLeaf :=
  { P := zeroPositions, attributes := [], indexOn := [(0, ⟨0, 0, 0⟩)],
    inGroup := fun _ _ => false }

/-- A leaf with one active point (index 0, voxel origin) and a uniform float `pscale` of
one tenth. -/
def leafWithPscale : PointDataLeaf :=
  { P := zeroPositions,
    attributes := [⟨"pscale", "float",
      { size := 1, isUniform := true, data := fun _ => AttrValue.scalar (1 / 10) }⟩],
    indexOn := [(0, ⟨0, 0, 0⟩)], inGroup := fun _ _ => false }

/-- A transform with unit voxel size translated by one tenth along every axis. -/
def translatedTransform : Transform := ⟨⟨1, 1, 1⟩, ⟨1 / 10, 1 / 10, 1 / 10⟩⟩

/-- A leaf without points whose `pscale` attribute is declared as a 32-bit integer. -/
def leafWithIntPscale : PointDataLeaf :=
  { P := zeroPositions,
    attributes := [⟨"pscale", "int32",
      { size := 0, isUniform := true, data := fun _ => AttrValue.scalar 1 }⟩],
    indexOn := [], inGroup := fun _ _ => false }

/-- A schedule that splits a three-leaf tree twice and processes the ranges out of order. -/
def sampleSchedule : Schedule :=
  Schedule.fork
    (Schedule.seq (Schedule.run [leafWithPscale])
      (Schedule.fork (Schedule.run []) (Schedule.run [leafWithoutPscale])))
    (Schedule.run [leafWithPscale])

/-- A ramp from black to white: every channel equals the position. -/
def grayRamp : UT_Ramp := ⟨fun t _ => t⟩

/-- A stand-in for the norm on concrete inputs: exact on vectors along the x axis. -/
def axisLength (v : Vec3d) : ℚ := |v.x| + |v.y| + |v.z|

/-- A uniform colour array of two black entries. -/
def blackColors : AttributeArray :=
  { size := 2, isUniform := true, data := fun _ => AttrValue.vec3 ⟨0, 0, 0⟩ }

/-- A per-point velocity array: point 0 moves at speed 1, point 1 at speed 4, along x. -/
def twoVelocities : AttributeArray :=
  { size := 2, isUniform := false,
    data := fun i => AttrValue.vec3 ⟨if i = 0 then 1 else 4, 0, 0⟩ }

/-- A leaf with two active points, point 1 in group `slow`; attribute 0 is a float-vector
colour `Cd`, attribute 1 a float-vector velocity `v`. -/
def leafWithVelocity : PointDataLeaf :=
  { P := zeroPositions,
    attributes := [⟨"Cd", "vec3s", blackColors⟩, ⟨"v", "vec3s", twoVelocities⟩],
    indexOn := [(0, ⟨0, 0, 0⟩), (1, ⟨1, 0, 0⟩)],
    inGroup := fun g i => g = "slow" && i = 1 }

/-- An operator colouring attribute 0 from velocity attribute 1 with the gray ramp, maximum
speed 2, excluding the group `slow`, and collapsing the velocity afterwards. -/
def sampleColorOp : PopulateColorFromVelocityOp :=
  { mColorIndex := 0, mVelocityIndex := 1, mRamp := grayRamp, mMaxSpeed := 2,
    mIncludeGroups := [], mExcludeGroups := ["slow"], mCollapseVelocityAfter := true }

/-- A leaf with two active points and a per-point float-vector velocity `v`, without `Cd`. -/
def leafOnlyVelocity : PointDataLeaf :=
  { P := zeroPositions, attributes := [⟨"v", "vec3s", twoVelocities⟩],
    indexOn := [(0, ⟨0, 0, 0⟩), (1, ⟨1, 0, 0⟩)], inGroup := fun _ _ => false }

/-- Render settings: no group filter, maximum speed 2, the gray ramp. -/
def sampleParms : RenderParms :=
  { mIncludeGroups := [], mExcludeGroups := [], mMaxSpeed := 2, mFunctionRamp := grayRamp }

/-- The two-point leaf with one uniform velocity of speed 1 along x for both points. -/
def leafWithUniformVelocity : PointDataLeaf :=
  { P := zeroPositions,
    attributes := [⟨"Cd", "vec3s", blackColors⟩,
      ⟨"v", "vec3s", ⟨2, true, fun _ => AttrValue.vec3 ⟨1, 0, 0⟩⟩⟩],
    indexOn := [(0, ⟨0, 0, 0⟩), (1, ⟨1, 0, 0⟩)],
    inGroup := fun g i => g = "slow" && i = 1 }

/-- A uniform float scale of one tenth. -/
def tenthScale : AttributeArray :=
  { size := 3, isUniform := true, data := fun _ => AttrValue.scalar (1 / 10) }

/-- Leaf A of the two-leaf scenario: three active points in the voxels (0,0,0), (1,0,0) and
(2,0,0), zero offsets, uniform float `pscale` one tenth, in no group. -/
def leafThreePoints : PointDataLeaf :=
  { P := zeroPositions, attributes := [⟨"pscale", "float", tenthScale⟩],
    indexOn := [(0, ⟨0, 0, 0⟩), (1, ⟨1, 0, 0⟩), (2, ⟨2, 0, 0⟩)],
    inGroup := fun _ _ => false }

/-- Leaf B of the two-leaf scenario: one active point far away, in the group `hidden`. -/
def leafAllHidden : PointDataLeaf :=
  { P := zeroPositions, attributes := [⟨"pscale", "float", tenthScale⟩],
    indexOn := [(0, ⟨8, 8, 8⟩)], inGroup := fun g _ => g = "hidden" }

/-- A transform with voxel size two and no translation. -/
def doubleTransform : Transform := ⟨⟨2, 2, 2⟩, ⟨0, 0, 0⟩⟩

/-- The two-point leaf with a float-vector colour `Cd` and a velocity `v` declared with the
double-precision vector type. -/
def leafDoubleVelocity : PointDataLeaf :=
  { P := zeroPositions,
    attributes := [⟨"Cd", "vec3s", blackColors⟩, ⟨"v", "vec3d", twoVelocities⟩],
    indexOn := [(0, ⟨0, 0, 0⟩), (1, ⟨1, 0, 0⟩)], inGroup := fun _ _ => false }

/-- A per-point array of vectors with no element. -/
def noVectors : AttributeArray :=
  { size := 0, isUniform := false, data := fun _ => AttrValue.vec3 ⟨0, 0, 0⟩ }

/-- A per-point array of scalars with no element. -/
def noScalars : AttributeArray :=
  { size := 0, isUniform := false, data := fun _ => AttrValue.scalar 0 }

/-- A leaf that holds no points and stores every attribute one value per point, hence with
no element: colour `Cd` at 0, velocity `v` at 1, float `pscale` at 2. -/
def leafNoPoints : PointDataLeaf :=
  { P := noVectors,
    attributes := [⟨"Cd", "vec3s", noVectors⟩, ⟨"v", "vec3s", noVectors⟩,
      ⟨"pscale", "float", noScalars⟩],
    indexOn := [], inGroup := fun _ _ => false }

/-- A box operator on the identity transform with an empty box and no group filter. -/
def sampleBBoxOp : GenerateBBoxOp :=
  { mTransform := identityTransform, mBbox := BBoxd.empty, mIncludeGroups := [],
    mExcludeGroups := [] }

/-- A per-point position array of two zero offsets. -/
def twoPositions : AttributeArray :=
  { size := 2, isUniform := false, data := fun _ => AttrValue.vec3 ⟨0, 0, 0⟩ }

/-- A per-point scale array: one tenth for point 0, two tenths for point 1. -/
def twoScales : AttributeArray :=
  { size := 2, isUniform := false,
    data := fun i => AttrValue.scalar (if i = 0 then 1 / 10 else 2 / 10) }

/-- A leaf with two active points, point 1 in group `slow`, every array holding two
elements: colour `Cd` at 0, velocity `v` at 1, float `pscale` at 2. -/
def leafTwoPoints : PointDataLeaf :=
  { P := twoPositions,
    attributes := [⟨"Cd", "vec3s", blackColors⟩, ⟨"v", "vec3s", twoVelocities⟩,
      ⟨"pscale", "float", twoScales⟩],
    indexOn := [(0, ⟨0, 0, 0⟩), (1, ⟨1, 0, 0⟩)],
    inGroup := fun g i => g = "slow" && i = 1 }

/-! ## Lemmas: vectors and boxes -/

namespace Vec3d

@[simp] theorem add_def (a b : Vec3d) : a + b = ⟨a.x + b.x, a.y + b.y, a.z + b.z⟩ := rfl

@[simp] theorem sub_def (a b : Vec3d) : a - b = ⟨a.x - b.x, a.y - b.y, a.z - b.z⟩ := rfl

theorem minComponent_comm (a b : Vec3d) : minComponent a b = minComponent b a := by
  simp [minComponent, min_comm]

theorem maxComponent_comm (a b : Vec3d) : maxComponent a b = maxComponent b a := by
  simp [maxComponent, max_comm]

theorem minComponent_assoc (a b c : Vec3d) :
    minComponent (minComponent a b) c = minComponent a (minComponent b c) := by
  simp [minComponent, min_assoc]

theorem maxComponent_assoc (a b c : Vec3d) :
    maxComponent (maxComponent a b) c = maxComponent a (maxComponent b c) := by
  simp [maxComponent, max_assoc]

@[simp] theorem minComponent_self (a : Vec3d) : minComponent a a = a := by
  simp [minComponent]

@[simp] theorem maxComponent_self (a : Vec3d) : maxComponent a a = a := by
  simp [maxComponent]

end Vec3d

namespace BBoxd

@[simp] theorem expandBox_empty (b : BBoxd) : b.expandBox empty = b := by
  cases b <;> rfl

@[simp] theorem empty_expandBox (b : BBoxd) : empty.expandBox b = b := by
  cases b <;> rfl

theorem expandBox_comm (a b : BBoxd) : a.expandBox b = b.expandBox a := by
  cases a <;> cases b <;>
    simp [expandBox, Vec3d.minComponent_comm, Vec3d.maxComponent_comm]

theorem expandBox_assoc (a b c : BBoxd) :
    (a.expandBox b).expandBox c = a.expandBox (b.expandBox c) := by
  cases a <;> cases b <;> cases c <;>
    simp [expandBox, Vec3d.minComponent_assoc, Vec3d.maxComponent_assoc]

@[simp] theorem expandBox_self (a : BBoxd) : a.expandBox a = a := by
  cases a <;> simp [expandBox]

theorem expand_eq_expandBox (b : BBoxd) (p : Vec3d) : b.expand p = b.expandBox (box p p) := by
  cases b <;> rfl

theorem isEmpty_iff (b : BBoxd) : b.isEmpty = true ↔ b = empty := by
  cases b <;> simp [isEmpty]

theorem expandBox_eq_empty {a b : BBoxd} (h : a.expandBox b = empty) : a = empty ∧ b = empty := by
  cases a <;> cases b <;> simp_all [expandBox]

theorem isInside_expandBox_left {a : BBoxd} {p : Vec3d} (b : BBoxd) (h : a.isInside p) :
    (a.expandBox b).isInside p := by
  cases a with
  | empty => exact absurd h (by simp [isInside])
  | box mn mx =>
    cases b with
    | empty => exact h
    | box mn2 mx2 =>
      obtain ⟨⟨h1, h2, h3⟩, h4, h5, h6⟩ := h
      simp only [expandBox, isInside, Vec3d.le, Vec3d.minComponent, Vec3d.maxComponent]
      exact ⟨⟨min_le_of_left_le h1, min_le_of_left_le h2, min_le_of_left_le h3⟩,
        le_max_of_le_left h4, le_max_of_le_left h5, le_max_of_le_left h6⟩

theorem isInside_expandBox_right (a : BBoxd) {b : BBoxd} {p : Vec3d} (h : b.isInside p) :
    (a.expandBox b).isInside p := by
  rw [expandBox_comm]; exact isInside_expandBox_left a h

theorem isInside_expand_self (b : BBoxd) (p : Vec3d) : (b.expand p).isInside p := by
  rw [expand_eq_expandBox]
  exact isInside_expandBox_right b ⟨⟨le_refl _, le_refl _, le_refl _⟩, le_refl _, le_refl _, le_refl _⟩

theorem isInside_expand {b : BBoxd} {p : Vec3d} (q : Vec3d) (h : b.isInside p) :
    (b.expand q).isInside p := by
  rw [expand_eq_expandBox]; exact isInside_expandBox_left _ h

end BBoxd

/-! ## Lemmas: the reduction over the leaves of one tree -/

theorem MultiGroupFilter_nil (leaf : PointDataLeaf) (i : Nat) :
    MultiGroupFilter [] [] leaf i = true := by
  simp [MultiGroupFilter]

theorem findPos_getElem? {name : Name} {l : List Attribute} {idx : Nat}
    (h : findPos name l = some idx) : ∃ a, l[idx]? = some a ∧ a.name = name := by
  induction l generalizing idx with
  | nil => simp [findPos] at h
  | cons a rest ih =>
    unfold findPos at h
    split at h
    · rename_i hn
      cases h
      exact ⟨a, by simp, hn⟩
    · cases hf : findPos name rest with
      | none => simp [hf] at h
      | some j =>
        simp [hf] at h
        subst h
        obtain ⟨b, hb, hbn⟩ := ih hf
        exact ⟨b, by simpa using hb, hbn⟩

namespace GenerateBBoxOp

theorem expandBBox_eq (op : GenerateBBoxOp) (ty : String) (leaf : PointDataLeaf)
    (pscaleIndex : Option Nat) :
    op.expandBBox ty leaf pscaleIndex =
      GenerateBBoxOp.mk op.mTransform
        ((leaf.indexOn.filter
          (fun ic => MultiGroupFilter op.mIncludeGroups op.mExcludeGroups leaf ic.1)).foldl
          (expandPoint op.mTransform leaf.P (pscaleIsUniform (pscaleHandle ty leaf pscaleIndex))
            (uniformPscale (pscaleHandle ty leaf pscaleIndex)) (pscaleHandle ty leaf pscaleIndex))
          op.mBbox)
        op.mIncludeGroups op.mExcludeGroups := by
  unfold expandBBox
  by_cases hg : (!op.mIncludeGroups.isEmpty || !op.mExcludeGroups.isEmpty) = true
  · simp only [hg, if_true]
  · have h1 : op.mIncludeGroups = [] := by
      cases hi : op.mIncludeGroups with
      | nil => rfl
      | cons a l => simp [hi] at hg
    have h2 : op.mExcludeGroups = [] := by
      cases hi : op.mExcludeGroups with
      | nil => rfl
      | cons a l => simp [hi] at hg
    simp [h1, h2, MultiGroupFilter_nil]

end GenerateBBoxOp

namespace GenerateBBoxOp

theorem expandPoint_eq (t : Transform) (P : AttributeArray) (u : Bool) (s : ℚ)
    (h : Option AttributeArray) (b : BBoxd) (ic : Nat × Coord) :
    expandPoint t P u s h b ic = b.expandBox (expandPoint t P u s h BBoxd.empty ic) := by
  simp only [expandPoint, BBoxd.expand_eq_expandBox, BBoxd.empty_expandBox,
    BBoxd.expandBox_assoc]

theorem foldl_expandPoint (t : Transform) (P : AttributeArray) (u : Bool) (s : ℚ)
    (h : Option AttributeArray) (pts : List (Nat × Coord)) (b : BBoxd) :
    pts.foldl (expandPoint t P u s h) b =
      b.expandBox (pts.foldl (expandPoint t P u s h) BBoxd.empty) := by
  induction pts generalizing b with
  | nil => simp
  | cons p rest ih =>
    simp only [List.foldl_cons]
    rw [ih (expandPoint t P u s h b p), ih (expandPoint t P u s h BBoxd.empty p),
      expandPoint_eq t P u s h b p, BBoxd.expandBox_assoc]

theorem leafStep_eq (op : GenerateBBoxOp) (leaf : PointDataLeaf) :
    op.leafStep leaf =
      GenerateBBoxOp.mk op.mTransform
        (op.mBbox.expandBox (leafBox op.mTransform op.mIncludeGroups op.mExcludeGroups leaf))
        op.mIncludeGroups op.mExcludeGroups := by
  unfold leafBox leafStep
  cases leaf.find "pscale" with
  | none => simp
  | some idx =>
    simp only [expandBBox_eq]
    rw [foldl_expandPoint]

theorem call_cons_of_supported (op : GenerateBBoxOp) (leaf : PointDataLeaf)
    (rest : List PointDataLeaf) (h : ¬ leaf.hasUnsupportedPscale) :
    op.call (leaf :: rest) = (op.leafStep leaf).call rest := by
  unfold PointDataLeaf.hasUnsupportedPscale at h
  rw [call]
  unfold leafStep
  cases hf : leaf.find "pscale" with
  | none => simp
  | some idx =>
    simp only
    by_cases h1 : leaf.type idx = typeNameFloat
    · simp [h1]
    · by_cases h2 : leaf.type idx = typeNameHalf
      · rw [if_neg h1, if_pos h2, h2]
      · exact absurd ⟨idx, hf, h1, h2⟩ h

theorem call_cons_of_unsupported (op : GenerateBBoxOp) (leaf : PointDataLeaf)
    (rest : List PointDataLeaf) (h : leaf.hasUnsupportedPscale) :
    ∃ msg, op.call (leaf :: rest) = .error (.typeError msg) := by
  obtain ⟨idx, hf, h1, h2⟩ := h
  refine ⟨"Unsupported pscale type - " ++ leaf.type idx, ?_⟩
  rw [call]
  simp [hf, h1, h2]

theorem call_of_supported (leaves : List PointDataLeaf) (op : GenerateBBoxOp)
    (h : ∀ leaf ∈ leaves, ¬ leaf.hasUnsupportedPscale) :
    op.call leaves = .ok (GenerateBBoxOp.mk op.mTransform
      (op.mBbox.expandBox (rangeBox op.mTransform op.mIncludeGroups op.mExcludeGroups leaves))
      op.mIncludeGroups op.mExcludeGroups) := by
  induction leaves generalizing op with
  | nil => simp [call, rangeBox]
  | cons leaf rest ih =>
    rw [call_cons_of_supported op leaf rest (h leaf (List.mem_cons_self _ _)),
      ih _ (fun l hl => h l (List.mem_cons_of_mem _ hl)), leafStep_eq]
    simp [rangeBox, BBoxd.expandBox_assoc]

theorem call_of_unsupported (leaves : List PointDataLeaf) (op : GenerateBBoxOp)
    (h : ∃ leaf ∈ leaves, leaf.hasUnsupportedPscale) :
    ∃ msg, op.call leaves = .error (.typeError msg) := by
  induction leaves generalizing op with
  | nil => obtain ⟨l, hl, _⟩ := h; simp at hl
  | cons leaf rest ih =>
    by_cases hb : leaf.hasUnsupportedPscale
    · exact call_cons_of_unsupported op leaf rest hb
    · rw [call_cons_of_supported op leaf rest hb]
      apply ih
      obtain ⟨l, hl, hbad⟩ := h
      rcases List.mem_cons.mp hl with rfl | hl
      · exact absurd hbad hb
      · exact ⟨l, hl, hbad⟩

end GenerateBBoxOp

/-! ## The bounds reduction: leaves without a scale attribute -/

/-- C1 (defect): a leaf without `pscale` is skipped by `operator()`, so its points never reach
`expandBBox` and its default radius.  The forest of one identity-transformed tree whose
only leaf has one active, filter-passing point and no `pscale` gets the empty box. -/
theorem getBoundingBox_skips_leaf_without_pscale :
    leafWithoutPscale.find "pscale" = none ∧
    (0, (⟨0, 0, 0⟩ : Coord)) ∈ leafWithoutPscale.indexOn ∧
    MultiGroupFilter [] [] leafWithoutPscale 0 = true ∧
    getBoundingBox [⟨identityTransform, [leafWithoutPscale]⟩] [] [] = .ok BBoxd.empty ∧
    (GenerateBBoxOp.expandBBox ⟨identityTransform, BBoxd.empty, [], []⟩ typeNameFloat
      leafWithoutPscale none).mBbox =
      BBoxd.box ⟨-(1 / 20), -(1 / 20), -(1 / 20)⟩ ⟨1 / 20, 1 / 20, 1 / 20⟩ := by
  refine ⟨rfl, by simp [leafWithoutPscale], rfl, rfl, ?_⟩
  simp [GenerateBBoxOp.expandBBox, GenerateBBoxOp.expandPoint, GenerateBBoxOp.pscaleHandle,
    GenerateBBoxOp.pscaleIsUniform, GenerateBBoxOp.uniformPscale, DEFAULT_PSCALE,
    leafWithoutPscale, zeroPositions, identityTransform, AttributeArray.get,
    AttrValue.toVec3, Transform.worldToIndex, Vec3d.splat, Coord.asVec3d, BBoxd.expand,
    Vec3d.minComponent, Vec3d.maxComponent]

/-- C2 (defect): the radius is obtained with the point map `worldToIndex`, which subtracts
the translation.  With unit voxels translated by one tenth, a point at the index origin
with scale one tenth gets radius zero: the box is the single world position, and the
corner `world position - s` lies outside it. -/
theorem getBoundingBox_translation_shrinks_radius :
    leafWithPscale.hasSupportedPscale 0 ∧
    (0, (⟨0, 0, 0⟩ : Coord)) ∈ leafWithPscale.indexOn ∧
    MultiGroupFilter [] [] leafWithPscale 0 = true ∧
    leafWithPscale.pscaleValue 0 0 = 1 / 10 ∧
    translatedTransform.indexToWorld (leafWithPscale.indexPosition (0, ⟨0, 0, 0⟩)) =
      ⟨1 / 10, 1 / 10, 1 / 10⟩ ∧
    getBoundingBox [⟨translatedTransform, [leafWithPscale]⟩] [] [] =
      .ok (BBoxd.box ⟨1 / 10, 1 / 10, 1 / 10⟩ ⟨1 / 10, 1 / 10, 1 / 10⟩) ∧
    ¬ (BBoxd.box ⟨1 / 10, 1 / 10, 1 / 10⟩ ⟨1 / 10, 1 / 10, 1 / 10⟩).isInside
      ((⟨1 / 10, 1 / 10, 1 / 10⟩ : Vec3d) - Vec3d.splat (1 / 10)) := by
  refine ⟨⟨rfl, Or.inl rfl⟩, by simp [leafWithPscale], rfl, ?_, ?_, ?_, ?_⟩
  · simp [PointDataLeaf.pscaleValue, leafWithPscale, AttributeArray.get, AttrValue.toScalar]
  · simp [PointDataLeaf.indexPosition, leafWithPscale, zeroPositions, AttributeArray.get,
      AttrValue.toVec3, Coord.asVec3d, Transform.indexToWorld, translatedTransform]
  · simp [getBoundingBox, getBoundingBoxLoop, GenerateBBoxOp.call, PointDataLeaf.find, findPos,
      leafWithPscale, PointDataLeaf.type, typeNameFloat, GenerateBBoxOp.expandBBox,
      GenerateBBoxOp.expandPoint, GenerateBBoxOp.pscaleHandle, GenerateBBoxOp.pscaleIsUniform,
      GenerateBBoxOp.uniformPscale, translatedTransform, zeroPositions, AttributeArray.get,
      AttrValue.toScalar, AttrValue.toVec3, Transform.worldToIndex, Vec3d.splat,
      Coord.asVec3d, BBoxd.expand, BBoxd.isEmpty, Transform.indexToWorldBBox,
      Transform.indexToWorld, BBoxd.expandBox, Vec3d.minComponent, Vec3d.maxComponent]
  · simp [BBoxd.isInside, Vec3d.le, Vec3d.splat]

/-! ## The bounds reduction over the forest -/

theorem getBoundingBoxLoop_of_supported (inc exc : List Name) (grids : List PointDataGrid)
    (wb : BBoxd) (h : ¬ forestHasUnsupportedPscale grids) :
    getBoundingBoxLoop inc exc grids wb =
      .ok (grids.foldl (fun w g =>
        if (treeBox inc exc g).isEmpty then w
        else w.expandBox (g.transform.indexToWorldBBox (treeBox inc exc g))) wb) := by
  induction grids generalizing wb with
  | nil => simp [getBoundingBoxLoop]
  | cons grid rest ih =>
    have hrest : ¬ forestHasUnsupportedPscale rest := fun ⟨g, hg, l, hl, hbad⟩ =>
      h ⟨g, List.mem_cons_of_mem _ hg, l, hl, hbad⟩
    have hgrid : ∀ leaf ∈ grid.tree, ¬ leaf.hasUnsupportedPscale := fun l hl hbad =>
      h ⟨grid, List.mem_cons_self _ _, l, hl, hbad⟩
    rw [getBoundingBoxLoop, GenerateBBoxOp.call_of_supported grid.tree _ hgrid]
    simp only [BBoxd.empty_expandBox, List.foldl_cons]
    by_cases he : (treeBox inc exc grid).isEmpty = true
    · have he2 : (rangeBox grid.transform inc exc grid.tree).isEmpty = true := he
      simp only [he, he2, if_true]
      exact ih wb hrest
    · have he2 : ¬ (rangeBox grid.transform inc exc grid.tree).isEmpty = true := he
      simp only [he, he2, if_false]
      exact ih _ hrest

theorem getBoundingBoxLoop_of_unsupported (inc exc : List Name) (grids : List PointDataGrid)
    (wb : BBoxd) (h : forestHasUnsupportedPscale grids) :
    ∃ msg, getBoundingBoxLoop inc exc grids wb = .error (.typeError msg) := by
  induction grids generalizing wb with
  | nil => obtain ⟨g, hg, _⟩ := h; simp at hg
  | cons grid rest ih =>
    by_cases hgrid : ∃ leaf ∈ grid.tree, leaf.hasUnsupportedPscale
    · obtain ⟨msg, hmsg⟩ := GenerateBBoxOp.call_of_unsupported grid.tree
        ⟨grid.transform, BBoxd.empty, inc, exc⟩ hgrid
      exact ⟨msg, by rw [getBoundingBoxLoop, hmsg]⟩
    · have hrest : forestHasUnsupportedPscale rest := by
        obtain ⟨g, hg, l, hl, hbad⟩ := h
        rcases List.mem_cons.mp hg with rfl | hg
        · exact absurd ⟨l, hl, hbad⟩ hgrid
        · exact ⟨g, hg, l, hl, hbad⟩
      have hok : ∀ leaf ∈ grid.tree, ¬ leaf.hasUnsupportedPscale := fun l hl hbad =>
        hgrid ⟨l, hl, hbad⟩
      rw [getBoundingBoxLoop, GenerateBBoxOp.call_of_supported grid.tree _ hok]
      simp only
      split
      · exact ih wb hrest
      · exact ih _ hrest

/-- C3: `getBoundingBox` fails with a type error exactly when some leaf of some tree has a
`pscale` attribute declared neither float nor half, whatever points that leaf holds; and it
returns a box exactly when there is no such leaf, so a failing call returns no box and an
offending leaf is never skipped. -/
theorem getBoundingBox_typeError_iff (gridPtrs : List PointDataGrid)
    (includeGroups excludeGroups : List Name) :
    ((∃ msg, getBoundingBox gridPtrs includeGroups excludeGroups = .error (.typeError msg)) ↔
      ∃ grid ∈ gridPtrs, ∃ leaf ∈ grid.tree, leaf.hasUnsupportedPscale) ∧
    ((∃ box, getBoundingBox gridPtrs includeGroups excludeGroups = .ok box) ↔
      ¬ ∃ grid ∈ gridPtrs, ∃ leaf ∈ grid.tree, leaf.hasUnsupportedPscale) := by
  by_cases h : forestHasUnsupportedPscale gridPtrs
  · obtain ⟨msg, hmsg⟩ :=
      getBoundingBoxLoop_of_unsupported includeGroups excludeGroups gridPtrs BBoxd.empty h
    have hmsg2 : getBoundingBox gridPtrs includeGroups excludeGroups =
        .error (.typeError msg) := hmsg
    refine ⟨⟨fun _ => h, fun _ => ⟨msg, hmsg2⟩⟩, ⟨?_, fun hn => absurd h hn⟩⟩
    rintro ⟨box, hbox⟩
    rw [hmsg2] at hbox
    cases hbox
  · have hok := getBoundingBoxLoop_of_supported includeGroups excludeGroups gridPtrs
      BBoxd.empty h
    have hok2 : getBoundingBox gridPtrs includeGroups excludeGroups = .ok _ := hok
    refine ⟨⟨?_, fun hb => absurd hb h⟩, ⟨fun _ => h, fun _ => ⟨_, hok2⟩⟩⟩
    rintro ⟨msg, hmsg⟩
    rw [hok2] at hmsg
    cases hmsg

theorem leafBox_eq_empty (t : Transform) (inc exc : List Name) (leaf : PointDataLeaf)
    (h : ∀ ic ∈ leaf.indexOn, MultiGroupFilter inc exc leaf ic.1 = false) :
    leafBox t inc exc leaf = BBoxd.empty := by
  unfold leafBox GenerateBBoxOp.leafStep
  cases leaf.find "pscale" with
  | none => rfl
  | some idx =>
    simp only [GenerateBBoxOp.expandBBox_eq]
    have hf : leaf.indexOn.filter (fun ic => MultiGroupFilter inc exc leaf ic.1) = [] := by
      rw [List.filter_eq_nil_iff]
      intro ic hic
      simp [h ic hic]
    rw [hf]
    rfl

theorem rangeBox_eq_empty (t : Transform) (inc exc : List Name) (leaves : List PointDataLeaf)
    (h : ∀ leaf ∈ leaves, ∀ ic ∈ leaf.indexOn, MultiGroupFilter inc exc leaf ic.1 = false) :
    rangeBox t inc exc leaves = BBoxd.empty := by
  induction leaves with
  | nil => rfl
  | cons leaf rest ih =>
    rw [rangeBox, leafBox_eq_empty t inc exc leaf (h leaf (List.mem_cons_self _ _)),
      ih (fun l hl => h l (List.mem_cons_of_mem _ hl))]
    rfl

/-- C4 (as stated, refuted): in the forest of one tree whose only leaf holds no point but
declares `pscale` as a 32-bit integer, no point passes the filter, yet `getBoundingBox`
raises the type error instead of returning the empty box. -/
theorem getBoundingBox_no_points_typeError :
    noPointPasses [⟨identityTransform, [leafWithIntPscale]⟩] [] [] ∧
    getBoundingBox [⟨identityTransform, [leafWithIntPscale]⟩] [] [] =
      .error (.typeError "Unsupported pscale type - int32") ∧
    getBoundingBox [⟨identityTransform, [leafWithIntPscale]⟩] [] [] ≠ .ok BBoxd.empty := by
  refine ⟨?_, rfl, ?_⟩
  · intro grid hg leaf hl ic hic
    simp only [List.mem_singleton] at hg
    subst hg
    simp only [List.mem_singleton] at hl
    subst hl
    simp [leafWithIntPscale] at hic
  · intro h
    have h2 : getBoundingBox [⟨identityTransform, [leafWithIntPscale]⟩] [] [] =
      .error (.typeError "Unsupported pscale type - int32") := rfl
    rw [h2] at h
    cases h

/-- C4 (amended): for every forest in which no point passes the group filter and no leaf
declares `pscale` with an unsupported type, `getBoundingBox` returns the empty box. -/
theorem getBoundingBox_empty_of_noPointPasses (gridPtrs : List PointDataGrid)
    (includeGroups excludeGroups : List Name)
    (hnone : noPointPasses gridPtrs includeGroups excludeGroups)
    (hsupp : ¬ ∃ grid ∈ gridPtrs, ∃ leaf ∈ grid.tree, leaf.hasUnsupportedPscale) :
    getBoundingBox gridPtrs includeGroups excludeGroups = .ok BBoxd.empty := by
  unfold getBoundingBox
  rw [getBoundingBoxLoop_of_supported includeGroups excludeGroups gridPtrs BBoxd.empty hsupp]
  congr 1
  have key : ∀ (grids : List PointDataGrid) (w : BBoxd),
      (∀ g ∈ grids, treeBox includeGroups excludeGroups g = BBoxd.empty) →
      grids.foldl (fun w g =>
        if (treeBox includeGroups excludeGroups g).isEmpty then w
        else w.expandBox (g.transform.indexToWorldBBox (treeBox includeGroups excludeGroups g)))
        w = w := by
    intro grids
    induction grids with
    | nil => intro w _; rfl
    | cons g rest ih =>
      intro w hall
      simp only [List.foldl_cons, hall g (List.mem_cons_self _ _), BBoxd.isEmpty, if_true]
      exact ih w (fun g2 hg2 => hall g2 (List.mem_cons_of_mem _ hg2))
  exact key gridPtrs BBoxd.empty
    (fun g hg => rangeBox_eq_empty g.transform includeGroups excludeGroups g.tree (hnone g hg))

/-- C4 (amended), witness: a forest of a tree without leaves and a tree whose only point is
in no group, filtered by the include group `g`. -/
theorem getBoundingBox_empty_of_noPointPasses_witness :
    noPointPasses [⟨identityTransform, []⟩, ⟨translatedTransform, [leafWithPscale]⟩] ["g"] [] ∧
    getBoundingBox [⟨identityTransform, []⟩, ⟨translatedTransform, [leafWithPscale]⟩] ["g"] [] =
      .ok BBoxd.empty := by
  have hnone : noPointPasses
      [⟨identityTransform, []⟩, ⟨translatedTransform, [leafWithPscale]⟩] ["g"] [] := by
    intro grid hg leaf hl ic hic
    simp only [List.mem_cons, List.mem_singleton, List.not_mem_nil, or_false] at hg
    rcases hg with rfl | rfl
    · simp at hl
    · simp only [List.mem_singleton] at hl
      subst hl
      simp [MultiGroupFilter, leafWithPscale]
  refine ⟨hnone, getBoundingBox_empty_of_noPointPasses _ _ _ hnone ?_⟩
  rintro ⟨grid, hg, leaf, hl, idx, hf, h1, h2⟩
  simp only [List.mem_cons, List.mem_singleton, List.not_mem_nil, or_false] at hg
  rcases hg with rfl | rfl
  · simp at hl
  · simp only [List.mem_singleton] at hl
    subst hl
    have hidx : idx = 0 := by
      have : leafWithPscale.find "pscale" = some 0 := rfl
      rw [this] at hf
      exact (Option.some.inj hf).symm
    subst hidx
    exact h1 rfl

/-! ## The bounds reduction: independence of scheduling -/

theorem rangeBox_append (t : Transform) (inc exc : List Name) (l1 l2 : List PointDataLeaf) :
    rangeBox t inc exc (l1 ++ l2) = (rangeBox t inc exc l1).expandBox (rangeBox t inc exc l2) := by
  induction l1 with
  | nil => simp [rangeBox]
  | cons a rest ih => simp [rangeBox, ih, BBoxd.expandBox_assoc]

theorem rangeBox_perm (t : Transform) (inc exc : List Name) {l1 l2 : List PointDataLeaf}
    (h : l1.Perm l2) : rangeBox t inc exc l1 = rangeBox t inc exc l2 := by
  induction h with
  | nil => rfl
  | cons a _ ih => simp [rangeBox, ih]
  | swap a b l =>
    simp only [rangeBox, ← BBoxd.expandBox_assoc]
    rw [BBoxd.expandBox_comm (leafBox t inc exc b) (leafBox t inc exc a)]
  | trans _ _ ih1 ih2 => rw [ih1, ih2]

namespace Schedule

theorem exec_of_supported (s : Schedule) (op : GenerateBBoxOp)
    (h : ∀ leaf ∈ s.leaves, ¬ leaf.hasUnsupportedPscale) :
    s.exec op = .ok (GenerateBBoxOp.mk op.mTransform
      (op.mBbox.expandBox (rangeBox op.mTransform op.mIncludeGroups op.mExcludeGroups s.leaves))
      op.mIncludeGroups op.mExcludeGroups) := by
  induction s generalizing op with
  | run range => exact GenerateBBoxOp.call_of_supported range op h
  | seq first second ih1 ih2 =>
    have h1 : ∀ leaf ∈ first.leaves, ¬ leaf.hasUnsupportedPscale := fun l hl =>
      h l (List.mem_append_left _ hl)
    have h2 : ∀ leaf ∈ second.leaves, ¬ leaf.hasUnsupportedPscale := fun l hl =>
      h l (List.mem_append_right _ hl)
    simp only [exec, ih1 op h1, ih2 _ h2, leaves, rangeBox_append, BBoxd.expandBox_assoc]
  | fork left right ih1 ih2 =>
    have h1 : ∀ leaf ∈ left.leaves, ¬ leaf.hasUnsupportedPscale := fun l hl =>
      h l (List.mem_append_left _ hl)
    have h2 : ∀ leaf ∈ right.leaves, ¬ leaf.hasUnsupportedPscale := fun l hl =>
      h l (List.mem_append_right _ hl)
    simp only [exec, ih1 op h1, ih2 _ h2, leaves, rangeBox_append, GenerateBBoxOp.split,
      GenerateBBoxOp.join]
    congr 2
    generalize rangeBox op.mTransform op.mIncludeGroups op.mExcludeGroups left.leaves = L
    generalize rangeBox op.mTransform op.mIncludeGroups op.mExcludeGroups right.leaves = R
    rw [BBoxd.expandBox_assoc, ← BBoxd.expandBox_assoc L, BBoxd.expandBox_comm L op.mBbox,
      BBoxd.expandBox_assoc op.mBbox L, ← BBoxd.expandBox_assoc op.mBbox op.mBbox,
      BBoxd.expandBox_self]

theorem exec_of_unsupported (s : Schedule) (op : GenerateBBoxOp)
    (h : ∃ leaf ∈ s.leaves, leaf.hasUnsupportedPscale) : ∃ e, s.exec op = .error e := by
  induction s generalizing op with
  | run range =>
    obtain ⟨msg, hmsg⟩ := GenerateBBoxOp.call_of_unsupported range op h
    exact ⟨_, hmsg⟩
  | seq first second ih1 ih2 =>
    simp only [exec]
    cases h1 : first.exec op with
    | error e => exact ⟨e, rfl⟩
    | ok op1 =>
      apply ih2
      obtain ⟨l, hl, hbad⟩ := h
      rcases List.mem_append.mp hl with hl | hl
      · obtain ⟨e, he⟩ := ih1 op ⟨l, hl, hbad⟩
        rw [he] at h1
        cases h1
      · exact ⟨l, hl, hbad⟩
  | fork left right ih1 ih2 =>
    simp only [exec]
    cases h1 : left.exec op with
    | error e => exact ⟨e, rfl⟩
    | ok op1 =>
      obtain ⟨l, hl, hbad⟩ := h
      rcases List.mem_append.mp hl with hl | hl
      · obtain ⟨e, he⟩ := ih1 op ⟨l, hl, hbad⟩
        rw [he] at h1
        cases h1
      · obtain ⟨e, he⟩ := ih2 (GenerateBBoxOp.split op) ⟨l, hl, hbad⟩
        exact ⟨e, by simp only [he]⟩

end Schedule

/-- C10: the outcome of the reduction over a tree does not depend on scheduling.  For every
schedule (any partition into ranges, any processing order, any nesting of splits, each
split-off body starting from a copy of its parent's current box, any grouping of joins)
whose ranges together hold the leaves of the tree, running the schedule yields the same
body, hence the same box, as one sequential pass over all leaves; and it fails exactly
when the sequential pass fails. -/
theorem parallel_reduce_schedule_independent (s : Schedule) (tree : List PointDataLeaf)
    (op : GenerateBBoxOp) (h : s.leaves.Perm tree) :
    (s.exec op).toOption = (op.call tree).toOption := by
  by_cases hbad : ∃ leaf ∈ tree, leaf.hasUnsupportedPscale
  · obtain ⟨msg, hmsg⟩ := GenerateBBoxOp.call_of_unsupported tree op hbad
    obtain ⟨l, hl, hl2⟩ := hbad
    obtain ⟨e, he⟩ := s.exec_of_unsupported op ⟨l, h.symm.subset hl, hl2⟩
    rw [he, hmsg]
    rfl
  · have h1 : ∀ leaf ∈ tree, ¬ leaf.hasUnsupportedPscale := fun l hl hb => hbad ⟨l, hl, hb⟩
    have h2 : ∀ leaf ∈ s.leaves, ¬ leaf.hasUnsupportedPscale := fun l hl =>
      h1 l (h.subset hl)
    rw [s.exec_of_supported op h2, GenerateBBoxOp.call_of_supported tree op h1,
      rangeBox_perm _ _ _ h]

/-- C10, witness: a schedule with two nested splits over a tree of three leaves, started from
the empty box under a translated transform. -/
theorem parallel_reduce_schedule_independent_witness :
    sampleSchedule.leaves.Perm [leafWithoutPscale, leafWithPscale, leafWithPscale] ∧
    (sampleSchedule.exec ⟨translatedTransform, BBoxd.empty, [], []⟩).toOption =
      (GenerateBBoxOp.call ⟨translatedTransform, BBoxd.empty, [], []⟩
        [leafWithoutPscale, leafWithPscale, leafWithPscale]).toOption := by
  have hperm : sampleSchedule.leaves.Perm [leafWithoutPscale, leafWithPscale, leafWithPscale] := by
    show [leafWithPscale, leafWithoutPscale, leafWithPscale].Perm
      [leafWithoutPscale, leafWithPscale, leafWithPscale]
    exact List.Perm.swap _ _ _
  exact ⟨hperm, parallel_reduce_schedule_independent _ _ _ hperm⟩

/-! ## Colour from velocity: the normalised speed -/

theorem proportionalSpeed_eq_normalizedSpeed (op : PopulateColorFromVelocityOp)
    (length : Vec3d → ℚ) (velocity : Vec3d) :
    op.proportionalSpeed length velocity = normalizedSpeed op.mMaxSpeed (length velocity) := by
  unfold PopulateColorFromVelocityOp.proportionalSpeed normalizedSpeed
  by_cases h0 : op.mMaxSpeed = 0
  · simp [h0]
  · simp only [h0, if_false]
    generalize length velocity / op.mMaxSpeed = q
    by_cases h1 : q > 1
    · have h2 : ¬ (1 : ℚ) < 0 := by norm_num
      simp only [h1, if_true, h2, if_false]
      rw [min_eq_right (le_of_lt h1), max_eq_right (by norm_num)]
    · simp only [h1, if_false]
      rw [min_eq_left (not_lt.mp h1)]
      by_cases h3 : q < 0
      · simp only [h3, if_true]
        rw [max_eq_left (le_of_lt h3)]
      · simp only [h3, if_false]
        rw [max_eq_right (not_lt.mp h3)]

/-- In exact arithmetic the normalised speed handed to the ramp lookup lies in [0,1] for
every velocity and every `maxSpeed`; it is 0 when `maxSpeed` is 0; and for positive
`maxSpeed` and a non-negative norm it is `min(|velocity| / maxSpeed, 1)`. -/
theorem proportionalSpeed_bounds (op : PopulateColorFromVelocityOp) (length : Vec3d → ℚ)
    (velocity : Vec3d) :
    (0 ≤ op.proportionalSpeed length velocity ∧ op.proportionalSpeed length velocity ≤ 1) ∧
    (op.mMaxSpeed = 0 → op.proportionalSpeed length velocity = 0) ∧
    (0 < op.mMaxSpeed → 0 ≤ length velocity →
      op.proportionalSpeed length velocity = min (length velocity / op.mMaxSpeed) 1) := by
  rw [proportionalSpeed_eq_normalizedSpeed]
  unfold normalizedSpeed
  refine ⟨?_, ?_, ?_⟩
  · by_cases h0 : op.mMaxSpeed = 0
    · simp [h0]
    · simp only [h0, if_false]
      exact ⟨le_max_left _ _, max_le (by norm_num) (min_le_right _ _)⟩
  · intro h0
    simp [h0]
  · intro hpos hlen
    simp only [ne_of_gt hpos, if_false]
    exact max_eq_right (le_min (div_nonneg hlen (le_of_lt hpos)) (by norm_num))

/-! ## Colour from velocity: the per-leaf operator -/

theorem AttributeArray.get_set (a : AttributeArray) (i j : Nat) (v : AttrValue) :
    (a.set i v).get j = if j = i then v else a.get j := by
  rcases a with ⟨n, u, d⟩
  cases u <;> simp [AttributeArray.set, AttributeArray.get, AttributeArray.expand]

theorem length_modifyArrayAt (f : AttributeArray → AttributeArray) (l : List Attribute)
    (pos : Nat) : (modifyArrayAt f l pos).length = l.length := by
  induction l generalizing pos with
  | nil => rfl
  | cons a rest ih => cases pos <;> simp [modifyArrayAt, ih]

theorem getElem?_modifyArrayAt_same (f : AttributeArray → AttributeArray) (l : List Attribute)
    (pos : Nat) :
    (modifyArrayAt f l pos)[pos]? =
      (l[pos]?).map (fun a => { a with array := f a.array }) := by
  induction l generalizing pos with
  | nil => rfl
  | cons a rest ih => cases pos <;> simp [modifyArrayAt, ih]

theorem getElem?_modifyArrayAt_ne (f : AttributeArray → AttributeArray) (l : List Attribute)
    {pos other : Nat} (h : other ≠ pos) :
    (modifyArrayAt f l pos)[other]? = l[other]? := by
  induction l generalizing pos other with
  | nil => rfl
  | cons a rest ih =>
    cases pos with
    | zero =>
      cases other with
      | zero => exact absurd rfl h
      | succ k => simp [modifyArrayAt]
    | succ n =>
      cases other with
      | zero => simp [modifyArrayAt]
      | succ k =>
        simp only [modifyArrayAt, List.getElem?_cons_succ]
        exact ih (fun hk => h (by rw [hk]))

namespace PointDataLeaf

theorem readVec3_writeVec3_same (leaf : PointDataLeaf) {pos : Nat} (i : Nat) (v : Vec3d)
    (h : pos < leaf.attributes.length) : (leaf.writeVec3 pos i v).readVec3 pos i = v := by
  obtain ⟨a, ha⟩ : ∃ a, leaf.attributes[pos]? = some a :=
    ⟨_, List.getElem?_eq_getElem h⟩
  simp [readVec3, writeVec3, getElem?_modifyArrayAt_same, ha, AttributeArray.get_set,
    AttrValue.toVec3]

theorem readVec3_writeVec3_index_ne (leaf : PointDataLeaf) (pos : Nat) {i j : Nat} (v : Vec3d)
    (h : j ≠ i) : (leaf.writeVec3 pos i v).readVec3 pos j = leaf.readVec3 pos j := by
  unfold readVec3 writeVec3
  simp only [getElem?_modifyArrayAt_same]
  cases leaf.attributes[pos]? with
  | none => rfl
  | some a => simp [AttributeArray.get_set, h]

theorem readVec3_writeVec3_pos_ne (leaf : PointDataLeaf) {pos other : Nat} (i j : Nat)
    (v : Vec3d) (h : other ≠ pos) :
    (leaf.writeVec3 pos i v).readVec3 other j = leaf.readVec3 other j := by
  unfold readVec3 writeVec3
  simp only [getElem?_modifyArrayAt_ne _ _ h]

theorem readVec3_collapseVec3_pos_ne (leaf : PointDataLeaf) {pos other : Nat} (j : Nat)
    (v : Vec3d) (h : other ≠ pos) :
    (leaf.collapseVec3 pos v).readVec3 other j = leaf.readVec3 other j := by
  unfold readVec3 collapseVec3
  simp only [getElem?_modifyArrayAt_ne _ _ h]

end PointDataLeaf

namespace PopulateColorFromVelocityOp

/-- The state of a leaf after the colouring loop over the points `pts`, when the colour and
velocity positions differ: velocities are as before, a visited index holds `g` of it, any
other index holds its former colour. -/
theorem foldl_colorPoint (op : PopulateColorFromVelocityOp) (length : Vec3d → ℚ)
    (uniform : Bool) (uniformColor : Vec3d) (hne : op.mColorIndex ≠ op.mVelocityIndex)
    (leaf0 : PointDataLeaf) (g : Nat → Vec3d)
    (hg : ∀ i, g i = if uniform then uniformColor
      else op.getColorFromRamp length (leaf0.readVec3 op.mVelocityIndex i))
    (pts : List (Nat × Coord)) (leaf : PointDataLeaf)
    (hlen : op.mColorIndex < leaf.attributes.length)
    (hvel : ∀ i, leaf.readVec3 op.mVelocityIndex i = leaf0.readVec3 op.mVelocityIndex i) :
    let out := pts.foldl (op.colorPoint length uniform uniformColor) leaf
    (∀ i, out.readVec3 op.mVelocityIndex i = leaf0.readVec3 op.mVelocityIndex i) ∧
    (∀ i, out.readVec3 op.mColorIndex i =
      if i ∈ pts.map Prod.fst then g i else leaf.readVec3 op.mColorIndex i) := by
  induction pts generalizing leaf with
  | nil => exact ⟨hvel, fun i => by simp⟩
  | cons p rest ih =>
    simp only [List.foldl_cons]
    have hstep_len : op.mColorIndex <
        (op.colorPoint length uniform uniformColor leaf p).attributes.length := by
      simp only [colorPoint, PointDataLeaf.writeVec3, length_modifyArrayAt]
      exact hlen
    have hstep_vel : ∀ i, (op.colorPoint length uniform uniformColor leaf p).readVec3
        op.mVelocityIndex i = leaf0.readVec3 op.mVelocityIndex i := by
      intro i
      simp only [colorPoint]
      rw [PointDataLeaf.readVec3_writeVec3_pos_ne _ _ _ _ (Ne.symm hne), hvel]
    obtain ⟨h1, h2⟩ := ih _ hstep_len hstep_vel
    refine ⟨h1, fun i => ?_⟩
    rw [h2 i]
    by_cases hi : i ∈ rest.map Prod.fst
    · simp [hi]
    · by_cases hip : i = p.1
      · subst hip
        simp only [hi, if_false, List.map_cons, List.mem_cons, true_or, if_true]
        simp only [colorPoint]
        rw [PointDataLeaf.readVec3_writeVec3_same _ _ _ hlen, hg, hvel]
      · have hnot : i ∉ (p :: rest).map Prod.fst := by
          simp only [List.map_cons, List.mem_cons, not_or]
          exact ⟨hip, hi⟩
        simp only [hi, hnot, if_false]
        simp only [colorPoint]
        exact PointDataLeaf.readVec3_writeVec3_index_ne _ _ _ hip

end PopulateColorFromVelocityOp

namespace PopulateColorFromVelocityOp

theorem getColorFromRamp_eq (op : PopulateColorFromVelocityOp) (length : Vec3d → ℚ)
    (velocity : Vec3d) :
    op.getColorFromRamp length velocity =
      op.mRamp.rgb (normalizedSpeed op.mMaxSpeed (length velocity)) := by
  simp only [getColorFromRamp, UT_Ramp.rgb, proportionalSpeed_eq_normalizedSpeed]

theorem callLeaf_eq (op : PopulateColorFromVelocityOp) (length : Vec3d → ℚ)
    (leaf : PointDataLeaf) (c v : Attribute)
    (hc : leaf.attributes[op.mColorIndex]? = some c)
    (hv : leaf.attributes[op.mVelocityIndex]? = some v) :
    op.callLeaf length leaf =
      .ok ((fun colored : PointDataLeaf =>
          if op.mCollapseVelocityAfter then colored.collapseVec3 op.mVelocityIndex ⟨0, 0, 0⟩
          else colored)
        ((leaf.indexOn.filter
          (fun ic => MultiGroupFilter op.mIncludeGroups op.mExcludeGroups leaf ic.1)).foldl
          (op.colorPoint length v.array.isUniform
            (op.getColorFromRamp length (v.array.get 0).toVec3)) leaf)) := by
  unfold callLeaf PointDataLeaf.attributeArray
  simp only [hc, hv]
  by_cases hg : (!op.mIncludeGroups.isEmpty || !op.mExcludeGroups.isEmpty) = true
  · simp only [hg, if_true]
    split <;> rfl
  · have h1 : op.mIncludeGroups = [] := by
      cases hi : op.mIncludeGroups with
      | nil => rfl
      | cons a l => simp [hi] at hg
    have h2 : op.mExcludeGroups = [] := by
      cases hi : op.mExcludeGroups with
      | nil => rfl
      | cons a l => simp [hi] at hg
    simp only [h1, h2, MultiGroupFilter_nil, List.filter_true, List.isEmpty_nil, Bool.not_true,
      Bool.or_self, if_false]
    split <;> simp

end PopulateColorFromVelocityOp

/-- C5: when the colour and velocity positions are two different attributes of the leaf,
`operator()` succeeds on the leaf, and afterwards every active point index that passes the
group filter holds the RGB part of the ramp at the normalised speed of the velocity it had
before the call, while every other point index holds its former colour. -/
theorem callLeaf_colors (op : PopulateColorFromVelocityOp) (length : Vec3d → ℚ)
    (leaf : PointDataLeaf) (hc : op.mColorIndex < leaf.attributes.length)
    (hv : op.mVelocityIndex < leaf.attributes.length)
    (hne : op.mColorIndex ≠ op.mVelocityIndex) :
    ∃ out, op.callLeaf length leaf = .ok out ∧
      (∀ ic ∈ leaf.indexOn,
        MultiGroupFilter op.mIncludeGroups op.mExcludeGroups leaf ic.1 = true →
        out.readVec3 op.mColorIndex ic.1 =
          op.mRamp.rgb (normalizedSpeed op.mMaxSpeed
            (length (leaf.readVec3 op.mVelocityIndex ic.1)))) ∧
      (∀ i, (¬ ∃ c, (i, c) ∈ leaf.indexOn ∧
          MultiGroupFilter op.mIncludeGroups op.mExcludeGroups leaf i = true) →
        out.readVec3 op.mColorIndex i = leaf.readVec3 op.mColorIndex i) := by
  obtain ⟨c, hca⟩ : ∃ a, leaf.attributes[op.mColorIndex]? = some a :=
    ⟨_, List.getElem?_eq_getElem hc⟩
  obtain ⟨v, hva⟩ : ∃ a, leaf.attributes[op.mVelocityIndex]? = some a :=
    ⟨_, List.getElem?_eq_getElem hv⟩
  have hg : ∀ i, op.getColorFromRamp length (leaf.readVec3 op.mVelocityIndex i) =
      if v.array.isUniform then op.getColorFromRamp length (v.array.get 0).toVec3
      else op.getColorFromRamp length (leaf.readVec3 op.mVelocityIndex i) := by
    intro i
    by_cases hu : v.array.isUniform = true
    · simp only [hu, if_true, PointDataLeaf.readVec3, hva, AttributeArray.get]
    · simp [hu]
  obtain ⟨_, hcol⟩ := PopulateColorFromVelocityOp.foldl_colorPoint op length v.array.isUniform
    (op.getColorFromRamp length (v.array.get 0).toVec3) hne leaf
    (fun i => op.getColorFromRamp length (leaf.readVec3 op.mVelocityIndex i)) hg
    (leaf.indexOn.filter
      (fun ic => MultiGroupFilter op.mIncludeGroups op.mExcludeGroups leaf ic.1))
    leaf hc (fun _ => rfl)
  have hread : ∀ (colored : PointDataLeaf) (i : Nat),
      ((fun colored : PointDataLeaf =>
        if op.mCollapseVelocityAfter then colored.collapseVec3 op.mVelocityIndex ⟨0, 0, 0⟩
        else colored) colored).readVec3 op.mColorIndex i =
      colored.readVec3 op.mColorIndex i := by
    intro colored i
    by_cases hcoll : op.mCollapseVelocityAfter = true
    · simp only [hcoll, if_true]
      exact PointDataLeaf.readVec3_collapseVec3_pos_ne _ _ _ hne
    · simp only [hcoll]
      rfl
  refine ⟨_, PopulateColorFromVelocityOp.callLeaf_eq op length leaf c v hca hva, ?_, ?_⟩
  · intro ic hic hpass
    rw [hread, hcol]
    have hmem : ic.1 ∈ (leaf.indexOn.filter
        (fun ic => MultiGroupFilter op.mIncludeGroups op.mExcludeGroups leaf ic.1)).map
        Prod.fst :=
      List.mem_map.mpr ⟨ic, List.mem_filter.mpr ⟨hic, by simpa using hpass⟩, rfl⟩
    simp only [hmem, if_true]
    exact PopulateColorFromVelocityOp.getColorFromRamp_eq op length _
  · intro i hi
    rw [hread, hcol]
    have hmem : i ∉ (leaf.indexOn.filter
        (fun ic => MultiGroupFilter op.mIncludeGroups op.mExcludeGroups leaf ic.1)).map
        Prod.fst := by
      intro hm
      obtain ⟨ic, hic, rfl⟩ := List.mem_map.mp hm
      obtain ⟨hin, hp⟩ := List.mem_filter.mp hic
      exact hi ⟨ic.2, hin, by simpa using hp⟩
    simp only [hmem, if_false]

/-- C5, witness: the sample operator (gray ramp, maximum speed 2, group `slow` excluded,
velocity collapsed afterwards) on the two-point leaf: point 0, of speed 1, becomes gray one
half; point 1, excluded, keeps its black. -/
theorem callLeaf_colors_witness :
    sampleColorOp.mColorIndex < leafWithVelocity.attributes.length ∧
    sampleColorOp.mVelocityIndex < leafWithVelocity.attributes.length ∧
    sampleColorOp.mColorIndex ≠ sampleColorOp.mVelocityIndex ∧
    ∃ out, sampleColorOp.callLeaf axisLength leafWithVelocity = .ok out ∧
      out.readVec3 0 0 = ⟨1 / 2, 1 / 2, 1 / 2⟩ ∧ out.readVec3 0 1 = ⟨0, 0, 0⟩ := by
  have hc : sampleColorOp.mColorIndex < leafWithVelocity.attributes.length := by decide
  have hv : sampleColorOp.mVelocityIndex < leafWithVelocity.attributes.length := by decide
  have hne : sampleColorOp.mColorIndex ≠ sampleColorOp.mVelocityIndex := by decide
  obtain ⟨out, hout, hpass, hkeep⟩ :=
    callLeaf_colors sampleColorOp axisLength leafWithVelocity hc hv hne
  refine ⟨hc, hv, hne, out, hout, ?_, ?_⟩
  · have h0 := hpass (0, ⟨0, 0, 0⟩) (by simp [leafWithVelocity])
      (by simp [MultiGroupFilter, sampleColorOp, leafWithVelocity])
    have hidx : sampleColorOp.mColorIndex = 0 := rfl
    rw [hidx] at h0
    rw [h0]
    simp [UT_Ramp.rgb, sampleColorOp, grayRamp, normalizedSpeed, axisLength,
      PointDataLeaf.readVec3, leafWithVelocity, twoVelocities, AttributeArray.get,
      AttrValue.toVec3]
    norm_num
  · have h1 := hkeep 1 (by
      rintro ⟨c, _, hp⟩
      simp [MultiGroupFilter, sampleColorOp, leafWithVelocity] at hp)
    have hidx : sampleColorOp.mColorIndex = 0 := rfl
    rw [hidx] at h1
    rw [h1]
    simp [PointDataLeaf.readVec3, leafWithVelocity, blackColors, AttributeArray.get,
      AttrValue.toVec3]

/-- In exact arithmetic, maximum speed 2 and a velocity of norm 4 give the normalised speed
`min (4 / 2) 1`. -/
theorem proportionalSpeed_bounds_witness :
    0 < sampleColorOp.mMaxSpeed ∧ 0 ≤ axisLength ⟨4, 0, 0⟩ ∧
    sampleColorOp.proportionalSpeed axisLength ⟨4, 0, 0⟩ =
      min (axisLength ⟨4, 0, 0⟩ / sampleColorOp.mMaxSpeed) 1 := by
  have h1 : 0 < sampleColorOp.mMaxSpeed := by norm_num [sampleColorOp]
  have h2 : 0 ≤ axisLength ⟨4, 0, 0⟩ := by norm_num [axisLength]
  exact ⟨h1, h2, (proportionalSpeed_bounds sampleColorOp axisLength ⟨4, 0, 0⟩).2.2 h1 h2⟩

/-! ## Attribute selection -/

theorem mem_stdSort (l : List Name) (n : Name) : n ∈ stdSort l ↔ n ∈ l :=
  (List.perm_insertionSort (· ≤ ·) l).mem_iff

theorem sorted_stdSort (l : List Name) : (stdSort l).Sorted (· ≤ ·) :=
  List.sorted_insertionSort (· ≤ ·) l

theorem mem_stdUnique (l : List Name) (n : Name) : n ∈ stdUnique l ↔ n ∈ l := by
  induction l using stdUnique.induct with
  | case1 => simp [stdUnique]
  | case2 a => simp [stdUnique]
  | case3 a rest ih =>
    rw [stdUnique, if_pos rfl, ih]
    simp
  | case4 a b rest hab ih =>
    rw [stdUnique, if_neg hab, List.mem_cons, ih, List.mem_cons (a := n) (b := a)]

theorem sorted_stdUnique (l : List Name) (h : l.Sorted (· ≤ ·)) :
    (stdUnique l).Sorted (· < ·) := by
  induction l using stdUnique.induct with
  | case1 => simp [stdUnique]
  | case2 a => simp [stdUnique]
  | case3 a rest ih =>
    rw [stdUnique, if_pos rfl]
    exact ih h.of_cons
  | case4 a b rest hab ih =>
    rw [stdUnique, if_neg hab]
    refine List.sorted_cons.mpr ⟨fun x hx => ?_, ih h.of_cons⟩
    have hb : a ≤ b := List.rel_of_sorted_cons h b (List.mem_cons_self _ _)
    have hx2 : x ∈ b :: rest := (mem_stdUnique _ _).mp hx
    rcases List.mem_cons.mp hx2 with rfl | hx3
    · exact lt_of_le_of_ne hb hab
    · exact lt_of_lt_of_le (lt_of_le_of_ne hb hab) (List.rel_of_sorted_cons h.of_cons x hx3)

theorem sublist_stdSetDifference (l1 l2 : List Name) :
    (stdSetDifference l1 l2).Sublist l1 := by
  induction l1, l2 using stdSetDifference.induct with
  | case1 l2 => simp [stdSetDifference]
  | case2 a as => simp [stdSetDifference]
  | case3 a as b bs hab ih =>
    rw [stdSetDifference, if_pos hab]
    exact ih.cons₂ a
  | case4 a as b bs hab hba ih =>
    rw [stdSetDifference, if_neg hab, if_pos hba]
    exact ih
  | case5 a as b bs hab hba ih =>
    rw [stdSetDifference, if_neg hab, if_neg hba]
    exact ih.cons a

theorem mem_stdSetDifference (l1 l2 : List Name) (h1 : l1.Sorted (· < ·))
    (h2 : l2.Sorted (· < ·)) (n : Name) :
    n ∈ stdSetDifference l1 l2 ↔ n ∈ l1 ∧ n ∉ l2 := by
  induction l1, l2 using stdSetDifference.induct with
  | case1 l2 => simp [stdSetDifference]
  | case2 a as => simp [stdSetDifference]
  | case3 a as b bs hab ih =>
    rw [stdSetDifference, if_pos hab]
    constructor
    · intro hmem0
      rcases List.mem_cons.mp hmem0 with hna | hrest
      · subst hna
        refine ⟨List.mem_cons_self _ _, fun hmem => ?_⟩
        rcases List.mem_cons.mp hmem with hnb | hbs
        · subst hnb
          exact lt_irrefl _ hab
        · exact lt_asymm hab (List.rel_of_sorted_cons h2 _ hbs)
      · obtain ⟨hn, hnot⟩ := (ih h1.of_cons h2).mp hrest
        exact ⟨List.mem_cons_of_mem _ hn, hnot⟩
    · rintro ⟨hn0, hnot⟩
      rcases List.mem_cons.mp hn0 with hna | hn
      · subst hna
        exact List.mem_cons_self _ _
      · exact List.mem_cons_of_mem _ ((ih h1.of_cons h2).mpr ⟨hn, hnot⟩)
  | case4 a as b bs hab hba ih =>
    rw [stdSetDifference, if_neg hab, if_pos hba, ih h1 h2.of_cons]
    constructor
    · rintro ⟨hn, hnot⟩
      refine ⟨hn, fun hmem => ?_⟩
      rcases List.mem_cons.mp hmem with hnb | hbs
      · subst hnb
        rcases List.mem_cons.mp hn with hna | has
        · subst hna
          exact lt_irrefl _ hba
        · exact lt_asymm hba (List.rel_of_sorted_cons h1 _ has)
      · exact hnot hbs
    · rintro ⟨hn, hnot⟩
      exact ⟨hn, fun hbs => hnot (List.mem_cons_of_mem _ hbs)⟩
  | case5 a as b bs hab hba ih =>
    have heq : a = b := le_antisymm (not_lt.mp hba) (not_lt.mp hab)
    subst heq
    rw [stdSetDifference, if_neg hab, if_neg hba, ih h1.of_cons h2.of_cons]
    constructor
    · rintro ⟨hn, hnot⟩
      have hne : n ≠ a := fun hna => by
        subst hna
        exact lt_irrefl _ (List.rel_of_sorted_cons h1 _ hn)
      refine ⟨List.mem_cons_of_mem _ hn, fun hmem => ?_⟩
      rcases List.mem_cons.mp hmem with hna | hbs
      · exact hne hna
      · exact hnot hbs
    · rintro ⟨hn, hnot⟩
      have hne : n ≠ a := fun hna => hnot (by rw [hna]; exact List.mem_cons_self _ _)
      rcases List.mem_cons.mp hn with hna | has
      · exact absurd hna hne
      · exact ⟨has, fun hbs => hnot (List.mem_cons_of_mem _ hbs)⟩

theorem sorted_validAttributes (inc exc : List Name) :
    (validAttributes inc exc).Sorted (· < ·) :=
  (sorted_stdUnique _ (sorted_stdSort inc)).sublist (sublist_stdSetDifference _ _)

theorem mem_validAttributes (inc exc : List Name) (n : Name) :
    n ∈ validAttributes inc exc ↔ n ∈ inc ∧ n ∉ exc := by
  unfold validAttributes
  rw [mem_stdSetDifference _ _ (sorted_stdUnique _ (sorted_stdSort inc))
    (sorted_stdUnique _ (sorted_stdSort exc)), mem_stdUnique, mem_stdUnique, mem_stdSort,
    mem_stdSort]

theorem eq_of_sorted_of_mem_iff {l1 l2 : List Name} (h1 : l1.Sorted (· < ·))
    (h2 : l2.Sorted (· < ·)) (h : ∀ n, n ∈ l1 ↔ n ∈ l2) : l1 = l2 :=
  List.eq_of_perm_of_sorted ((List.perm_ext_iff_of_nodup h1.nodup h2.nodup).mpr h) h1 h2

/-- C7: `validAttributes` is strictly ascending, holds exactly the names that occur in the
include list and not in the exclude list, therefore depends only on the two sets of names,
and is `["a"]` for include `{"a","b"}` and exclude `{"b"}`. -/
theorem validAttributes_spec (includeAttributes excludeAttributes : List Name) :
    (validAttributes includeAttributes excludeAttributes).Sorted (· < ·) ∧
    (validAttributes includeAttributes excludeAttributes).Nodup ∧
    (∀ n, n ∈ validAttributes includeAttributes excludeAttributes ↔
      n ∈ includeAttributes ∧ n ∉ excludeAttributes) ∧
    (∀ include2 exclude2 : List Name, (∀ n, n ∈ include2 ↔ n ∈ includeAttributes) →
      (∀ n, n ∈ exclude2 ↔ n ∈ excludeAttributes) →
      validAttributes include2 exclude2 = validAttributes includeAttributes excludeAttributes) ∧
    validAttributes ["a", "b"] ["b"] = ["a"] ∧ validAttributes ["b", "a", "b"] ["b", "b"] = ["a"] := by
  have hab : ("a" : Name) ≠ "b" := by decide
  have hex : ∀ inc exc : List Name, (∀ n, n ∈ inc ∧ n ∉ exc ↔ n = "a") →
      validAttributes inc exc = ["a"] := by
    intro inc exc h
    refine eq_of_sorted_of_mem_iff (sorted_validAttributes _ _) (List.sorted_singleton _)
      (fun n => ?_)
    rw [mem_validAttributes, h n, List.mem_singleton]
  refine ⟨sorted_validAttributes _ _, (sorted_validAttributes _ _).nodup,
    mem_validAttributes _ _, ?_, ?_, ?_⟩
  · intro include2 exclude2 hi he
    refine eq_of_sorted_of_mem_iff (sorted_validAttributes _ _) (sorted_validAttributes _ _)
      (fun n => ?_)
    rw [mem_validAttributes, mem_validAttributes, hi n, he n]
  · apply hex
    intro n
    simp only [List.mem_cons, List.mem_singleton, List.not_mem_nil, or_false]
    constructor
    · rintro ⟨h1 | h1, h2⟩
      · exact h1
      · exact absurd h1 h2
    · intro h
      subst h
      exact ⟨Or.inl rfl, hab⟩
  · apply hex
    intro n
    simp only [List.mem_cons, List.mem_singleton, List.not_mem_nil, or_false, or_self]
    constructor
    · rintro ⟨h1 | h1 | h1, h2⟩
      · exact absurd h1 h2
      · exact h1
      · exact absurd h1 h2
    · intro h
      subst h
      exact ⟨Or.inr (Or.inl rfl), hab⟩

theorem mem_seedIncludeAttributes (grids : List PointDataGrid) (inc : List Name) (n : Name) :
    n ∈ seedIncludeAttributes grids inc ↔
      n ∈ inc ∨ ∃ grid ∈ grids, ∃ leaf, grid.tree.head? = some leaf ∧
        n ∈ leaf.descriptorNames := by
  induction grids generalizing inc with
  | nil => simp [seedIncludeAttributes]
  | cons g rest ih =>
    rw [seedIncludeAttributes]
    cases hh : g.tree.head? with
    | none =>
      simp only [ih, List.mem_cons, exists_eq_or_imp, hh]
      simp
    | some leaf =>
      simp only [ih, List.mem_cons, exists_eq_or_imp, hh, List.mem_append, Option.some.injEq,
        exists_eq_left']
      tauto

/-- C8 (as stated, refuted): with an empty include list and the exclude list `["pscale"]`,
a forest of two grids ends with `"v"` in `validAttributes`, although the first leaf of the
first grid that has a leaf carries no attribute named `"v"`: the name comes from the second
grid. -/
theorem renderValidAttributes_seeds_from_later_grid :
    (⟨identityTransform, [leafWithPscale]⟩ : PointDataGrid).tree.head? = some leafWithPscale ∧
    "v" ∉ leafWithPscale.descriptorNames ∧
    "v" ∈ renderValidAttributes
      [⟨identityTransform, [leafWithPscale]⟩, ⟨identityTransform, [leafWithVelocity]⟩]
      [] ["pscale"] := by
  refine ⟨rfl, by decide, ?_⟩
  have hr : renderValidAttributes
      [⟨identityTransform, [leafWithPscale]⟩, ⟨identityTransform, [leafWithVelocity]⟩]
      [] ["pscale"] =
      validAttributes (seedIncludeAttributes
        [⟨identityTransform, [leafWithPscale]⟩, ⟨identityTransform, [leafWithVelocity]⟩] [])
        ["pscale"] := rfl
  rw [hr, mem_validAttributes, mem_seedIncludeAttributes]
  refine ⟨Or.inr ⟨⟨identityTransform, [leafWithVelocity]⟩, by simp, leafWithVelocity, rfl,
    by decide⟩, by decide⟩

/-- C8 (amended): when the include list is empty and the exclude list is not, the include
list is seeded with the names on the first leaf of every grid that has a leaf, and
`validAttributes` is, in ascending order, exactly those names minus the excluded ones. -/
theorem renderValidAttributes_of_empty_include (mGridPtrs : List PointDataGrid)
    (excludeAttributes : List Name) (hex : excludeAttributes ≠ []) :
    (renderValidAttributes mGridPtrs [] excludeAttributes).Sorted (· < ·) ∧
    ∀ n, n ∈ renderValidAttributes mGridPtrs [] excludeAttributes ↔
      (∃ grid ∈ mGridPtrs, ∃ leaf, grid.tree.head? = some leaf ∧ n ∈ leaf.descriptorNames) ∧
        n ∉ excludeAttributes := by
  have hr : renderValidAttributes mGridPtrs [] excludeAttributes =
      validAttributes (seedIncludeAttributes mGridPtrs []) excludeAttributes := by
    cases excludeAttributes with
    | nil => exact absurd rfl hex
    | cons a l => rfl
  rw [hr]
  refine ⟨sorted_validAttributes _ _, fun n => ?_⟩
  rw [mem_validAttributes, mem_seedIncludeAttributes]
  simp

/-- C8 (amended), witness: the two-grid forest with the exclude list `["pscale"]`. -/
theorem renderValidAttributes_of_empty_include_witness :
    (["pscale"] : List Name) ≠ [] ∧
    (renderValidAttributes
      [⟨identityTransform, [leafWithPscale]⟩, ⟨identityTransform, [leafWithVelocity]⟩]
      [] ["pscale"]).Sorted (· < ·) ∧
    ("Cd" ∈ renderValidAttributes
      [⟨identityTransform, [leafWithPscale]⟩, ⟨identityTransform, [leafWithVelocity]⟩]
      [] ["pscale"] ↔
      (∃ grid ∈ [(⟨identityTransform, [leafWithPscale]⟩ : PointDataGrid),
          ⟨identityTransform, [leafWithVelocity]⟩],
        ∃ leaf, grid.tree.head? = some leaf ∧ "Cd" ∈ leaf.descriptorNames) ∧
        "Cd" ∉ (["pscale"] : List Name)) :=
  ⟨by simp,
    (renderValidAttributes_of_empty_include _ ["pscale"] (by simp)).1,
    (renderValidAttributes_of_empty_include _ ["pscale"] (by simp)).2 "Cd"⟩

/-! ## Speed to colour in `render()` -/

/-- C6 (defect): `colorType` keeps its initial value `""` when `Cd` is appended, so none of
the four dispatch conditions holds and the operator is never run.  On a tree whose only
leaf has a float-vector `v` and no `Cd`, the block appends a half-vector `Cd` at position 1
and returns: point 0, of speed 1 under maximum speed 2, keeps the appended zero colour
instead of the ramp colour one half. -/
theorem speedToColorTree_appended_Cd_not_populated :
    leafOnlyVelocity.find "v" = some 0 ∧ leafOnlyVelocity.type 0 = typeNameVec3f ∧
    leafOnlyVelocity.find "Cd" = none ∧
    MultiGroupFilter sampleParms.mIncludeGroups sampleParms.mExcludeGroups leafOnlyVelocity 0 =
      true ∧
    speedToColorTree sampleParms axisLength [] [leafOnlyVelocity] =
      .ok (appendAttribute [leafOnlyVelocity] "Cd" typeNameVec3H) ∧
    (appendAttribute [leafOnlyVelocity] "Cd" typeNameVec3H).map
      (fun first => (first.find "Cd", first.type 1, first.readVec3 1 0)) =
      [(some 1, typeNameVec3H, ⟨0, 0, 0⟩)] ∧
    sampleParms.mFunctionRamp.rgb (normalizedSpeed sampleParms.mMaxSpeed
      (axisLength (leafOnlyVelocity.readVec3 0 0))) = ⟨1 / 2, 1 / 2, 1 / 2⟩ := by
  refine ⟨rfl, rfl, rfl, rfl, rfl, ?_, ?_⟩
  · simp [appendAttribute, PointDataLeaf.find, findPos, PointDataLeaf.type,
      PointDataLeaf.readVec3, leafOnlyVelocity, AttributeArray.get, AttrValue.toVec3]
  · simp [UT_Ramp.rgb, sampleParms, grayRamp, normalizedSpeed, axisLength,
      PointDataLeaf.readVec3, leafOnlyVelocity, twoVelocities, AttributeArray.get,
      AttrValue.toVec3]
    norm_num

/-! ## The bounds reduction: what the returned box covers -/

namespace BBoxd

theorem isInside_of_between {b : BBoxd} {p q m : Vec3d} (hp : b.isInside p)
    (hq : b.isInside q)
    (hx : min p.x q.x ≤ m.x ∧ m.x ≤ max p.x q.x)
    (hy : min p.y q.y ≤ m.y ∧ m.y ≤ max p.y q.y)
    (hz : min p.z q.z ≤ m.z ∧ m.z ≤ max p.z q.z) : b.isInside m := by
  cases b with
  | empty => exact absurd hp (by simp [isInside])
  | box mn mx =>
    obtain ⟨⟨p1, p2, p3⟩, p4, p5, p6⟩ := hp
    obtain ⟨⟨q1, q2, q3⟩, q4, q5, q6⟩ := hq
    exact ⟨⟨le_trans (le_min p1 q1) hx.1, le_trans (le_min p2 q2) hy.1,
        le_trans (le_min p3 q3) hz.1⟩,
      le_trans hx.2 (max_le p4 q4), le_trans hy.2 (max_le p5 q5),
      le_trans hz.2 (max_le p6 q6)⟩

end BBoxd

theorem between_of_scale (s a b c t : ℚ) (h1 : a ≤ c) (h2 : c ≤ b) :
    min (s * a + t) (s * b + t) ≤ s * c + t ∧ s * c + t ≤ max (s * a + t) (s * b + t) := by
  rcases le_total 0 s with hs | hs
  · exact ⟨min_le_of_left_le (by nlinarith), le_max_of_le_right (by nlinarith)⟩
  · exact ⟨min_le_of_right_le (by nlinarith), le_max_of_le_left (by nlinarith)⟩

theorem Transform.isInside_indexToWorldBBox (t : Transform) {b : BBoxd} {p : Vec3d}
    (h : b.isInside p) : (t.indexToWorldBBox b).isInside (t.indexToWorld p) := by
  cases b with
  | empty => exact absurd h (by simp [BBoxd.isInside])
  | box mn mx =>
    obtain ⟨⟨h1, h2, h3⟩, h4, h5, h6⟩ := h
    have c0 : (t.indexToWorldBBox (BBoxd.box mn mx)).isInside (t.indexToWorld mn) := by
      simp only [Transform.indexToWorldBBox, List.foldl_cons, List.foldl_nil]
      iterate 7 apply BBoxd.isInside_expand
      exact ⟨⟨le_refl _, le_refl _, le_refl _⟩, le_refl _, le_refl _, le_refl _⟩
    have c1 : (t.indexToWorldBBox (BBoxd.box mn mx)).isInside
        (t.indexToWorld ⟨mx.x, mn.y, mn.z⟩) := by
      simp only [Transform.indexToWorldBBox, List.foldl_cons, List.foldl_nil]
      iterate 6 apply BBoxd.isInside_expand
      exact BBoxd.isInside_expand_self _ _
    have c2 : (t.indexToWorldBBox (BBoxd.box mn mx)).isInside
        (t.indexToWorld ⟨mn.x, mx.y, mn.z⟩) := by
      simp only [Transform.indexToWorldBBox, List.foldl_cons, List.foldl_nil]
      iterate 5 apply BBoxd.isInside_expand
      exact BBoxd.isInside_expand_self _ _
    have c3 : (t.indexToWorldBBox (BBoxd.box mn mx)).isInside
        (t.indexToWorld ⟨mn.x, mn.y, mx.z⟩) := by
      simp only [Transform.indexToWorldBBox, List.foldl_cons, List.foldl_nil]
      iterate 3 apply BBoxd.isInside_expand
      exact BBoxd.isInside_expand_self _ _
    generalize t.indexToWorldBBox (BBoxd.box mn mx) = W at c0 c1 c2 c3
    cases W with
    | empty => exact absurd c0 (by simp [BBoxd.isInside])
    | box wmin wmax =>
      obtain ⟨⟨a1, a2, a3⟩, a4, a5, a6⟩ := c0
      obtain ⟨⟨b1, _, _⟩, b4, _, _⟩ := c1
      obtain ⟨⟨_, d2, _⟩, _, d5, _⟩ := c2
      obtain ⟨⟨_, _, e3⟩, _, _, e6⟩ := c3
      simp only [Transform.indexToWorld] at a1 a2 a3 a4 a5 a6 b1 b4 d2 d5 e3 e6
      have hx := between_of_scale t.scale.x mn.x mx.x p.x t.translation.x h1 h4
      have hy := between_of_scale t.scale.y mn.y mx.y p.y t.translation.y h2 h5
      have hz := between_of_scale t.scale.z mn.z mx.z p.z t.translation.z h3 h6
      simp only [BBoxd.isInside, Vec3d.le, Transform.indexToWorld]
      exact ⟨⟨le_trans (le_min a1 b1) hx.1, le_trans (le_min a2 d2) hy.1,
          le_trans (le_min a3 e3) hz.1⟩,
        le_trans hx.2 (max_le a4 b4), le_trans hy.2 (max_le a5 d5),
        le_trans hz.2 (max_le a6 e6)⟩

namespace GenerateBBoxOp

theorem foldl_expandPoint_isInside (t : Transform) (P : AttributeArray) (u : Bool) (s : ℚ)
    (h : Option AttributeArray) (pts : List (Nat × Coord)) (b : BBoxd) (ic : Nat × Coord)
    (hic : ic ∈ pts) (q : Vec3d) (hq : ∀ b0, (expandPoint t P u s h b0 ic).isInside q) :
    (pts.foldl (expandPoint t P u s h) b).isInside q := by
  induction pts generalizing b with
  | nil => simp at hic
  | cons p rest ih =>
    simp only [List.foldl_cons]
    rcases List.mem_cons.mp hic with hp | hrest
    · subst hp
      rw [foldl_expandPoint]
      exact BBoxd.isInside_expandBox_left _ (hq b)
    · exact ih _ hrest

theorem expandPoint_isInside (t : Transform) (arr P : AttributeArray) (b : BBoxd)
    (ic : Nat × Coord) :
    (expandPoint t P arr.isUniform (arr.get 0).toScalar (some arr) b ic).isInside
        (ic.2.asVec3d + (P.get ic.1).toVec3 -
          t.worldToIndex (Vec3d.splat (arr.get ic.1).toScalar)) ∧
      (expandPoint t P arr.isUniform (arr.get 0).toScalar (some arr) b ic).isInside
        (ic.2.asVec3d + (P.get ic.1).toVec3 +
          t.worldToIndex (Vec3d.splat (arr.get ic.1).toScalar)) := by
  have hps : (if arr.isUniform = true then (arr.get 0).toScalar
      else (arr.get ic.1).toScalar) = (arr.get ic.1).toScalar := by
    by_cases hu : arr.isUniform = true
    · simp [hu, AttributeArray.get]
    · simp [hu]
  unfold expandPoint
  simp only [hps]
  exact ⟨BBoxd.isInside_expand _ (BBoxd.isInside_expand_self _ _),
    BBoxd.isInside_expand_self _ _⟩

end GenerateBBoxOp

/-- The box a leaf with a supported `pscale` contributes holds, for every active point that
passes the filter, the two corners `position - radius` and `position + radius`. -/
theorem leafBox_isInside (t : Transform) (inc exc : List Name) (leaf : PointDataLeaf)
    (idx : Nat) (hs : leaf.hasSupportedPscale idx) (ic : Nat × Coord)
    (hic : ic ∈ leaf.indexOn) (hpass : MultiGroupFilter inc exc leaf ic.1 = true) :
    (leafBox t inc exc leaf).isInside (leaf.indexPosition ic - leaf.indexRadius t idx ic.1) ∧
    (leafBox t inc exc leaf).isInside (leaf.indexPosition ic + leaf.indexRadius t idx ic.1) := by
  obtain ⟨a, ha, _⟩ := findPos_getElem? hs.1
  have hh : GenerateBBoxOp.pscaleHandle (leaf.type idx) leaf (some idx) = some a.array := by
    simp [GenerateBBoxOp.pscaleHandle, ha]
  have hmem : ic ∈ leaf.indexOn.filter (fun ic => MultiGroupFilter inc exc leaf ic.1) :=
    List.mem_filter.mpr ⟨hic, hpass⟩
  unfold leafBox GenerateBBoxOp.leafStep
  rw [hs.1]
  simp only [GenerateBBoxOp.expandBBox_eq, hh, GenerateBBoxOp.pscaleIsUniform,
    GenerateBBoxOp.uniformPscale, PointDataLeaf.indexPosition, PointDataLeaf.indexRadius,
    PointDataLeaf.pscaleValue, ha]
  exact ⟨GenerateBBoxOp.foldl_expandPoint_isInside _ _ _ _ _ _ _ ic hmem _
      (fun b0 => (GenerateBBoxOp.expandPoint_isInside t a.array leaf.P b0 ic).1),
    GenerateBBoxOp.foldl_expandPoint_isInside _ _ _ _ _ _ _ ic hmem _
      (fun b0 => (GenerateBBoxOp.expandPoint_isInside t a.array leaf.P b0 ic).2)⟩

theorem rangeBox_isInside (t : Transform) (inc exc : List Name) (leaves : List PointDataLeaf)
    (leaf : PointDataLeaf) (hl : leaf ∈ leaves) (q : Vec3d)
    (hq : (leafBox t inc exc leaf).isInside q) : (rangeBox t inc exc leaves).isInside q := by
  induction leaves with
  | nil => simp at hl
  | cons l rest ih =>
    rw [rangeBox]
    rcases List.mem_cons.mp hl with h | h
    · subst h
      exact BBoxd.isInside_expandBox_left _ hq
    · exact BBoxd.isInside_expandBox_right _ (ih h)

theorem isInside_foldl_gridBounds (inc exc : List Name) (grids : List PointDataGrid)
    (wb : BBoxd) (q : Vec3d)
    (h : wb.isInside q ∨ ∃ grid ∈ grids,
      (grid.transform.indexToWorldBBox (treeBox inc exc grid)).isInside q) :
    (grids.foldl (fun w g =>
      if (treeBox inc exc g).isEmpty then w
      else w.expandBox (g.transform.indexToWorldBBox (treeBox inc exc g))) wb).isInside q := by
  induction grids generalizing wb with
  | nil =>
    rcases h with h | ⟨g, hg, _⟩
    · exact h
    · simp at hg
  | cons g rest ih =>
    simp only [List.foldl_cons]
    apply ih
    rcases h with h | ⟨g2, hg2, hin⟩
    · left
      split
      · exact h
      · exact BBoxd.isInside_expandBox_left _ h
    · rcases List.mem_cons.mp hg2 with heq | hrest
      · subst heq
        left
        split
        · rename_i hempty
          rw [(BBoxd.isEmpty_iff _).mp hempty] at hin
          exact absurd hin (by simp [Transform.indexToWorldBBox, BBoxd.isInside])
        · exact BBoxd.isInside_expandBox_right _ hin
      · exact Or.inr ⟨g2, hrest, hin⟩

/-- Whenever `getBoundingBox` returns a box, the box holds the world images of both corners
`position - radius` and `position + radius` and of the position itself, for every active,
filter-passing point of every leaf that has a supported `pscale`. -/
theorem getBoundingBox_isInside (gridPtrs : List PointDataGrid) (inc exc : List Name)
    (box : BBoxd) (hbox : getBoundingBox gridPtrs inc exc = .ok box)
    (grid : PointDataGrid) (hg : grid ∈ gridPtrs) (leaf : PointDataLeaf)
    (hl : leaf ∈ grid.tree) (idx : Nat) (hs : leaf.hasSupportedPscale idx)
    (ic : Nat × Coord) (hic : ic ∈ leaf.indexOn)
    (hpass : MultiGroupFilter inc exc leaf ic.1 = true) :
    box.isInside (grid.transform.indexToWorld
      (leaf.indexPosition ic - leaf.indexRadius grid.transform idx ic.1)) ∧
    box.isInside (grid.transform.indexToWorld
      (leaf.indexPosition ic + leaf.indexRadius grid.transform idx ic.1)) ∧
    box.isInside (grid.transform.indexToWorld (leaf.indexPosition ic)) := by
  have hsupp : ¬ forestHasUnsupportedPscale gridPtrs := by
    intro hbad
    obtain ⟨msg, hmsg⟩ := getBoundingBoxLoop_of_unsupported inc exc gridPtrs BBoxd.empty hbad
    have hmsg2 : getBoundingBox gridPtrs inc exc = .error (.typeError msg) := hmsg
    rw [hmsg2] at hbox
    cases hbox
  have hloop := getBoundingBoxLoop_of_supported inc exc gridPtrs BBoxd.empty hsupp
  have hloop2 : getBoundingBox gridPtrs inc exc = .ok _ := hloop
  rw [hloop2] at hbox
  injection hbox with hbox
  subst hbox
  have hleaf := leafBox_isInside grid.transform inc exc leaf idx hs ic hic hpass
  have hsub := rangeBox_isInside grid.transform inc exc grid.tree leaf hl _ hleaf.1
  have hadd := rangeBox_isInside grid.transform inc exc grid.tree leaf hl _ hleaf.2
  have hmid : (treeBox inc exc grid).isInside (leaf.indexPosition ic) := by
    refine BBoxd.isInside_of_between hsub hadd ?_ ?_ ?_ <;>
      simp only [Vec3d.sub_def, Vec3d.add_def] <;>
      constructor <;>
      rcases le_total 0 (leaf.indexRadius grid.transform idx ic.1).x with h | h <;>
      rcases le_total 0 (leaf.indexRadius grid.transform idx ic.1).y with h2 | h2 <;>
      rcases le_total 0 (leaf.indexRadius grid.transform idx ic.1).z with h3 | h3 <;>
      simp only [min_le_iff, le_max_iff] <;>
      first
        | (left; linarith)
        | (right; linarith)
  exact ⟨isInside_foldl_gridBounds inc exc gridPtrs _ _
      (Or.inr ⟨grid, hg, grid.transform.isInside_indexToWorldBBox hsub⟩),
    isInside_foldl_gridBounds inc exc gridPtrs _ _
      (Or.inr ⟨grid, hg, grid.transform.isInside_indexToWorldBBox hadd⟩),
    isInside_foldl_gridBounds inc exc gridPtrs _ _
      (Or.inr ⟨grid, hg, grid.transform.isInside_indexToWorldBBox hmid⟩)⟩

/-- For a transform with non-zero voxel sizes, the world image of `position ± radius` is the
world position `±` the scale value less the translation, on every axis. -/
theorem Transform.indexToWorld_add_worldToIndex (t : Transform) (hx : t.scale.x ≠ 0)
    (hy : t.scale.y ≠ 0) (hz : t.scale.z ≠ 0) (p : Vec3d) (s : ℚ) :
    t.indexToWorld (p + t.worldToIndex (Vec3d.splat s)) =
      t.indexToWorld p + (Vec3d.splat s - t.translation) ∧
    t.indexToWorld (p - t.worldToIndex (Vec3d.splat s)) =
      t.indexToWorld p - (Vec3d.splat s - t.translation) := by
  simp only [Transform.indexToWorld, Transform.worldToIndex, Vec3d.splat, Vec3d.add_def,
    Vec3d.sub_def, Vec3d.mk.injEq]
  refine ⟨⟨?_, ?_, ?_⟩, ?_, ?_, ?_⟩ <;> field_simp <;> ring

/-! ## Colour from velocity: what a call leaves alone -/

theorem map_name_modifyArrayAt (f : AttributeArray → AttributeArray) (l : List Attribute)
    (pos : Nat) :
    (modifyArrayAt f l pos).map (fun a => (a.name, a.type)) =
      l.map (fun a => (a.name, a.type)) := by
  induction l generalizing pos with
  | nil => rfl
  | cons a rest ih => cases pos <;> simp [modifyArrayAt, ih]

namespace PopulateColorFromVelocityOp

/-- The colouring loop touches nothing but the array at the colour position. -/
theorem foldl_colorPoint_frame (op : PopulateColorFromVelocityOp) (length : Vec3d → ℚ)
    (uniform : Bool) (uniformColor : Vec3d) (pts : List (Nat × Coord)) (leaf : PointDataLeaf) :
    (pts.foldl (op.colorPoint length uniform uniformColor) leaf).P = leaf.P ∧
    (pts.foldl (op.colorPoint length uniform uniformColor) leaf).indexOn = leaf.indexOn ∧
    (pts.foldl (op.colorPoint length uniform uniformColor) leaf).inGroup = leaf.inGroup ∧
    (pts.foldl (op.colorPoint length uniform uniformColor) leaf).attributes.map
      (fun a => (a.name, a.type)) = leaf.attributes.map (fun a => (a.name, a.type)) ∧
    ∀ pos, pos ≠ op.mColorIndex →
      (pts.foldl (op.colorPoint length uniform uniformColor) leaf).attributes[pos]? =
        leaf.attributes[pos]? := by
  induction pts generalizing leaf with
  | nil => exact ⟨rfl, rfl, rfl, rfl, fun _ _ => rfl⟩
  | cons p rest ih =>
    simp only [List.foldl_cons]
    obtain ⟨h1, h2, h3, h4, h5⟩ := ih (op.colorPoint length uniform uniformColor leaf p)
    refine ⟨h1, h2, h3, ?_, fun pos hpos => ?_⟩
    · rw [h4]
      simp only [colorPoint, PointDataLeaf.writeVec3, map_name_modifyArrayAt]
    · rw [h5 pos hpos]
      simp only [colorPoint, PointDataLeaf.writeVec3]
      exact getElem?_modifyArrayAt_ne _ _ hpos

/-- The outcome of `callLeaf` once both handles are bound, read attribute by attribute. -/
theorem callLeaf_frame (op : PopulateColorFromVelocityOp) (length : Vec3d → ℚ)
    (leaf out : PointDataLeaf) (h : op.callLeaf length leaf = .ok out) :
    out.P = leaf.P ∧ out.indexOn = leaf.indexOn ∧ out.inGroup = leaf.inGroup ∧
    out.attributes.map (fun a => (a.name, a.type)) =
      leaf.attributes.map (fun a => (a.name, a.type)) ∧
    ∀ pos, pos ≠ op.mColorIndex →
      (op.mCollapseVelocityAfter = false ∨ pos ≠ op.mVelocityIndex) →
      out.attributes[pos]? = leaf.attributes[pos]? := by
  cases hc : leaf.attributes[op.mColorIndex]? with
  | none => simp [callLeaf, PointDataLeaf.attributeArray, hc] at h
  | some c =>
    cases hv : leaf.attributes[op.mVelocityIndex]? with
    | none => simp [callLeaf, PointDataLeaf.attributeArray, hc, hv] at h
    | some v =>
      rw [callLeaf_eq op length leaf c v hc hv] at h
      injection h with h
      subst h
      obtain ⟨h1, h2, h3, h4, h5⟩ := foldl_colorPoint_frame op length v.array.isUniform
        (op.getColorFromRamp length (v.array.get 0).toVec3)
        (leaf.indexOn.filter
          (fun ic => MultiGroupFilter op.mIncludeGroups op.mExcludeGroups leaf ic.1)) leaf
      by_cases hcoll : op.mCollapseVelocityAfter = true
      · simp only [hcoll, if_true, PointDataLeaf.collapseVec3, map_name_modifyArrayAt]
        refine ⟨h1, h2, h3, h4, fun pos hpos hor => ?_⟩
        rcases hor with hf | hpv
        · simp [hcoll] at hf
        · rw [getElem?_modifyArrayAt_ne _ _ hpv]
          exact h5 pos hpos
      · simp only [hcoll]
        exact ⟨h1, h2, h3, h4, fun pos hpos _ => h5 pos hpos⟩

theorem call_eq_ok_iff (op : PopulateColorFromVelocityOp) (length : Vec3d → ℚ)
    (range out : List PointDataLeaf) :
    op.call length range = .ok out ↔
      List.Forall₂ (fun leaf leaf1 => op.callLeaf length leaf = .ok leaf1) range out := by
  induction range generalizing out with
  | nil =>
    constructor
    · intro h
      simp only [call] at h
      injection h with h
      subst h
      exact List.Forall₂.nil
    · intro h
      cases h
      rfl
  | cons leaf rest ih =>
    rw [call]
    constructor
    · intro h
      cases h1 : op.callLeaf length leaf with
      | error e => simp [h1] at h
      | ok leaf1 =>
        cases h2 : op.call length rest with
        | error e => simp [h1, h2] at h
        | ok rest1 =>
          simp only [h1, h2] at h
          injection h with h
          subst h
          exact List.Forall₂.cons h1 ((ih rest1).mp h2)
    · intro h
      cases h with
      | cons h1 h2 =>
        rw [h1, (ih _).mpr h2]

end PopulateColorFromVelocityOp

namespace PopulateColorFromVelocityOp

/-- The colours a leaf holds after `callLeaf`, index by index, when the colour and velocity
positions are two different attributes of the leaf; the collapse flag plays no part. -/
theorem callLeaf_readColor (op : PopulateColorFromVelocityOp) (length : Vec3d → ℚ)
    (leaf : PointDataLeaf) (hc : op.mColorIndex < leaf.attributes.length)
    (hv : op.mVelocityIndex < leaf.attributes.length)
    (hne : op.mColorIndex ≠ op.mVelocityIndex) :
    ∃ out, op.callLeaf length leaf = .ok out ∧
      ∀ i, out.readVec3 op.mColorIndex i =
        if i ∈ (leaf.indexOn.filter
          (fun ic => MultiGroupFilter op.mIncludeGroups op.mExcludeGroups leaf ic.1)).map
          Prod.fst
        then op.mRamp.rgb (normalizedSpeed op.mMaxSpeed
          (length (leaf.readVec3 op.mVelocityIndex i)))
        else leaf.readVec3 op.mColorIndex i := by
  obtain ⟨c, hca⟩ : ∃ a, leaf.attributes[op.mColorIndex]? = some a :=
    ⟨_, List.getElem?_eq_getElem hc⟩
  obtain ⟨v, hva⟩ : ∃ a, leaf.attributes[op.mVelocityIndex]? = some a :=
    ⟨_, List.getElem?_eq_getElem hv⟩
  have hg : ∀ i, op.mRamp.rgb (normalizedSpeed op.mMaxSpeed
      (length (leaf.readVec3 op.mVelocityIndex i))) =
      if v.array.isUniform then op.getColorFromRamp length (v.array.get 0).toVec3
      else op.getColorFromRamp length (leaf.readVec3 op.mVelocityIndex i) := by
    intro i
    rw [← getColorFromRamp_eq]
    by_cases hu : v.array.isUniform = true
    · simp only [hu, if_true, PointDataLeaf.readVec3, hva, AttributeArray.get]
    · simp [hu]
  obtain ⟨_, hcol⟩ := foldl_colorPoint op length v.array.isUniform
    (op.getColorFromRamp length (v.array.get 0).toVec3) hne leaf
    (fun i => op.mRamp.rgb (normalizedSpeed op.mMaxSpeed
      (length (leaf.readVec3 op.mVelocityIndex i)))) hg
    (leaf.indexOn.filter
      (fun ic => MultiGroupFilter op.mIncludeGroups op.mExcludeGroups leaf ic.1))
    leaf hc (fun _ => rfl)
  refine ⟨_, callLeaf_eq op length leaf c v hca hva, fun i => ?_⟩
  rw [← hcol i]
  by_cases hcoll : op.mCollapseVelocityAfter = true
  · simp only [hcoll, if_true]
    exact PointDataLeaf.readVec3_collapseVec3_pos_ne _ _ _ hne
  · simp only [hcoll]
    rfl

/-- The velocity attribute after `callLeaf`, when the colour and velocity positions differ:
collapsed to a uniform zero if the flag is set, the array it was otherwise. -/
theorem callLeaf_velocity (op : PopulateColorFromVelocityOp) (length : Vec3d → ℚ)
    (leaf out : PointDataLeaf) (hne : op.mColorIndex ≠ op.mVelocityIndex)
    (h : op.callLeaf length leaf = .ok out) :
    (op.mCollapseVelocityAfter = false →
      out.attributes[op.mVelocityIndex]? = leaf.attributes[op.mVelocityIndex]?) ∧
    (op.mCollapseVelocityAfter = true →
      ∃ a, out.attributes[op.mVelocityIndex]? = some a ∧ a.array.isUniform = true ∧
        ∀ i, a.array.get i = AttrValue.vec3 ⟨0, 0, 0⟩) := by
  refine ⟨fun hflag => (callLeaf_frame op length leaf out h).2.2.2.2 _ (Ne.symm hne)
    (Or.inl hflag), fun hflag => ?_⟩
  cases hc : leaf.attributes[op.mColorIndex]? with
  | none => simp [callLeaf, PointDataLeaf.attributeArray, hc] at h
  | some c =>
    cases hv : leaf.attributes[op.mVelocityIndex]? with
    | none => simp [callLeaf, PointDataLeaf.attributeArray, hc, hv] at h
    | some v =>
      rw [callLeaf_eq op length leaf c v hc hv] at h
      injection h with h
      subst h
      simp only [hflag, if_true, PointDataLeaf.collapseVec3, getElem?_modifyArrayAt_same]
      have h5 := (foldl_colorPoint_frame op length v.array.isUniform
        (op.getColorFromRamp length (v.array.get 0).toVec3)
        (leaf.indexOn.filter
          (fun ic => MultiGroupFilter op.mIncludeGroups op.mExcludeGroups leaf ic.1))
        leaf).2.2.2.2 op.mVelocityIndex (Ne.symm hne)
      rw [h5, hv]
      exact ⟨_, rfl, rfl, fun i => rfl⟩

end PopulateColorFromVelocityOp

namespace PopulateColorFromVelocityOp

theorem callLeaf_collapse (op : PopulateColorFromVelocityOp) (length : Vec3d → ℚ)
    (leaf : PointDataLeaf) (hc : op.mColorIndex < leaf.attributes.length)
    (hv : op.mVelocityIndex < leaf.attributes.length)
    (hne : op.mColorIndex ≠ op.mVelocityIndex) :
    ∃ s u, (op.withCollapse true).callLeaf length leaf = .ok s ∧
      (op.withCollapse false).callLeaf length leaf = .ok u ∧
      ((∃ a, s.attributes[op.mVelocityIndex]? = some a ∧ a.array.isUniform = true ∧
          ∀ i, a.array.get i = AttrValue.vec3 ⟨0, 0, 0⟩) ∧
        ∀ ic ∈ leaf.indexOn,
          MultiGroupFilter op.mIncludeGroups op.mExcludeGroups leaf ic.1 = true →
          s.readVec3 op.mColorIndex ic.1 = op.mRamp.rgb (normalizedSpeed op.mMaxSpeed
            (length (leaf.readVec3 op.mVelocityIndex ic.1)))) ∧
      (∀ i, s.readVec3 op.mColorIndex i = u.readVec3 op.mColorIndex i) ∧
      u.attributes[op.mVelocityIndex]? = leaf.attributes[op.mVelocityIndex]? := by
  obtain ⟨s, hs, hscol⟩ := callLeaf_readColor (op.withCollapse true) length leaf hc hv hne
  obtain ⟨u, hu, hucol⟩ := callLeaf_readColor (op.withCollapse false) length leaf hc hv hne
  refine ⟨s, u, hs, hu, ⟨?_, fun ic hic hpass => ?_⟩, fun i => ?_, ?_⟩
  · exact (callLeaf_velocity (op.withCollapse true) length leaf s hne hs).2 rfl
  · have hmem : ic.1 ∈ (leaf.indexOn.filter
        (fun ic => MultiGroupFilter op.mIncludeGroups op.mExcludeGroups leaf ic.1)).map
        Prod.fst :=
      List.mem_map.mpr ⟨ic, List.mem_filter.mpr ⟨hic, by simpa using hpass⟩, rfl⟩
    have h := hscol ic.1
    simp only [withCollapse] at h
    rw [if_pos hmem] at h
    exact h
  · have h1 := hscol i
    have h2 := hucol i
    simp only [withCollapse] at h1 h2
    rw [h1, h2]
  · exact (callLeaf_velocity (op.withCollapse false) length leaf u hne hu).1 rfl

end PopulateColorFromVelocityOp

/-- C11: with the collapse flag set, `operator()` leaves on every leaf of the range a uniform
velocity that reads as the zero vector at every index, after colouring every passing point
from the velocity it had before the call; the colours are, index by index, those of the same
call with the flag unset; and with the flag unset the velocity attribute of every leaf is
the array it was.  (Colour and velocity are two different attributes of each leaf.) -/
theorem call_collapse (op : PopulateColorFromVelocityOp) (length : Vec3d → ℚ)
    (range : List PointDataLeaf)
    (hpos : ∀ leaf ∈ range, op.mColorIndex < leaf.attributes.length ∧
      op.mVelocityIndex < leaf.attributes.length)
    (hne : op.mColorIndex ≠ op.mVelocityIndex) :
    ∃ outSet outUnset,
      (op.withCollapse true).call length range = .ok outSet ∧
      (op.withCollapse false).call length range = .ok outUnset ∧
      List.Forall₂ (fun leaf s =>
        (∃ a, s.attributes[op.mVelocityIndex]? = some a ∧ a.array.isUniform = true ∧
          ∀ i, a.array.get i = AttrValue.vec3 ⟨0, 0, 0⟩) ∧
        ∀ ic ∈ leaf.indexOn,
          MultiGroupFilter op.mIncludeGroups op.mExcludeGroups leaf ic.1 = true →
          s.readVec3 op.mColorIndex ic.1 = op.mRamp.rgb (normalizedSpeed op.mMaxSpeed
            (length (leaf.readVec3 op.mVelocityIndex ic.1)))) range outSet ∧
      List.Forall₂ (fun s u => ∀ i, s.readVec3 op.mColorIndex i = u.readVec3 op.mColorIndex i)
        outSet outUnset ∧
      List.Forall₂ (fun leaf u =>
        u.attributes[op.mVelocityIndex]? = leaf.attributes[op.mVelocityIndex]?)
        range outUnset := by
  induction range with
  | nil =>
    exact ⟨[], [], rfl, rfl, List.Forall₂.nil, List.Forall₂.nil, List.Forall₂.nil⟩
  | cons leaf rest ih =>
    obtain ⟨ss, us, hss, hus, h1, h2, h3⟩ :=
      ih (fun l hl => hpos l (List.mem_cons_of_mem _ hl))
    obtain ⟨hc, hv⟩ := hpos leaf (List.mem_cons_self _ _)
    obtain ⟨s, u, hs, hu, g1, g2, g3⟩ :=
      PopulateColorFromVelocityOp.callLeaf_collapse op length leaf hc hv hne
    refine ⟨s :: ss, u :: us, ?_, ?_, List.Forall₂.cons g1 h1, List.Forall₂.cons g2 h2,
      List.Forall₂.cons g3 h3⟩
    · rw [PopulateColorFromVelocityOp.call, hs, hss]
    · rw [PopulateColorFromVelocityOp.call, hu, hus]

/-- C11, witness: the sample operator on the range holding the two-point leaf. -/
theorem call_collapse_witness :
    (∀ leaf ∈ [leafWithVelocity], sampleColorOp.mColorIndex < leaf.attributes.length ∧
      sampleColorOp.mVelocityIndex < leaf.attributes.length) ∧
    sampleColorOp.mColorIndex ≠ sampleColorOp.mVelocityIndex ∧
    ∃ outSet outUnset,
      (sampleColorOp.withCollapse true).call axisLength [leafWithVelocity] = .ok outSet ∧
      (sampleColorOp.withCollapse false).call axisLength [leafWithVelocity] = .ok outUnset ∧
      List.Forall₂ (fun s u => ∀ i, s.readVec3 0 i = u.readVec3 0 i) outSet outUnset ∧
      List.Forall₂ (fun leaf u => u.attributes[1]? = leaf.attributes[1]?)
        [leafWithVelocity] outUnset := by
  have hpos : ∀ leaf ∈ [leafWithVelocity],
      sampleColorOp.mColorIndex < leaf.attributes.length ∧
      sampleColorOp.mVelocityIndex < leaf.attributes.length := by
    intro leaf hl
    simp only [List.mem_singleton] at hl
    subst hl
    exact ⟨by decide, by decide⟩
  have hne : sampleColorOp.mColorIndex ≠ sampleColorOp.mVelocityIndex := by decide
  obtain ⟨outSet, outUnset, h1, h2, _, h4, h5⟩ :=
    call_collapse sampleColorOp axisLength [leafWithVelocity] hpos hne
  exact ⟨hpos, hne, outSet, outUnset, h1, h2, h4, h5⟩

/-- C12: whenever `operator()` completes on a range, every leaf keeps its positions, its
active indices, its group membership, the names and declared types of all its attributes,
and every attribute array other than the one at `mColorIndex` and, when collapse is
requested, the one at `mVelocityIndex`. -/
theorem call_frame (op : PopulateColorFromVelocityOp) (length : Vec3d → ℚ)
    (range out : List PointDataLeaf) (h : op.call length range = .ok out) :
    List.Forall₂ (fun leaf leaf1 =>
      leaf1.P = leaf.P ∧ leaf1.indexOn = leaf.indexOn ∧ leaf1.inGroup = leaf.inGroup ∧
      leaf1.attributes.map (fun a => (a.name, a.type)) =
        leaf.attributes.map (fun a => (a.name, a.type)) ∧
      ∀ pos, pos ≠ op.mColorIndex →
        (op.mCollapseVelocityAfter = false ∨ pos ≠ op.mVelocityIndex) →
        leaf1.attributes[pos]? = leaf.attributes[pos]?) range out := by
  have h2 := (PopulateColorFromVelocityOp.call_eq_ok_iff op length range out).mp h
  clear h
  induction h2 with
  | nil => exact List.Forall₂.nil
  | cons hleaf _ ih =>
    exact List.Forall₂.cons (PopulateColorFromVelocityOp.callLeaf_frame op length _ _ hleaf) ih

/-- C12, witness: the sample operator, which collapses the velocity, on the two-point leaf. -/
theorem call_frame_witness :
    ∃ out, sampleColorOp.call axisLength [leafWithVelocity] = .ok out ∧
      List.Forall₂ (fun leaf leaf1 =>
        leaf1.P = leaf.P ∧ leaf1.indexOn = leaf.indexOn ∧ leaf1.inGroup = leaf.inGroup ∧
        leaf1.attributes.map (fun a => (a.name, a.type)) =
          leaf.attributes.map (fun a => (a.name, a.type)) ∧
        ∀ pos, pos ≠ sampleColorOp.mColorIndex →
          (sampleColorOp.mCollapseVelocityAfter = false ∨
            pos ≠ sampleColorOp.mVelocityIndex) →
          leaf1.attributes[pos]? = leaf.attributes[pos]?) [leafWithVelocity] out := by
  obtain ⟨out, hout, _⟩ := PopulateColorFromVelocityOp.callLeaf_readColor sampleColorOp
    axisLength leafWithVelocity (by decide) (by decide) (by decide)
  have hcall : sampleColorOp.call axisLength [leafWithVelocity] = .ok [out] := by
    rw [PopulateColorFromVelocityOp.call, hout]
    rfl
  exact ⟨[out], hcall, call_frame sampleColorOp axisLength [leafWithVelocity] [out] hcall⟩

/-! ## Filtered and unfiltered iteration -/

/-- C16: `expandBBox` and the leaf loop of the colouring operator each consist of a filtered
and an unfiltered branch, chosen by whether a group list is non-empty; run with two empty
lists, the filtered branch gives the same box, respectively the same coloured leaf, as the
unfiltered branch, for every leaf. -/
theorem filtered_path_eq_unfiltered_path :
    (∀ (op : GenerateBBoxOp) (pscaleType : String) (leaf : PointDataLeaf)
        (pscaleIndex : Option Nat),
      op.expandBBox pscaleType leaf pscaleIndex =
        if !op.mIncludeGroups.isEmpty || !op.mExcludeGroups.isEmpty then
          op.expandBBoxFiltered pscaleType leaf pscaleIndex
        else op.expandBBoxUnfiltered pscaleType leaf pscaleIndex) ∧
    (∀ (t : Transform) (box : BBoxd) (pscaleType : String) (leaf : PointDataLeaf)
        (pscaleIndex : Option Nat),
      (GenerateBBoxOp.mk t box [] []).expandBBoxFiltered pscaleType leaf pscaleIndex =
        (GenerateBBoxOp.mk t box [] []).expandBBoxUnfiltered pscaleType leaf pscaleIndex) ∧
    (∀ (op : PopulateColorFromVelocityOp) (length : Vec3d → ℚ) (leaf : PointDataLeaf),
      op.callLeaf length leaf =
        match leaf.attributeArray op.mColorIndex with
        | .error e => .error e
        | .ok _ =>
          match leaf.attributeArray op.mVelocityIndex with
          | .error e => .error e
          | .ok velocityArray =>
            let colored :=
              if !op.mIncludeGroups.isEmpty || !op.mExcludeGroups.isEmpty then
                op.colorFiltered length leaf velocityArray
              else op.colorUnfiltered length leaf velocityArray
            if op.mCollapseVelocityAfter then
              .ok (colored.collapseVec3 op.mVelocityIndex ⟨0, 0, 0⟩)
            else .ok colored) ∧
    (∀ (op : PopulateColorFromVelocityOp) (length : Vec3d → ℚ) (leaf : PointDataLeaf)
        (velocityArray : AttributeArray),
      (PopulateColorFromVelocityOp.mk op.mColorIndex op.mVelocityIndex op.mRamp op.mMaxSpeed
          [] [] op.mCollapseVelocityAfter).colorFiltered length leaf velocityArray =
        (PopulateColorFromVelocityOp.mk op.mColorIndex op.mVelocityIndex op.mRamp op.mMaxSpeed
          [] [] op.mCollapseVelocityAfter).colorUnfiltered length leaf velocityArray) ∧
    (∀ (leaf : PointDataLeaf) (i : Nat), MultiGroupFilter [] [] leaf i = true) := by
  refine ⟨fun op ty leaf idx => ?_, fun t box ty leaf idx => ?_, fun op length leaf => rfl,
    fun op length leaf va => ?_, MultiGroupFilter_nil⟩
  · unfold GenerateBBoxOp.expandBBox GenerateBBoxOp.expandBBoxFiltered
      GenerateBBoxOp.expandBBoxUnfiltered
    split <;> rfl
  · simp [GenerateBBoxOp.expandBBoxFiltered, GenerateBBoxOp.expandBBoxUnfiltered,
      MultiGroupFilter_nil]
  · simp [PopulateColorFromVelocityOp.colorFiltered, PopulateColorFromVelocityOp.colorUnfiltered,
      MultiGroupFilter_nil]

/-! ## Colour from velocity: uniform and per-point velocity -/

theorem AttributeArray.get_expand (a : AttributeArray) (i : Nat) : a.expand.get i = a.get i := by
  rcases a with ⟨n, u, d⟩
  cases u <;> simp [AttributeArray.expand, AttributeArray.get]

namespace PopulateColorFromVelocityOp

theorem foldl_colorPointCounted (op : PopulateColorFromVelocityOp) (length : Vec3d → ℚ)
    (uniform : Bool) (uniformColor : Vec3d) (pts : List (Nat × Coord)) (leaf : PointDataLeaf)
    (n : Nat) :
    pts.foldl (op.colorPointCounted length uniform uniformColor) (leaf, n) =
      (pts.foldl (op.colorPoint length uniform uniformColor) leaf,
        n + if uniform then 0 else pts.length) := by
  induction pts generalizing leaf n with
  | nil => simp
  | cons p rest ih =>
    simp only [List.foldl_cons]
    cases uniform with
    | true =>
      have hstep : op.colorPointCounted length true uniformColor (leaf, n) p =
          (op.colorPoint length true uniformColor leaf p, n) := rfl
      rw [hstep, ih]
      simp
    | false =>
      have hstep : op.colorPointCounted length false uniformColor (leaf, n) p =
          (op.colorPoint length false uniformColor leaf p, n + 1) := rfl
      rw [hstep, ih]
      simp only [Bool.false_eq_true, if_false, List.length_cons, Prod.mk.injEq, true_and]
      omega

/-- The counted operator computes the leaf of `callLeaf` and makes one ramp lookup for the
leaf plus, when the velocity is stored per point, one for every point visited. -/
theorem callLeafCounted_eq (op : PopulateColorFromVelocityOp) (length : Vec3d → ℚ)
    (leaf out : PointDataLeaf) (v : Attribute)
    (hv : leaf.attributes[op.mVelocityIndex]? = some v)
    (h : op.callLeaf length leaf = .ok out) :
    op.callLeafCounted length leaf = .ok (out, 1 + if v.array.isUniform then 0
      else (leaf.indexOn.filter
        (fun ic => MultiGroupFilter op.mIncludeGroups op.mExcludeGroups leaf ic.1)).length) := by
  cases hc : leaf.attributes[op.mColorIndex]? with
  | none => simp [callLeaf, PointDataLeaf.attributeArray, hc] at h
  | some c =>
    rw [callLeaf_eq op length leaf c v hc hv] at h
    injection h with h
    subst h
    unfold callLeafCounted PointDataLeaf.attributeArray
    simp only [hc, hv, getColorFromRampCounted, foldl_colorPointCounted]
    by_cases hg : (!op.mIncludeGroups.isEmpty || !op.mExcludeGroups.isEmpty) = true
    · simp only [hg, if_true]
      split <;> simp
    · have h1 : op.mIncludeGroups = [] := by
        cases hi : op.mIncludeGroups with
        | nil => rfl
        | cons a l => simp [hi] at hg
      have h2 : op.mExcludeGroups = [] := by
        cases hi : op.mExcludeGroups with
        | nil => rfl
        | cons a l => simp [hi] at hg
      simp only [h1, h2, MultiGroupFilter_nil, List.filter_true, List.isEmpty_nil,
        Bool.not_true, Bool.or_self, Bool.false_eq_true, if_false]
      split <;> simp

end PopulateColorFromVelocityOp

namespace PointDataLeaf

theorem readVec3_expandAt (leaf : PointDataLeaf) (pos other i : Nat) :
    (leaf.expandAt pos).readVec3 other i = leaf.readVec3 other i := by
  unfold readVec3 expandAt
  by_cases h : other = pos
  · subst h
    simp only [getElem?_modifyArrayAt_same]
    cases leaf.attributes[other]? with
    | none => rfl
    | some a => simp [AttributeArray.get_expand]
  · simp only [getElem?_modifyArrayAt_ne _ _ h]

end PointDataLeaf

/-- C17: on a leaf whose velocity is stored as a uniform value, `operator()` writes, index by
index, the colours it writes on the same leaf with the velocity stored per point and every
point holding that value; and it evaluates the ramp exactly once for the leaf, whatever the
number of points.  (Colour and velocity are two different attributes of the leaf.) -/
theorem callLeaf_uniform_velocity (op : PopulateColorFromVelocityOp) (length : Vec3d → ℚ)
    (leaf : PointDataLeaf) (v : Attribute)
    (hc : op.mColorIndex < leaf.attributes.length)
    (hne : op.mColorIndex ≠ op.mVelocityIndex)
    (hv : leaf.attributes[op.mVelocityIndex]? = some v)
    (hu : v.array.isUniform = true) :
    (∃ a, (leaf.expandAt op.mVelocityIndex).attributes[op.mVelocityIndex]? = some a ∧
      a.array.isUniform = false ∧ ∀ i, a.array.get i = v.array.get 0) ∧
    ∃ out outPerPoint,
      op.callLeaf length leaf = .ok out ∧
      op.callLeaf length (leaf.expandAt op.mVelocityIndex) = .ok outPerPoint ∧
      (∀ i, out.readVec3 op.mColorIndex i = outPerPoint.readVec3 op.mColorIndex i) ∧
      op.callLeafCounted length leaf = .ok (out, 1) := by
  have hvlen : op.mVelocityIndex < leaf.attributes.length := by
    rcases Nat.lt_or_ge op.mVelocityIndex leaf.attributes.length with h | h
    · exact h
    · rw [List.getElem?_eq_none h] at hv
      cases hv
  have hlenP : (leaf.expandAt op.mVelocityIndex).attributes.length = leaf.attributes.length :=
    length_modifyArrayAt _ _ _
  obtain ⟨out, hout, hcol⟩ :=
    PopulateColorFromVelocityOp.callLeaf_readColor op length leaf hc hvlen hne
  obtain ⟨outP, houtP, hcolP⟩ :=
    PopulateColorFromVelocityOp.callLeaf_readColor op length (leaf.expandAt op.mVelocityIndex)
      (by rw [hlenP]; exact hc) (by rw [hlenP]; exact hvlen) hne
  refine ⟨?_, out, outP, hout, houtP, fun i => ?_, ?_⟩
  · refine ⟨{ v with array := v.array.expand }, ?_, ?_, fun i => ?_⟩
    · simp [PointDataLeaf.expandAt, getElem?_modifyArrayAt_same, hv]
    · simp [AttributeArray.expand, hu]
    · show v.array.expand.get i = v.array.get 0
      rw [AttributeArray.get_expand]
      simp [AttributeArray.get, hu]
  · rw [hcol i, hcolP i]
    simp only [PointDataLeaf.readVec3_expandAt]
    rfl
  · have h := PopulateColorFromVelocityOp.callLeafCounted_eq op length leaf out v hv hout
    simpa [hu] using h

/-- C17, witness: the sample operator on the two-point leaf with a uniform velocity. -/
theorem callLeaf_uniform_velocity_witness :
    sampleColorOp.mColorIndex < leafWithUniformVelocity.attributes.length ∧
    sampleColorOp.mColorIndex ≠ sampleColorOp.mVelocityIndex ∧
    ∃ out outPerPoint,
      sampleColorOp.callLeaf axisLength leafWithUniformVelocity = .ok out ∧
      sampleColorOp.callLeaf axisLength
        (leafWithUniformVelocity.expandAt sampleColorOp.mVelocityIndex) = .ok outPerPoint ∧
      (∀ i, out.readVec3 sampleColorOp.mColorIndex i =
        outPerPoint.readVec3 sampleColorOp.mColorIndex i) ∧
      sampleColorOp.callLeafCounted axisLength leafWithUniformVelocity = .ok (out, 1) :=
  ⟨by decide, by decide,
    (callLeaf_uniform_velocity sampleColorOp axisLength leafWithUniformVelocity
      ⟨"v", "vec3s", ⟨2, true, fun _ => AttrValue.vec3 ⟨1, 0, 0⟩⟩⟩
      (by decide) (by decide) rfl rfl).2⟩

/-! ## The collapse decision and the empty attribute list -/

theorem stdBinarySearch_eq_true_iff (l : List Name) (h : l.Sorted (· < ·)) (value : Name) :
    stdBinarySearch l value = true ↔ value ∈ l := by
  induction l with
  | nil => simp [stdBinarySearch]
  | cons a rest ih =>
    by_cases hlt : a < value
    · have hstep : stdBinarySearch (a :: rest) value = stdBinarySearch rest value := by
        simp [stdBinarySearch, List.dropWhile, hlt]
      rw [hstep, ih h.of_cons, List.mem_cons]
      constructor
      · exact fun hm => Or.inr hm
      · rintro (heq | hm)
        · exact absurd (heq ▸ hlt) (lt_irrefl _)
        · exact hm
    · have hstep : stdBinarySearch (a :: rest) value = !decide (value < a) := by
        simp [stdBinarySearch, List.dropWhile, hlt]
      rw [hstep, List.mem_cons]
      constructor
      · intro hnot
        have hnlt : ¬ value < a := by simpa using hnot
        exact Or.inl (le_antisymm (not_lt.mp hlt) (not_lt.mp hnlt))
      · rintro (heq | hm)
        · subst heq
          simp
        · exact absurd (List.rel_of_sorted_cons h _ hm) hlt

theorem renderValidAttributes_eq (mGridPtrs : List PointDataGrid) (inc exc : List Name) :
    renderValidAttributes mGridPtrs inc exc =
      validAttributes (seededInclude mGridPtrs inc exc) exc := by
  unfold renderValidAttributes seededInclude
  split <;> rfl

theorem sorted_renderValidAttributes (mGridPtrs : List PointDataGrid) (inc exc : List Name) :
    (renderValidAttributes mGridPtrs inc exc).Sorted (· < ·) := by
  rw [renderValidAttributes_eq]
  exact sorted_validAttributes _ _

theorem collapseVelocityAfter_eq_true_iff (l : List Name) (h : l.Sorted (· < ·)) :
    collapseVelocityAfter l = true ↔ l ≠ [] ∧ "v" ∉ l := by
  have hs := stdBinarySearch_eq_true_iff l h "v"
  unfold collapseVelocityAfter
  cases hb : stdBinarySearch l "v" with
  | true =>
    have hm : "v" ∈ l := hs.mp hb
    simp [hm]
  | false =>
    have hm : "v" ∉ l := fun hm => by
      rw [hs.mpr hm] at hb
      cases hb
    cases l <;> simp [hm]

/-- When the first leaf of a tree has `v` and `Cd`, both of supported types, the
speed-to-colour block runs the operator on the tree with the positions found and the
collapse flag computed from `validAttributes`. -/
theorem speedToColorTree_of_supported (parms : RenderParms) (length : Vec3d → ℚ)
    (validAttributes : List Name) (tree : List PointDataLeaf) (leaf : PointDataLeaf)
    (velocityIndex colorIndex : Nat) (hhead : tree.head? = some leaf)
    (hv : leaf.find "v" = some velocityIndex) (hc : leaf.find "Cd" = some colorIndex)
    (hvt : leaf.type velocityIndex = typeNameVec3f ∨ leaf.type velocityIndex = typeNameVec3H)
    (hct : leaf.type colorIndex = typeNameVec3f ∨ leaf.type colorIndex = typeNameVec3H) :
    speedToColorTree parms length validAttributes tree =
      PopulateColorFromVelocityOp.call
        { mColorIndex := colorIndex, mVelocityIndex := velocityIndex,
          mRamp := parms.mFunctionRamp, mMaxSpeed := parms.mMaxSpeed,
          mIncludeGroups := parms.mIncludeGroups, mExcludeGroups := parms.mExcludeGroups,
          mCollapseVelocityAfter := collapseVelocityAfter validAttributes } length tree := by
  have hne : typeNameVec3f ≠ typeNameVec3H := by decide
  unfold speedToColorTree
  simp only [hhead, hv, hc, Option.isSome_some, Bool.true_and]
  rcases hct with hct | hct <;> rcases hvt with hvt | hvt <;>
    simp [hct, hvt, hne, hne.symm, posOrInvalid]

/-- C18: on the list `validAttributes` that `render()` computes, the binary search for `"v"`
is a membership test, so `collapseVelocityAfter` is true exactly when the list is non-empty
and does not contain `"v"`; it is false whenever the list contains `"v"` or is empty (all
attributes); and this is the flag the colouring operator is constructed with. -/
theorem collapseVelocityAfter_spec (mGridPtrs : List PointDataGrid)
    (includeAttributes excludeAttributes : List Name) :
    (stdBinarySearch (renderValidAttributes mGridPtrs includeAttributes excludeAttributes) "v" =
        true ↔
      "v" ∈ renderValidAttributes mGridPtrs includeAttributes excludeAttributes) ∧
    (collapseVelocityAfter
        (renderValidAttributes mGridPtrs includeAttributes excludeAttributes) = true ↔
      renderValidAttributes mGridPtrs includeAttributes excludeAttributes ≠ [] ∧
        "v" ∉ renderValidAttributes mGridPtrs includeAttributes excludeAttributes) ∧
    ("v" ∈ renderValidAttributes mGridPtrs includeAttributes excludeAttributes ∨
        renderValidAttributes mGridPtrs includeAttributes excludeAttributes = [] →
      collapseVelocityAfter
        (renderValidAttributes mGridPtrs includeAttributes excludeAttributes) = false) ∧
    (∀ (parms : RenderParms) (length : Vec3d → ℚ) (tree : List PointDataLeaf)
        (leaf : PointDataLeaf) (velocityIndex colorIndex : Nat),
      tree.head? = some leaf → leaf.find "v" = some velocityIndex →
      leaf.find "Cd" = some colorIndex →
      (leaf.type velocityIndex = typeNameVec3f ∨ leaf.type velocityIndex = typeNameVec3H) →
      (leaf.type colorIndex = typeNameVec3f ∨ leaf.type colorIndex = typeNameVec3H) →
      speedToColorTree parms length
          (renderValidAttributes mGridPtrs includeAttributes excludeAttributes) tree =
        PopulateColorFromVelocityOp.call
          { mColorIndex := colorIndex, mVelocityIndex := velocityIndex,
            mRamp := parms.mFunctionRamp, mMaxSpeed := parms.mMaxSpeed,
            mIncludeGroups := parms.mIncludeGroups, mExcludeGroups := parms.mExcludeGroups,
            mCollapseVelocityAfter := collapseVelocityAfter
              (renderValidAttributes mGridPtrs includeAttributes excludeAttributes) }
          length tree) := by
  have hsorted := sorted_renderValidAttributes mGridPtrs includeAttributes excludeAttributes
  have hiff := collapseVelocityAfter_eq_true_iff _ hsorted
  refine ⟨stdBinarySearch_eq_true_iff _ hsorted "v", hiff, fun hor => ?_,
    fun parms length tree leaf vi ci h1 h2 h3 h4 h5 =>
      speedToColorTree_of_supported parms length _ tree leaf vi ci h1 h2 h3 h4 h5⟩
  cases hflag : collapseVelocityAfter
      (renderValidAttributes mGridPtrs includeAttributes excludeAttributes) with
  | false => rfl
  | true =>
    obtain ⟨hne, hnot⟩ := hiff.mp hflag
    rcases hor with hmem | hnil
    · exact absurd hmem hnot
    · exact absurd hnil hne

/-- C20: `validAttributes` is empty exactly when every name of the include list, as it
stands after seeding, occurs in the exclude list; such a request gives the list, and the
collapse decision, of the request without include and exclude, for example when `Cd` and
`v` are both included and both excluded. -/
theorem renderValidAttributes_eq_nil_iff (mGridPtrs : List PointDataGrid)
    (includeAttributes excludeAttributes : List Name) :
    (renderValidAttributes mGridPtrs includeAttributes excludeAttributes = [] ↔
      ∀ n ∈ seededInclude mGridPtrs includeAttributes excludeAttributes,
        n ∈ excludeAttributes) ∧
    renderValidAttributes mGridPtrs [] [] = [] ∧
    ((∀ n ∈ seededInclude mGridPtrs includeAttributes excludeAttributes,
        n ∈ excludeAttributes) →
      renderValidAttributes mGridPtrs includeAttributes excludeAttributes =
        renderValidAttributes mGridPtrs [] [] ∧
      collapseVelocityAfter
          (renderValidAttributes mGridPtrs includeAttributes excludeAttributes) =
        collapseVelocityAfter (renderValidAttributes mGridPtrs [] []) ∧
      collapseVelocityAfter
          (renderValidAttributes mGridPtrs includeAttributes excludeAttributes) = false) ∧
    renderValidAttributes mGridPtrs ["Cd", "v"] ["v", "Cd"] =
      renderValidAttributes mGridPtrs [] [] := by
  have hiff : ∀ inc exc : List Name, renderValidAttributes mGridPtrs inc exc = [] ↔
      ∀ n ∈ seededInclude mGridPtrs inc exc, n ∈ exc := by
    intro inc exc
    rw [renderValidAttributes_eq, List.eq_nil_iff_forall_not_mem]
    constructor
    · intro h n hn
      by_contra hne
      exact h n ((mem_validAttributes _ _ n).mpr ⟨hn, hne⟩)
    · intro h n hn
      obtain ⟨h1, h2⟩ := (mem_validAttributes _ _ n).mp hn
      exact h2 (h n h1)
  have hnil : renderValidAttributes mGridPtrs [] [] = [] := by
    rw [hiff]
    intro n hn
    simp [seededInclude] at hn
  refine ⟨hiff _ _, hnil, fun hall => ?_, ?_⟩
  · have h0 := (hiff includeAttributes excludeAttributes).mpr hall
    rw [h0, hnil]
    exact ⟨rfl, rfl, rfl⟩
  · rw [hnil, hiff]
    intro n hn
    simp only [seededInclude, List.isEmpty_cons, Bool.false_and, Bool.false_eq_true,
      if_false, List.mem_cons, List.mem_singleton, List.not_mem_nil, or_false] at hn
    rcases hn with h | h <;> simp [h]

/-! ## The bounds reduction: positions, single points, unions -/

/-- C19: whatever the transform (any per-axis scale, any translation) and whatever the scale
values, a box returned by `getBoundingBox` contains the world position of every active,
filter-passing point of every leaf with a supported `pscale`: the index position lies, on
each axis, half-way between the two corners `position - radius` and `position + radius`,
whose world images are both in the box. -/
theorem getBoundingBox_contains_position (gridPtrs : List PointDataGrid)
    (includeGroups excludeGroups : List Name) (box : BBoxd)
    (hbox : getBoundingBox gridPtrs includeGroups excludeGroups = .ok box)
    (grid : PointDataGrid) (hg : grid ∈ gridPtrs) (leaf : PointDataLeaf)
    (hl : leaf ∈ grid.tree) (idx : Nat) (hs : leaf.hasSupportedPscale idx)
    (ic : Nat × Coord) (hic : ic ∈ leaf.indexOn)
    (hpass : MultiGroupFilter includeGroups excludeGroups leaf ic.1 = true) :
    box.isInside (grid.transform.indexToWorld (leaf.indexPosition ic)) ∧
    (leaf.indexPosition ic - leaf.indexRadius grid.transform idx ic.1) +
        (leaf.indexPosition ic + leaf.indexRadius grid.transform idx ic.1) =
      leaf.indexPosition ic + leaf.indexPosition ic ∧
    box.isInside (grid.transform.indexToWorld
      (leaf.indexPosition ic - leaf.indexRadius grid.transform idx ic.1)) ∧
    box.isInside (grid.transform.indexToWorld
      (leaf.indexPosition ic + leaf.indexRadius grid.transform idx ic.1)) := by
  obtain ⟨h1, h2, h3⟩ := getBoundingBox_isInside gridPtrs includeGroups excludeGroups box hbox
    grid hg leaf hl idx hs ic hic hpass
  refine ⟨h3, ?_, h1, h2⟩
  simp only [Vec3d.add_def, Vec3d.sub_def, Vec3d.mk.injEq]
  refine ⟨?_, ?_, ?_⟩ <;> ring

/-- C19, witness: unit voxels translated by one tenth and a point of scale one tenth, whose
index-space radius is zero; the returned box is the single world position. -/
theorem getBoundingBox_contains_position_witness :
    getBoundingBox [⟨translatedTransform, [leafWithPscale]⟩] [] [] =
      .ok (BBoxd.box ⟨1 / 10, 1 / 10, 1 / 10⟩ ⟨1 / 10, 1 / 10, 1 / 10⟩) ∧
    leafWithPscale.hasSupportedPscale 0 ∧
    (BBoxd.box ⟨1 / 10, 1 / 10, 1 / 10⟩ ⟨1 / 10, 1 / 10, 1 / 10⟩).isInside
      (translatedTransform.indexToWorld (leafWithPscale.indexPosition (0, ⟨0, 0, 0⟩))) := by
  have hbox : getBoundingBox [⟨translatedTransform, [leafWithPscale]⟩] [] [] =
      .ok (BBoxd.box ⟨1 / 10, 1 / 10, 1 / 10⟩ ⟨1 / 10, 1 / 10, 1 / 10⟩) := by
    simp [getBoundingBox, getBoundingBoxLoop, GenerateBBoxOp.call, PointDataLeaf.find, findPos,
      leafWithPscale, PointDataLeaf.type, typeNameFloat, GenerateBBoxOp.expandBBox,
      GenerateBBoxOp.expandPoint, GenerateBBoxOp.pscaleHandle, GenerateBBoxOp.pscaleIsUniform,
      GenerateBBoxOp.uniformPscale, translatedTransform, zeroPositions, AttributeArray.get,
      AttrValue.toScalar, AttrValue.toVec3, Transform.worldToIndex, Vec3d.splat,
      Coord.asVec3d, BBoxd.expand, BBoxd.isEmpty, Transform.indexToWorldBBox,
      Transform.indexToWorld, BBoxd.expandBox, Vec3d.minComponent, Vec3d.maxComponent]
  have hs : leafWithPscale.hasSupportedPscale 0 := ⟨rfl, Or.inl rfl⟩
  exact ⟨hbox, hs,
    (getBoundingBox_contains_position _ [] [] _ hbox ⟨translatedTransform, [leafWithPscale]⟩
      (List.mem_singleton.mpr rfl) leafWithPscale (List.mem_singleton.mpr rfl) 0 hs
      (0, ⟨0, 0, 0⟩) (by simp [leafWithPscale]) rfl).1⟩

theorem foldl_gridBounds_eq (inc exc : List Name) (grids : List PointDataGrid) (wb : BBoxd) :
    grids.foldl (fun w g =>
      if (treeBox inc exc g).isEmpty then w
      else w.expandBox (g.transform.indexToWorldBBox (treeBox inc exc g))) wb =
    ((grids.filter (fun g => !(treeBox inc exc g).isEmpty)).map
      (fun g => g.transform.indexToWorldBBox (treeBox inc exc g))).foldl BBoxd.expandBox wb := by
  induction grids generalizing wb with
  | nil => rfl
  | cons g rest ih =>
    simp only [List.foldl_cons, List.filter_cons]
    by_cases he : (treeBox inc exc g).isEmpty = true
    · simp only [he, if_true, Bool.not_true, Bool.false_eq_true, if_false]
      exact ih wb
    · simp only [he, if_false, Bool.not_eq_true] at *
      simp only [he, Bool.not_false, if_true, List.map_cons, List.foldl_cons]
      exact ih _

theorem getBoundingBoxLoop_append (inc exc : List Name) (pre rest1 rest2 : List PointDataGrid)
    (h : ∀ wb, getBoundingBoxLoop inc exc rest1 wb = getBoundingBoxLoop inc exc rest2 wb)
    (wb : BBoxd) :
    getBoundingBoxLoop inc exc (pre ++ rest1) wb = getBoundingBoxLoop inc exc (pre ++ rest2) wb := by
  induction pre generalizing wb with
  | nil => exact h wb
  | cons g pre ih =>
    simp only [List.cons_append]
    rw [getBoundingBoxLoop, getBoundingBoxLoop]
    split
    · rfl
    · split
      · exact ih _
      · exact ih _

theorem getBoundingBoxLoop_cons_of_no_points (inc exc : List Name) (g : PointDataGrid)
    (rest : List PointDataGrid) (wb : BBoxd)
    (hsupp : ∀ leaf ∈ g.tree, ¬ leaf.hasUnsupportedPscale)
    (hnone : ∀ leaf ∈ g.tree, ∀ ic ∈ leaf.indexOn, MultiGroupFilter inc exc leaf ic.1 = false) :
    getBoundingBoxLoop inc exc (g :: rest) wb = getBoundingBoxLoop inc exc rest wb := by
  rw [getBoundingBoxLoop, GenerateBBoxOp.call_of_supported g.tree _ hsupp]
  simp only [BBoxd.empty_expandBox, rangeBox_eq_empty g.transform inc exc g.tree hnone,
    BBoxd.isEmpty, if_true]

/-- C14 (as stated, refuted): the tree whose only leaf holds no point and declares `pscale`
as a 32-bit integer has no qualifying point, yet appending it to a forest changes the
result of `getBoundingBox` from a box to the type error. -/
theorem getBoundingBox_insert_tree_typeError :
    (∀ leaf ∈ (⟨translatedTransform, [leafWithIntPscale]⟩ : PointDataGrid).tree,
      ∀ ic ∈ leaf.indexOn, MultiGroupFilter [] [] leaf ic.1 = false) ∧
    getBoundingBox [⟨identityTransform, [leafWithPscale]⟩] [] [] =
      .ok (BBoxd.box ⟨-(1 / 10), -(1 / 10), -(1 / 10)⟩ ⟨1 / 10, 1 / 10, 1 / 10⟩) ∧
    getBoundingBox
      [⟨identityTransform, [leafWithPscale]⟩, ⟨translatedTransform, [leafWithIntPscale]⟩]
      [] [] = .error (.typeError "Unsupported pscale type - int32") := by
  refine ⟨?_, ?_, rfl⟩
  · intro leaf hl ic hic
    simp only [List.mem_singleton] at hl
    subst hl
    simp [leafWithIntPscale] at hic
  · simp [getBoundingBox, getBoundingBoxLoop, GenerateBBoxOp.call, PointDataLeaf.find, findPos,
      leafWithPscale, PointDataLeaf.type, typeNameFloat, GenerateBBoxOp.expandBBox,
      GenerateBBoxOp.expandPoint, GenerateBBoxOp.pscaleHandle, GenerateBBoxOp.pscaleIsUniform,
      GenerateBBoxOp.uniformPscale, identityTransform, zeroPositions, AttributeArray.get,
      AttrValue.toScalar, AttrValue.toVec3, Transform.worldToIndex, Vec3d.splat,
      Coord.asVec3d, BBoxd.expand, BBoxd.isEmpty, Transform.indexToWorldBBox,
      Transform.indexToWorld, BBoxd.expandBox, Vec3d.minComponent, Vec3d.maxComponent]

/-- C14 (amended): a box returned by `getBoundingBox` is the union, over exactly the trees
whose reduced index-space box is non-empty, of the tree's own transform applied to that
box, the reduced box being what the reduction over the tree yields; and inserting anywhere
in the forest a tree, with any transform, that has no qualifying point and no `pscale` of
an unsupported type leaves the result unchanged. -/
theorem getBoundingBox_eq_worldUnion (gridPtrs : List PointDataGrid)
    (includeGroups excludeGroups : List Name) :
    (∀ box, getBoundingBox gridPtrs includeGroups excludeGroups = .ok box →
      box = worldUnion includeGroups excludeGroups gridPtrs ∧
      ∀ g ∈ gridPtrs,
        GenerateBBoxOp.call ⟨g.transform, BBoxd.empty, includeGroups, excludeGroups⟩ g.tree =
          .ok ⟨g.transform, treeBox includeGroups excludeGroups g, includeGroups,
            excludeGroups⟩) ∧
    (∀ (pre post : List PointDataGrid) (g : PointDataGrid), gridPtrs = pre ++ post →
      (∀ leaf ∈ g.tree, ¬ leaf.hasUnsupportedPscale) →
      (∀ leaf ∈ g.tree, ∀ ic ∈ leaf.indexOn,
        MultiGroupFilter includeGroups excludeGroups leaf ic.1 = false) →
      getBoundingBox (pre ++ g :: post) includeGroups excludeGroups =
        getBoundingBox gridPtrs includeGroups excludeGroups) := by
  refine ⟨fun box hbox => ?_, fun pre post g hsplit hsupp hnone => ?_⟩
  · have hok : ¬ forestHasUnsupportedPscale gridPtrs := by
      intro hbad
      obtain ⟨msg, hmsg⟩ := getBoundingBoxLoop_of_unsupported includeGroups excludeGroups
        gridPtrs BBoxd.empty hbad
      have hmsg2 : getBoundingBox gridPtrs includeGroups excludeGroups =
          .error (.typeError msg) := hmsg
      rw [hmsg2] at hbox
      cases hbox
    have hloop : getBoundingBox gridPtrs includeGroups excludeGroups = .ok _ :=
      getBoundingBoxLoop_of_supported includeGroups excludeGroups gridPtrs BBoxd.empty hok
    rw [hloop] at hbox
    injection hbox with hbox
    refine ⟨?_, fun g hg => ?_⟩
    · rw [← hbox, foldl_gridBounds_eq]
      rfl
    · rw [GenerateBBoxOp.call_of_supported g.tree _
        (fun leaf hl hbad => hok ⟨g, hg, leaf, hl, hbad⟩)]
      simp only [BBoxd.empty_expandBox]
      rfl
  · subst hsplit
    unfold getBoundingBox
    exact getBoundingBoxLoop_append includeGroups excludeGroups pre (g :: post) post
      (fun wb => getBoundingBoxLoop_cons_of_no_points includeGroups excludeGroups g post wb
        hsupp hnone) BBoxd.empty

/-- C14 (amended), witness: a tree whose only point is in the excluded group `hidden`,
inserted between a tree without leaves and a tree with one qualifying point. -/
theorem getBoundingBox_eq_worldUnion_witness :
    (∀ leaf ∈ (⟨translatedTransform, [leafAllHidden]⟩ : PointDataGrid).tree,
      ¬ leaf.hasUnsupportedPscale) ∧
    (∀ leaf ∈ (⟨translatedTransform, [leafAllHidden]⟩ : PointDataGrid).tree,
      ∀ ic ∈ leaf.indexOn, MultiGroupFilter [] ["hidden"] leaf ic.1 = false) ∧
    getBoundingBox ([⟨identityTransform, []⟩] ++
        ⟨translatedTransform, [leafAllHidden]⟩ :: [⟨identityTransform, [leafWithPscale]⟩])
        [] ["hidden"] =
      getBoundingBox ([⟨identityTransform, []⟩] ++ [⟨identityTransform, [leafWithPscale]⟩])
        [] ["hidden"] := by
  have hsupp : ∀ leaf ∈ (⟨translatedTransform, [leafAllHidden]⟩ : PointDataGrid).tree,
      ¬ leaf.hasUnsupportedPscale := by
    intro leaf hl
    simp only [List.mem_singleton] at hl
    subst hl
    rintro ⟨idx, hf, h1, _⟩
    have hfind : leafAllHidden.find "pscale" = some 0 := rfl
    rw [hfind] at hf
    cases hf
    exact h1 rfl
  have hnone : ∀ leaf ∈ (⟨translatedTransform, [leafAllHidden]⟩ : PointDataGrid).tree,
      ∀ ic ∈ leaf.indexOn, MultiGroupFilter [] ["hidden"] leaf ic.1 = false := by
    intro leaf hl ic _
    simp only [List.mem_singleton] at hl
    subst hl
    simp [MultiGroupFilter, leafAllHidden]
  exact ⟨hsupp, hnone,
    (getBoundingBox_eq_worldUnion _ [] ["hidden"]).2 [⟨identityTransform, []⟩]
      [⟨identityTransform, [leafWithPscale]⟩] ⟨translatedTransform, [leafAllHidden]⟩ rfl
      hsupp hnone⟩

theorem leafBox_single_point (t : Transform) (leaf : PointDataLeaf) (idx : Nat)
    (ic : Nat × Coord) (hs : leaf.hasSupportedPscale idx) (hpts : leaf.indexOn = [ic]) :
    leafBox t [] [] leaf =
      BBoxd.box
        (Vec3d.minComponent (leaf.indexPosition ic - leaf.indexRadius t idx ic.1)
          (leaf.indexPosition ic + leaf.indexRadius t idx ic.1))
        (Vec3d.maxComponent (leaf.indexPosition ic - leaf.indexRadius t idx ic.1)
          (leaf.indexPosition ic + leaf.indexRadius t idx ic.1)) := by
  obtain ⟨a, ha, _⟩ := findPos_getElem? hs.1
  have hh : GenerateBBoxOp.pscaleHandle (leaf.type idx) leaf (some idx) = some a.array := by
    simp [GenerateBBoxOp.pscaleHandle, ha]
  have hps : (if a.array.isUniform = true then (a.array.get 0).toScalar
      else (a.array.get ic.1).toScalar) = (a.array.get ic.1).toScalar := by
    by_cases hu : a.array.isUniform = true
    · simp [hu, AttributeArray.get]
    · simp [hu]
  unfold leafBox GenerateBBoxOp.leafStep
  rw [hs.1]
  simp only [GenerateBBoxOp.expandBBox_eq, hh, GenerateBBoxOp.pscaleIsUniform,
    GenerateBBoxOp.uniformPscale, MultiGroupFilter_nil, List.filter_true, hpts,
    List.foldl_cons, List.foldl_nil, GenerateBBoxOp.expandPoint, hps,
    PointDataLeaf.indexPosition, PointDataLeaf.indexRadius, PointDataLeaf.pscaleValue, ha,
    BBoxd.expand]

/-- C13 (as stated, refuted): under voxel size two, a single point at the index origin with
scale one tenth reduces to the index-space box of half-width one twentieth, not one tenth,
and `getBoundingBox` returns the world box of half-width one tenth, not the transform of
the box of half-width one tenth, which has half-width one fifth. -/
theorem getBoundingBox_single_point_voxel_size :
    leafWithPscale.indexOn = [(0, ⟨0, 0, 0⟩)] ∧
    leafWithPscale.indexPosition (0, ⟨0, 0, 0⟩) = ⟨0, 0, 0⟩ ∧
    leafWithPscale.pscaleValue 0 0 = 1 / 10 ∧
    GenerateBBoxOp.call ⟨doubleTransform, BBoxd.empty, [], []⟩ [leafWithPscale] =
      .ok ⟨doubleTransform,
        BBoxd.box ⟨-(1 / 20), -(1 / 20), -(1 / 20)⟩ ⟨1 / 20, 1 / 20, 1 / 20⟩, [], []⟩ ∧
    getBoundingBox [⟨doubleTransform, [leafWithPscale]⟩] [] [] =
      .ok (BBoxd.box ⟨-(1 / 10), -(1 / 10), -(1 / 10)⟩ ⟨1 / 10, 1 / 10, 1 / 10⟩) ∧
    doubleTransform.indexToWorldBBox
        (BBoxd.box ⟨-(1 / 10), -(1 / 10), -(1 / 10)⟩ ⟨1 / 10, 1 / 10, 1 / 10⟩) =
      BBoxd.box ⟨-(1 / 5), -(1 / 5), -(1 / 5)⟩ ⟨1 / 5, 1 / 5, 1 / 5⟩ := by
  refine ⟨rfl, ?_, ?_, ?_, ?_, ?_⟩
  · simp [PointDataLeaf.indexPosition, leafWithPscale, zeroPositions, AttributeArray.get,
      AttrValue.toVec3, Coord.asVec3d]
  · simp [PointDataLeaf.pscaleValue, leafWithPscale, AttributeArray.get, AttrValue.toScalar]
  · simp [GenerateBBoxOp.call, PointDataLeaf.find, findPos,
      leafWithPscale, PointDataLeaf.type, typeNameFloat, GenerateBBoxOp.expandBBox,
      GenerateBBoxOp.expandPoint, GenerateBBoxOp.pscaleHandle, GenerateBBoxOp.pscaleIsUniform,
      GenerateBBoxOp.uniformPscale, doubleTransform, zeroPositions, AttributeArray.get,
      AttrValue.toScalar, AttrValue.toVec3, Transform.worldToIndex, Vec3d.splat,
      Coord.asVec3d, BBoxd.expand, Vec3d.minComponent, Vec3d.maxComponent]
    norm_num
  · simp [getBoundingBox, getBoundingBoxLoop, GenerateBBoxOp.call, PointDataLeaf.find, findPos,
      leafWithPscale, PointDataLeaf.type, typeNameFloat, GenerateBBoxOp.expandBBox,
      GenerateBBoxOp.expandPoint, GenerateBBoxOp.pscaleHandle, GenerateBBoxOp.pscaleIsUniform,
      GenerateBBoxOp.uniformPscale, doubleTransform, zeroPositions, AttributeArray.get,
      AttrValue.toScalar, AttrValue.toVec3, Transform.worldToIndex, Vec3d.splat,
      Coord.asVec3d, BBoxd.expand, BBoxd.isEmpty, Transform.indexToWorldBBox,
      Transform.indexToWorld, BBoxd.expandBox, Vec3d.minComponent, Vec3d.maxComponent]
    norm_num
  · simp [Transform.indexToWorldBBox, Transform.indexToWorld, doubleTransform, BBoxd.expand,
      Vec3d.minComponent, Vec3d.maxComponent]
    norm_num

theorem PointDataLeaf.not_hasUnsupportedPscale {leaf : PointDataLeaf} {idx : Nat}
    (hs : leaf.hasSupportedPscale idx) : ¬ leaf.hasUnsupportedPscale := by
  rintro ⟨j, hj, h1, h2⟩
  rw [hs.1] at hj
  cases hj
  rcases hs.2 with h | h
  · exact h1 h
  · exact h2 h

theorem leafBox_leafThreePoints :
    leafBox identityTransform [] ["hidden"] leafThreePoints =
      BBoxd.box ⟨-(1 / 10), -(1 / 10), -(1 / 10)⟩ ⟨21 / 10, 1 / 10, 1 / 10⟩ := by
  have hfind : leafThreePoints.find "pscale" = some 0 := rfl
  have hfilter : leafThreePoints.indexOn.filter
      (fun ic => MultiGroupFilter [] ["hidden"] leafThreePoints ic.1) =
      [(0, ⟨0, 0, 0⟩), (1, ⟨1, 0, 0⟩), (2, ⟨2, 0, 0⟩)] := by
    simp [MultiGroupFilter, leafThreePoints]
  unfold leafBox GenerateBBoxOp.leafStep
  rw [hfind]
  simp only [GenerateBBoxOp.expandBBox_eq, hfilter, List.foldl_cons, List.foldl_nil]
  simp [GenerateBBoxOp.expandPoint, GenerateBBoxOp.pscaleHandle,
    GenerateBBoxOp.pscaleIsUniform, GenerateBBoxOp.uniformPscale, leafThreePoints, tenthScale,
    PointDataLeaf.type, identityTransform, zeroPositions, AttributeArray.get,
    AttrValue.toScalar, AttrValue.toVec3, Transform.worldToIndex, Vec3d.splat, Coord.asVec3d,
    BBoxd.expand, Vec3d.minComponent, Vec3d.maxComponent]
  norm_num

theorem getBoundingBox_two_leaf_scenario :
    getBoundingBox [⟨identityTransform, [leafThreePoints, leafAllHidden]⟩] [] ["hidden"] =
      .ok (BBoxd.box ⟨-(1 / 10), -(1 / 10), -(1 / 10)⟩ ⟨21 / 10, 1 / 10, 1 / 10⟩) := by
  have hA : leafThreePoints.hasSupportedPscale 0 := ⟨rfl, Or.inl rfl⟩
  have hB : leafAllHidden.hasSupportedPscale 0 := ⟨rfl, Or.inl rfl⟩
  have hsupp : ∀ l ∈ [leafThreePoints, leafAllHidden], ¬ l.hasUnsupportedPscale := by
    intro l hl
    simp only [List.mem_cons, List.mem_singleton, List.not_mem_nil, or_false] at hl
    rcases hl with rfl | rfl
    · exact PointDataLeaf.not_hasUnsupportedPscale hA
    · exact PointDataLeaf.not_hasUnsupportedPscale hB
  have hhidden : leafBox identityTransform [] ["hidden"] leafAllHidden = BBoxd.empty := by
    apply leafBox_eq_empty
    intro ic _
    simp [MultiGroupFilter, leafAllHidden]
  have hcall : GenerateBBoxOp.call ⟨identityTransform, BBoxd.empty, [], ["hidden"]⟩
      [leafThreePoints, leafAllHidden] =
      .ok ⟨identityTransform,
        BBoxd.box ⟨-(1 / 10), -(1 / 10), -(1 / 10)⟩ ⟨21 / 10, 1 / 10, 1 / 10⟩,
        [], ["hidden"]⟩ := by
    rw [GenerateBBoxOp.call_of_supported _ _ hsupp]
    simp only [rangeBox, hhidden, leafBox_leafThreePoints, BBoxd.empty_expandBox,
      BBoxd.expandBox_empty]
  simp only [getBoundingBox, getBoundingBoxLoop, hcall, BBoxd.isEmpty, BBoxd.empty_expandBox,
    Bool.false_eq_true, if_false]
  simp [Transform.indexToWorldBBox, Transform.indexToWorld, identityTransform, BBoxd.expand,
    Vec3d.minComponent, Vec3d.maxComponent]
  norm_num

/-! ## Speed to colour: unsupported velocity types -/

/-- C15 (as stated, refuted): on the tree whose only leaf has `Cd` of type `vec3s` and `v`
declared `vec3d`, a type other than `Vec3f` and `Vec3H`, the speed-to-colour block raises no
error: it returns the tree as it was, point 0 keeping its black instead of the ramp colour
one half, and the loop over the grids returns normally as well. -/
theorem speedToColorTree_unsupported_velocity_no_error :
    leafDoubleVelocity.find "v" = some 1 ∧ leafDoubleVelocity.type 1 = "vec3d" ∧
    leafDoubleVelocity.type 1 ≠ typeNameVec3f ∧ leafDoubleVelocity.type 1 ≠ typeNameVec3H ∧
    speedToColorTree sampleParms axisLength [] [leafDoubleVelocity] =
      .ok [leafDoubleVelocity] ∧
    speedToColor sampleParms axisLength [] [⟨identityTransform, [leafDoubleVelocity]⟩] =
      .ok [⟨identityTransform, [leafDoubleVelocity]⟩] ∧
    leafDoubleVelocity.readVec3 0 0 = ⟨0, 0, 0⟩ ∧
    sampleParms.mFunctionRamp.rgb (normalizedSpeed sampleParms.mMaxSpeed
      (axisLength (leafDoubleVelocity.readVec3 1 0))) = ⟨1 / 2, 1 / 2, 1 / 2⟩ := by
  refine ⟨rfl, rfl, by decide, by decide, rfl, rfl, ?_, ?_⟩
  · simp [PointDataLeaf.readVec3, leafDoubleVelocity, blackColors, AttributeArray.get,
      AttrValue.toVec3]
  · simp [UT_Ramp.rgb, sampleParms, grayRamp, normalizedSpeed, axisLength,
      PointDataLeaf.readVec3, leafDoubleVelocity, twoVelocities, AttributeArray.get,
      AttrValue.toVec3]
    norm_num

/-! ## Bounds-checked reads and writes: when nothing is out of range -/

theorem AttributeArray.get?_eq_some (a : AttributeArray) (n : Nat)
    (h : a.isUniform = true ∨ n < a.size) : a.get? n = some (a.get n) := by
  unfold AttributeArray.get? AttributeArray.get
  by_cases hu : a.isUniform = true
  · simp [hu]
  · rcases h with h | h
    · exact absurd h hu
    · simp [hu, h]

theorem AttributeArray.size_set (a : AttributeArray) (n : Nat) (v : AttrValue) :
    (a.set n v).size = a.size := by
  rcases a with ⟨s, u, d⟩
  cases u <;> rfl

/-- A fold of checked steps succeeds with the result of the unchecked fold when every step
does, on every state that satisfies an invariant the steps keep. -/
theorem foldl_checked {β γ : Type} (inv : β → Prop) (f : β → γ → β) (g : β → γ → Option β)
    (l : List γ) (b : β) (hb : inv b)
    (hstep : ∀ s, inv s → ∀ x ∈ l, g s x = some (f s x) ∧ inv (f s x)) :
    l.foldl (fun state x => state.bind (fun s => g s x)) (some b) = some (l.foldl f b) := by
  induction l generalizing b with
  | nil => rfl
  | cons x rest ih =>
    obtain ⟨h1, h2⟩ := hstep b hb x (List.mem_cons_self _ _)
    simp only [List.foldl_cons, Option.some_bind, h1]
    exact ih (f b x) h2 (fun s hs y hy => hstep s hs y (List.mem_cons_of_mem _ hy))

namespace GenerateBBoxOp

theorem expandPointChecked_eq_some (t : Transform) (P : AttributeArray)
    (handle : Option AttributeArray) (b : BBoxd) (ic : Nat × Coord)
    (hP : P.isUniform = true ∨ ic.1 < P.size)
    (hh : ∀ h, handle = some h → h.isUniform = true ∨ ic.1 < h.size) :
    expandPointChecked t P (pscaleIsUniform handle) (uniformPscale handle) handle b ic =
      some (expandPoint t P (pscaleIsUniform handle) (uniformPscale handle) handle b ic) := by
  unfold expandPointChecked expandPoint
  rw [AttributeArray.get?_eq_some P ic.1 hP]
  cases handle with
  | none => simp [pscaleIsUniform]
  | some h =>
    have hget := AttributeArray.get?_eq_some h ic.1 (hh h rfl)
    by_cases hu : pscaleIsUniform (some h) = true
    · simp [hu]
    · simp [hu, hget]

/-- The checked `expandBBox` takes no out-of-range branch and yields what `expandBBox`
yields, when the position array holds every active index and a bound scale handle has an
element 0 and holds every active index. -/
theorem expandBBoxChecked_eq_some (op : GenerateBBoxOp) (pscaleType : String)
    (leaf : PointDataLeaf) (pscaleIndex : Option Nat) (hP : leaf.P.holds leaf.indexOn)
    (hh : ∀ h, pscaleHandle pscaleType leaf pscaleIndex = some h →
      h.hasFirst ∧ h.holds leaf.indexOn) :
    op.expandBBoxChecked pscaleType leaf pscaleIndex =
      some (op.expandBBox pscaleType leaf pscaleIndex) := by
  have hfirst : (match pscaleHandle pscaleType leaf pscaleIndex with
      | some h => (h.get? 0).map AttrValue.toScalar
      | none => some DEFAULT_PSCALE) =
      some (uniformPscale (pscaleHandle pscaleType leaf pscaleIndex)) := by
    cases hcase : pscaleHandle pscaleType leaf pscaleIndex with
    | none => rfl
    | some h =>
      have h0 := (hh h hcase).1
      simp only [uniformPscale]
      rw [AttributeArray.get?_eq_some h 0 h0]
      rfl
  have hfold : ∀ iter : List (Nat × Coord), (∀ ic ∈ iter, ic ∈ leaf.indexOn) →
      iter.foldl (fun (state : Option BBoxd) (ic : Nat × Coord) =>
        state.bind (fun b => expandPointChecked op.mTransform leaf.P
          (pscaleIsUniform (pscaleHandle pscaleType leaf pscaleIndex))
          (uniformPscale (pscaleHandle pscaleType leaf pscaleIndex))
          (pscaleHandle pscaleType leaf pscaleIndex) b ic)) (some op.mBbox) =
      some (iter.foldl (expandPoint op.mTransform leaf.P
          (pscaleIsUniform (pscaleHandle pscaleType leaf pscaleIndex))
          (uniformPscale (pscaleHandle pscaleType leaf pscaleIndex))
          (pscaleHandle pscaleType leaf pscaleIndex)) op.mBbox) := by
    intro iter hsub
    refine foldl_checked (fun _ => True) _ _ iter op.mBbox trivial (fun s _ ic hic => ⟨?_, trivial⟩)
    apply expandPointChecked_eq_some
    · rcases hP with hu | hall
      · exact Or.inl hu
      · exact Or.inr (hall ic (hsub ic hic))
    · intro h hcase
      rcases (hh h hcase).2 with hu | hall
      · exact Or.inl hu
      · exact Or.inr (hall ic (hsub ic hic))
  unfold expandBBoxChecked expandBBox
  simp only [hfirst]
  by_cases hg : (!op.mIncludeGroups.isEmpty || !op.mExcludeGroups.isEmpty) = true
  · simp only [hg, if_true]
    rw [hfold _ (fun ic hic => (List.mem_filter.mp hic).1)]
    rfl
  · have hg2 : (!op.mIncludeGroups.isEmpty || !op.mExcludeGroups.isEmpty) = false := by
      simpa using hg
    simp only [hg2, Bool.false_eq_true, if_false]
    rw [hfold _ (fun ic hic => hic)]
    rfl

end GenerateBBoxOp

theorem iter_eq_filter (inc exc : List Name) (leaf : PointDataLeaf) :
    (if (!inc.isEmpty || !exc.isEmpty) = true then
        leaf.indexOn.filter (fun ic => MultiGroupFilter inc exc leaf ic.1)
      else leaf.indexOn) =
      leaf.indexOn.filter (fun ic => MultiGroupFilter inc exc leaf ic.1) := by
  by_cases hg : (!inc.isEmpty || !exc.isEmpty) = true
  · simp only [hg, if_true]
  · have h1 : inc = [] := by
      cases hi : inc with
      | nil => rfl
      | cons a l => simp [hi] at hg
    have h2 : exc = [] := by
      cases hi : exc with
      | nil => rfl
      | cons a l => simp [hi] at hg
    simp [h1, h2, MultiGroupFilter_nil]

theorem size_modifyArrayAt_set (l : List Attribute) (pos i : Nat) (v : AttrValue) (p : Nat) :
    ((modifyArrayAt (fun a => a.set i v) l pos)[p]?).map (fun a => a.array.size) =
      (l[p]?).map (fun a => a.array.size) := by
  by_cases hp : p = pos
  · subst hp
    rw [getElem?_modifyArrayAt_same]
    cases l[p]? with
    | none => rfl
    | some a => simp [AttributeArray.size_set]
  · rw [getElem?_modifyArrayAt_ne _ _ hp]

namespace PopulateColorFromVelocityOp

theorem colorPointChecked_eq_some (op : PopulateColorFromVelocityOp) (length : Vec3d → ℚ)
    (uniform : Bool) (uniformColor : Vec3d) (leaf : PointDataLeaf) (ic : Nat × Coord)
    (c : Attribute) (hc : leaf.attributes[op.mColorIndex]? = some c)
    (hcs : ic.1 < c.array.size)
    (hv : uniform = true ∨ ∃ v, leaf.attributes[op.mVelocityIndex]? = some v ∧
      (v.array.isUniform = true ∨ ic.1 < v.array.size)) :
    op.colorPointChecked length uniform uniformColor leaf ic =
      some (op.colorPoint length uniform uniformColor leaf ic) := by
  unfold colorPointChecked colorPoint
  by_cases hu : uniform = true
  · simp [hu, PointDataLeaf.writeVec3?, hc, hcs]
  · rcases hv with hv | ⟨v, hva, hvs⟩
    · exact absurd hv hu
    · have hread : leaf.readVec3? op.mVelocityIndex ic.1 =
          some (leaf.readVec3 op.mVelocityIndex ic.1) := by
        simp [PointDataLeaf.readVec3?, PointDataLeaf.readVec3, hva,
          AttributeArray.get?_eq_some v.array ic.1 hvs]
      simp [hu, hread, PointDataLeaf.writeVec3?, hc, hcs]

/-- The checked leaf loop takes no out-of-range branch and yields what `callLeaf` yields,
when the velocity array has an element 0 and holds every active index and the colour array
has an element for every active index. -/
theorem callLeafChecked_eq (op : PopulateColorFromVelocityOp) (length : Vec3d → ℚ)
    (leaf out : PointDataLeaf) (c v : Attribute)
    (hc : leaf.attributes[op.mColorIndex]? = some c)
    (hv : leaf.attributes[op.mVelocityIndex]? = some v)
    (hfirst : v.array.hasFirst) (hvh : v.array.holds leaf.indexOn)
    (hcs : ∀ ic ∈ leaf.indexOn, ic.1 < c.array.size)
    (hout : op.callLeaf length leaf = .ok out) :
    op.callLeafChecked length leaf = .ok (some out) := by
  rw [callLeaf_eq op length leaf c v hc hv] at hout
  injection hout with hout
  have hfold : (leaf.indexOn.filter
      (fun ic => MultiGroupFilter op.mIncludeGroups op.mExcludeGroups leaf ic.1)).foldl
      (fun (state : Option PointDataLeaf) (ic : Nat × Coord) =>
        state.bind (fun l => op.colorPointChecked length v.array.isUniform
          (op.getColorFromRamp length (v.array.get 0).toVec3) l ic)) (some leaf) =
      some ((leaf.indexOn.filter
        (fun ic => MultiGroupFilter op.mIncludeGroups op.mExcludeGroups leaf ic.1)).foldl
        (op.colorPoint length v.array.isUniform
          (op.getColorFromRamp length (v.array.get 0).toVec3)) leaf) := by
    refine foldl_checked
      (fun l : PointDataLeaf => ∀ p : Nat,
        (l.attributes[p]?).map (fun (a : Attribute) => a.array.size) =
        (leaf.attributes[p]?).map (fun (a : Attribute) => a.array.size)) _ _ _ leaf (fun _ => rfl)
      (fun s hs ic hic => ⟨?_, fun p => ?_⟩)
    · have hmem : ic ∈ leaf.indexOn := (List.mem_filter.mp hic).1
      have hsc := hs op.mColorIndex
      rw [hc] at hsc
      cases hsa : s.attributes[op.mColorIndex]? with
      | none => simp [hsa] at hsc
      | some sc =>
        simp only [hsa, Option.map_some', Option.some.injEq] at hsc
        refine colorPointChecked_eq_some op length _ _ s ic sc hsa
          (by rw [hsc]; exact hcs ic hmem) ?_
        by_cases hu : v.array.isUniform = true
        · exact Or.inl hu
        · right
          have hsv := hs op.mVelocityIndex
          rw [hv] at hsv
          cases hsb : s.attributes[op.mVelocityIndex]? with
          | none => simp [hsb] at hsv
          | some sv =>
            simp only [hsb, Option.map_some', Option.some.injEq] at hsv
            refine ⟨sv, rfl, Or.inr ?_⟩
            rw [hsv]
            rcases hvh with h | h
            · exact absurd h hu
            · exact h ic hmem
    · simp only [colorPoint, PointDataLeaf.writeVec3]
      rw [size_modifyArrayAt_set]
      exact hs p
  have hzero := AttributeArray.get?_eq_some v.array 0 hfirst
  unfold callLeafChecked PointDataLeaf.attributeArray
  simp only [hc, hv, hzero, iter_eq_filter, hfold, Option.map_some']
  rw [← hout]

end PopulateColorFromVelocityOp

/-! ## Bounds-checked reads and writes: the layout conditions -/

/-- The condition on element 0 cannot be dropped in the checked model: were a leaf that
holds no points to store its scale and its velocity one value per point, so with no
element, every array would hold every active index (there is none), yet the unconditional
read of element 0 of the scale in `expandBBox` and of the velocity in the colour operator
would take the out-of-range branch.  Whether the library can hand over such an array is
not visible in the sources. -/
theorem read_of_element_zero_out_of_range :
    leafNoPoints.indexOn = [] ∧
    leafNoPoints.P.holds leafNoPoints.indexOn ∧
    (∀ a ∈ leafNoPoints.attributes, a.array.holds leafNoPoints.indexOn) ∧
    GenerateBBoxOp.pscaleHandle typeNameFloat leafNoPoints (leafNoPoints.find "pscale") =
      some noScalars ∧
    sampleBBoxOp.expandBBoxChecked typeNameFloat leafNoPoints (leafNoPoints.find "pscale") =
      none ∧
    sampleColorOp.callLeafChecked axisLength leafNoPoints = .ok none := by
  refine ⟨rfl, Or.inr ?_, ?_, rfl, rfl, rfl⟩
  · intro ic hic
    simp [leafNoPoints] at hic
  · intro a _
    refine Or.inr ?_
    intro ic hic
    simp [leafNoPoints] at hic

/-- On a leaf whose position array holds an element for every active index,
whose bound scale handle (if any) has an element 0 and holds an element for every active
index, whose velocity array has an element 0 and holds an element for every active index,
and whose colour array has an element at every active index, no read or write of the two
operators is out of range: the checked `expandBBox` returns the operator that `expandBBox`
returns, and the checked colour loop returns the leaf that `callLeaf` returns. -/
theorem checked_reads_in_bounds (bboxOp : GenerateBBoxOp)
    (colorOp : PopulateColorFromVelocityOp) (length : Vec3d → ℚ) (pscaleType : String)
    (leaf : PointDataLeaf) (pscaleIndex : Option Nat) (c v : Attribute)
    (hP : leaf.P.holds leaf.indexOn)
    (hscale : ∀ h, GenerateBBoxOp.pscaleHandle pscaleType leaf pscaleIndex = some h →
      h.hasFirst ∧ h.holds leaf.indexOn)
    (hc : leaf.attributes[colorOp.mColorIndex]? = some c)
    (hv : leaf.attributes[colorOp.mVelocityIndex]? = some v)
    (hfirst : v.array.hasFirst) (hvel : v.array.holds leaf.indexOn)
    (hcol : ∀ ic ∈ leaf.indexOn, ic.1 < c.array.size) :
    bboxOp.expandBBoxChecked pscaleType leaf pscaleIndex =
      some (bboxOp.expandBBox pscaleType leaf pscaleIndex) ∧
    ∃ out, colorOp.callLeaf length leaf = .ok out ∧
      colorOp.callLeafChecked length leaf = .ok (some out) := by
  refine ⟨GenerateBBoxOp.expandBBoxChecked_eq_some bboxOp pscaleType leaf pscaleIndex hP
    hscale, ?_⟩
  have hcall := PopulateColorFromVelocityOp.callLeaf_eq colorOp length leaf c v hc hv
  exact ⟨_, hcall, PopulateColorFromVelocityOp.callLeafChecked_eq colorOp length leaf _ c v
    hc hv hfirst hvel hcol hcall⟩

/-- The layout conditions hold on the two-point leaf, whose position, scale, velocity and
colour arrays hold two elements each, with the sample operators; the scale handle is
bound. -/
theorem checked_reads_in_bounds_witness :
    leafTwoPoints.P.holds leafTwoPoints.indexOn ∧
    GenerateBBoxOp.pscaleHandle typeNameFloat leafTwoPoints (some 2) = some twoScales ∧
    twoScales.hasFirst ∧ twoScales.holds leafTwoPoints.indexOn ∧
    twoVelocities.hasFirst ∧ twoVelocities.holds leafTwoPoints.indexOn ∧
    (∀ ic ∈ leafTwoPoints.indexOn, ic.1 < blackColors.size) ∧
    sampleBBoxOp.expandBBoxChecked typeNameFloat leafTwoPoints (some 2) =
      some (sampleBBoxOp.expandBBox typeNameFloat leafTwoPoints (some 2)) ∧
    ∃ out, sampleColorOp.callLeaf axisLength leafTwoPoints = .ok out ∧
      sampleColorOp.callLeafChecked axisLength leafTwoPoints = .ok (some out) := by
  have hall : ∀ ic ∈ leafTwoPoints.indexOn, ic.1 < 2 := by
    intro ic hic
    simp only [leafTwoPoints, List.mem_cons, List.mem_singleton, List.not_mem_nil,
      or_false] at hic
    rcases hic with h | h <;> rw [h] <;> decide
  have hhandle : GenerateBBoxOp.pscaleHandle typeNameFloat leafTwoPoints (some 2) =
      some twoScales := rfl
  have hP : leafTwoPoints.P.holds leafTwoPoints.indexOn := Or.inr hall
  have hs1 : twoScales.hasFirst := Or.inr (by decide)
  have hs2 : twoScales.holds leafTwoPoints.indexOn := Or.inr hall
  have hv1 : twoVelocities.hasFirst := Or.inr (by decide)
  have hv2 : twoVelocities.holds leafTwoPoints.indexOn := Or.inr hall
  refine ⟨hP, hhandle, hs1, hs2, hv1, hv2, hall, ?_⟩
  exact checked_reads_in_bounds sampleBBoxOp sampleColorOp axisLength typeNameFloat
    leafTwoPoints (some 2) ⟨"Cd", "vec3s", blackColors⟩ ⟨"v", "vec3s", twoVelocities⟩ hP
    (fun h hh => by
      rw [hhandle] at hh
      injection hh with hh
      subst hh
      exact ⟨hs1, hs2⟩)
    rfl rfl hv1 hv2 hall

/-! ## The normalised speed in `float` arithmetic -/

theorem FloatValue.two_tests_eq_clamp (v : FloatValue) :
    (if (if v.gt (FloatValue.finite 1) then FloatValue.finite 1 else v).lt
        (FloatValue.finite 0) = true
      then FloatValue.finite 0
      else (if v.gt (FloatValue.finite 1) then FloatValue.finite 1 else v)) = v.clamp := by
  cases v with
  | nan => rfl
  | negInf => rfl
  | posInf =>
    simp [FloatValue.gt, FloatValue.lt, FloatValue.clamp]
  | finite q =>
    by_cases h1 : 1 < q
    · have h0 : ¬ (1 : ℚ) < 0 := by norm_num
      simp [FloatValue.gt, FloatValue.lt, FloatValue.clamp, h1, h0, min_eq_right (le_of_lt h1)]
    · by_cases h0 : q < 0
      · simp [FloatValue.gt, FloatValue.lt, FloatValue.clamp, h1, h0,
          min_eq_left (not_lt.mp h1), max_eq_left (le_of_lt h0)]
      · simp [FloatValue.gt, FloatValue.lt, FloatValue.clamp, h1, h0,
          min_eq_left (not_lt.mp h1), max_eq_right (not_lt.mp h0)]

theorem FloatValue.clamp_inUnitInterval (v : FloatValue) (h : v ≠ FloatValue.nan) :
    v.clamp.inUnitInterval := by
  cases v with
  | nan => exact absurd rfl h
  | negInf => exact ⟨0, rfl, le_refl _, by norm_num⟩
  | posInf => exact ⟨1, rfl, by norm_num, le_refl _⟩
  | finite q =>
    exact ⟨_, rfl, le_max_left _ _, max_le (by norm_num) (min_le_right _ _)⟩

theorem proportionalSpeedFloat_of_zero (fl : ℚ → FloatValue) (len : FloatValue) :
    proportionalSpeedFloat fl (FloatValue.finite 0) len = (FloatValue.finite 0, 0) := by
  simp [proportionalSpeedFloat, FloatValue.eq, FloatValue.gt, FloatValue.lt]

theorem proportionalSpeedFloat_of_ne_zero (fl : ℚ → FloatValue) (mMaxSpeed len : FloatValue)
    (h : mMaxSpeed ≠ FloatValue.finite 0) :
    proportionalSpeedFloat fl mMaxSpeed len = ((len.div fl mMaxSpeed).clamp, 1) := by
  have heq : mMaxSpeed.eq (FloatValue.finite 0) = false := by
    cases mMaxSpeed with
    | nan => rfl
    | negInf => rfl
    | posInf => rfl
    | finite m =>
      simp only [FloatValue.eq, decide_eq_false_iff_not]
      exact h
  simp only [proportionalSpeedFloat, heq, Bool.false_eq_true, if_false,
    FloatValue.two_tests_eq_clamp]

theorem FloatValue.div_ne_nan (fl : ℚ → FloatValue) (hfl : ∀ q, fl q ≠ FloatValue.nan)
    (a b : FloatValue) (ha : a ≠ FloatValue.nan) (hb : b ≠ FloatValue.nan)
    (hb0 : b ≠ FloatValue.finite 0)
    (hfin : (∃ x, a = FloatValue.finite x) ∨ (∃ y, b = FloatValue.finite y)) :
    a.div fl b ≠ FloatValue.nan := by
  cases a with
  | nan => exact absurd rfl ha
  | negInf =>
    cases b with
    | nan => exact absurd rfl hb
    | negInf => rcases hfin with ⟨x, hx⟩ | ⟨y, hy⟩ <;> simp at *
    | posInf => rcases hfin with ⟨x, hx⟩ | ⟨y, hy⟩ <;> simp at *
    | finite y =>
      simp only [FloatValue.div]
      split_ifs <;> simp
  | posInf =>
    cases b with
    | nan => exact absurd rfl hb
    | negInf => rcases hfin with ⟨x, hx⟩ | ⟨y, hy⟩ <;> simp at *
    | posInf => rcases hfin with ⟨x, hx⟩ | ⟨y, hy⟩ <;> simp at *
    | finite y =>
      simp only [FloatValue.div]
      split_ifs <;> simp
  | finite x =>
    cases b with
    | nan => exact absurd rfl hb
    | negInf => simp [FloatValue.div]
    | posInf => simp [FloatValue.div]
    | finite y =>
      have hy : y ≠ 0 := fun h0 => hb0 (by rw [h0])
      simp only [FloatValue.div, hy, if_false]
      exact hfl _

/-- On finite operands and with exact rounding the `float` transcription is the rational one:
the normalised speed of the exact model. -/
theorem proportionalSpeedFloat_finite (m l : ℚ) :
    (proportionalSpeedFloat FloatValue.finite (FloatValue.finite m) (FloatValue.finite l)).1 =
      FloatValue.finite (normalizedSpeed m l) := by
  by_cases hm : m = 0
  · subst hm
    rw [proportionalSpeedFloat_of_zero]
    simp [normalizedSpeed]
  · rw [proportionalSpeedFloat_of_ne_zero _ _ _ (by simpa using hm)]
    simp [FloatValue.div, FloatValue.clamp, normalizedSpeed, hm]

/-- The exact transcription `proportionalSpeed` is the `float` one on finite operands with
exact rounding. -/
theorem proportionalSpeed_eq_float (op : PopulateColorFromVelocityOp) (length : Vec3d → ℚ)
    (velocity : Vec3d) :
    (proportionalSpeedFloat FloatValue.finite (FloatValue.finite op.mMaxSpeed)
      (FloatValue.finite (length velocity))).1 =
      FloatValue.finite (op.proportionalSpeed length velocity) := by
  rw [proportionalSpeedFloat_finite, proportionalSpeed_eq_normalizedSpeed]

/-- C9 (as stated, refuted): a velocity whose length is not a number, as when one of its
components is not a number, fails both clamping tests, so with maximum speed 2 what is
passed to the ramp lookup is not a number and not in [0,1]; likewise when the maximum
speed is not a number, and when the length and the maximum speed are both infinite. -/
theorem proportionalSpeedFloat_nan_reaches_ramp :
    (proportionalSpeedFloat FloatValue.finite (FloatValue.finite 2) FloatValue.nan).1 =
      FloatValue.nan ∧
    (proportionalSpeedFloat FloatValue.finite FloatValue.nan (FloatValue.finite 4)).1 =
      FloatValue.nan ∧
    (proportionalSpeedFloat FloatValue.finite FloatValue.posInf FloatValue.posInf).1 =
      FloatValue.nan ∧
    ¬ FloatValue.nan.inUnitInterval := by
  refine ⟨rfl, rfl, rfl, ?_⟩
  rintro ⟨q, hq, _⟩
  cases hq

/-- C9 (amended): in `float` arithmetic, whatever the rounding `fl` of the division: when
neither the maximum speed nor the length of the velocity is not a number and one of the two
is finite, the normalised speed handed to the ramp lookup is a number of [0,1]; when the
maximum speed is 0 it is exactly 0 for every length, one that is not a number included,
and no division is performed; when the maximum speed is positive and finite and the length
finite, it is `min q 1` for the float quotient `q ≥ 0` of the length by the maximum speed,
and 1 when that quotient overflows to plus infinity, after one division. -/
theorem proportionalSpeedFloat_bounds (fl : ℚ → FloatValue) (mMaxSpeed len : FloatValue) :
    (mMaxSpeed ≠ FloatValue.nan → len ≠ FloatValue.nan →
      ((∃ m, mMaxSpeed = FloatValue.finite m) ∨ (∃ l, len = FloatValue.finite l)) →
      (∀ q, fl q ≠ FloatValue.nan) →
      (proportionalSpeedFloat fl mMaxSpeed len).1.inUnitInterval) ∧
    (mMaxSpeed = FloatValue.finite 0 →
      proportionalSpeedFloat fl mMaxSpeed len = (FloatValue.finite 0, 0)) ∧
    (∀ m l q, mMaxSpeed = FloatValue.finite m → len = FloatValue.finite l → 0 < m →
      fl (l / m) = FloatValue.finite q → 0 ≤ q →
      proportionalSpeedFloat fl mMaxSpeed len = (FloatValue.finite (min q 1), 1)) ∧
    (∀ m l, mMaxSpeed = FloatValue.finite m → len = FloatValue.finite l → 0 < m →
      fl (l / m) = FloatValue.posInf →
      proportionalSpeedFloat fl mMaxSpeed len = (FloatValue.finite 1, 1)) := by
  refine ⟨?_, ?_, ?_, ?_⟩
  · intro hm hl hfin hfl
    by_cases h0 : mMaxSpeed = FloatValue.finite 0
    · rw [h0, proportionalSpeedFloat_of_zero]
      exact ⟨0, rfl, le_refl _, by norm_num⟩
    · rw [proportionalSpeedFloat_of_ne_zero fl mMaxSpeed len h0]
      exact FloatValue.clamp_inUnitInterval _
        (FloatValue.div_ne_nan fl hfl len mMaxSpeed hl hm h0 (Or.symm hfin))
  · intro h0
    rw [h0, proportionalSpeedFloat_of_zero]
  · intro m l q hm hl hpos hq hq0
    have hne : mMaxSpeed ≠ FloatValue.finite 0 := by
      rw [hm]
      intro h
      injection h with h
      exact (ne_of_gt hpos) h
    rw [proportionalSpeedFloat_of_ne_zero fl mMaxSpeed len hne, hm, hl]
    simp only [FloatValue.div, ne_of_gt hpos, if_false, hq, FloatValue.clamp]
    rw [max_eq_right (le_min hq0 (by norm_num))]
  · intro m l hm hl hpos hq
    have hne : mMaxSpeed ≠ FloatValue.finite 0 := by
      rw [hm]
      intro h
      injection h with h
      exact (ne_of_gt hpos) h
    rw [proportionalSpeedFloat_of_ne_zero fl mMaxSpeed len hne, hm, hl]
    simp only [FloatValue.div, ne_of_gt hpos, if_false, hq, FloatValue.clamp]

/-- C9 (amended), witness: with exact rounding, maximum speed 2 and a length 4 give a
number of [0,1], namely `min (4 / 2) 1` after one division; maximum speed 0 and a length
that is not a number give 0 after no division. -/
theorem proportionalSpeedFloat_bounds_witness :
    (proportionalSpeedFloat FloatValue.finite (FloatValue.finite 2)
      (FloatValue.finite 4)).1.inUnitInterval ∧
    proportionalSpeedFloat FloatValue.finite (FloatValue.finite 2) (FloatValue.finite 4) =
      (FloatValue.finite (min 2 1), 1) ∧
    proportionalSpeedFloat FloatValue.finite (FloatValue.finite 0) FloatValue.nan =
      (FloatValue.finite 0, 0) :=
  ⟨(proportionalSpeedFloat_bounds FloatValue.finite (FloatValue.finite 2)
      (FloatValue.finite 4)).1 (by simp) (by simp) (Or.inl ⟨2, rfl⟩) (by simp),
    (proportionalSpeedFloat_bounds FloatValue.finite (FloatValue.finite 2)
      (FloatValue.finite 4)).2.2.1 2 4 2 rfl rfl (by norm_num) (by norm_num) (by norm_num),
    (proportionalSpeedFloat_bounds FloatValue.finite (FloatValue.finite 0)
      FloatValue.nan).2.1 rfl⟩

theorem leafBox_leafThreePoints_of_scale (t : Transform) (ht : t.translation = ⟨0, 0, 0⟩)
    (hx : 0 < t.scale.x) (hy : 0 < t.scale.y) (hz : 0 < t.scale.z) :
    leafBox t [] ["hidden"] leafThreePoints =
      BBoxd.box ⟨-(1 / 10 / t.scale.x), -(1 / 10 / t.scale.y), -(1 / 10 / t.scale.z)⟩
        ⟨2 + 1 / 10 / t.scale.x, 1 / 10 / t.scale.y, 1 / 10 / t.scale.z⟩ := by
  have hfind : leafThreePoints.find "pscale" = some 0 := rfl
  have hfilter : leafThreePoints.indexOn.filter
      (fun ic => MultiGroupFilter [] ["hidden"] leafThreePoints ic.1) =
      [(0, ⟨0, 0, 0⟩), (1, ⟨1, 0, 0⟩), (2, ⟨2, 0, 0⟩)] := by
    simp [MultiGroupFilter, leafThreePoints]
  unfold leafBox GenerateBBoxOp.leafStep
  rw [hfind]
  simp only [GenerateBBoxOp.expandBBox_eq, hfilter, List.foldl_cons, List.foldl_nil]
  simp [GenerateBBoxOp.expandPoint, GenerateBBoxOp.pscaleHandle,
    GenerateBBoxOp.pscaleIsUniform, GenerateBBoxOp.uniformPscale, leafThreePoints, tenthScale,
    PointDataLeaf.type, zeroPositions, AttributeArray.get,
    AttrValue.toScalar, AttrValue.toVec3, Transform.worldToIndex, Vec3d.splat, Coord.asVec3d,
    BBoxd.expand, Vec3d.minComponent, Vec3d.maxComponent, ht, Vec3d.add_def, Vec3d.sub_def]
  have hx1 : 0 < (10 : ℚ)⁻¹ / t.scale.x := by positivity
  have hy1 : 0 < (10 : ℚ)⁻¹ / t.scale.y := by positivity
  have hz1 : 0 < (10 : ℚ)⁻¹ / t.scale.z := by positivity
  refine ⟨⟨?_, ?_, ?_⟩, ⟨⟨?_, ?_⟩, ?_⟩, ?_, ?_⟩ <;> linarith

/-! ## The single point and the two-leaf scenario under a transform without translation -/

theorem PointDataLeaf.indexRadius_of_no_translation (leaf : PointDataLeaf) (t : Transform)
    (idx i : Nat) (ht : t.translation = ⟨0, 0, 0⟩) :
    leaf.indexRadius t idx i = t.indexSpaceRadius (leaf.pscaleValue idx i) := by
  simp [PointDataLeaf.indexRadius, Transform.worldToIndex, Transform.indexSpaceRadius,
    Vec3d.splat, ht]

theorem getBoundingBox_two_leaf_scenario_of_scale (t : Transform)
    (ht : t.translation = ⟨0, 0, 0⟩) (hx : 0 < t.scale.x) (hy : 0 < t.scale.y)
    (hz : 0 < t.scale.z) :
    getBoundingBox [⟨t, [leafThreePoints, leafAllHidden]⟩] [] ["hidden"] =
      .ok (t.indexToWorldBBox
        (BBoxd.box ⟨-(1 / 10 / t.scale.x), -(1 / 10 / t.scale.y), -(1 / 10 / t.scale.z)⟩
          ⟨2 + 1 / 10 / t.scale.x, 1 / 10 / t.scale.y, 1 / 10 / t.scale.z⟩)) := by
  have hA : leafThreePoints.hasSupportedPscale 0 := ⟨rfl, Or.inl rfl⟩
  have hB : leafAllHidden.hasSupportedPscale 0 := ⟨rfl, Or.inl rfl⟩
  have hsupp : ∀ l ∈ [leafThreePoints, leafAllHidden], ¬ l.hasUnsupportedPscale := by
    intro l hl
    simp only [List.mem_cons, List.mem_singleton, List.not_mem_nil, or_false] at hl
    rcases hl with rfl | rfl
    · exact PointDataLeaf.not_hasUnsupportedPscale hA
    · exact PointDataLeaf.not_hasUnsupportedPscale hB
  have hhidden : leafBox t [] ["hidden"] leafAllHidden = BBoxd.empty := by
    apply leafBox_eq_empty
    intro ic _
    simp [MultiGroupFilter, leafAllHidden]
  have hcall : GenerateBBoxOp.call ⟨t, BBoxd.empty, [], ["hidden"]⟩
      [leafThreePoints, leafAllHidden] =
      .ok ⟨t,
        BBoxd.box ⟨-(1 / 10 / t.scale.x), -(1 / 10 / t.scale.y), -(1 / 10 / t.scale.z)⟩
          ⟨2 + 1 / 10 / t.scale.x, 1 / 10 / t.scale.y, 1 / 10 / t.scale.z⟩,
        [], ["hidden"]⟩ := by
    rw [GenerateBBoxOp.call_of_supported _ _ hsupp]
    simp only [rangeBox, hhidden, leafBox_leafThreePoints_of_scale t ht hx hy hz,
      BBoxd.empty_expandBox, BBoxd.expandBox_empty]
  simp only [getBoundingBox, getBoundingBoxLoop, hcall, BBoxd.isEmpty, BBoxd.empty_expandBox,
    Bool.false_eq_true, if_false]

/-- C13 (amended): for a transform without translation and with positive voxel sizes, a
forest of one tree holding a single point at index position `P` with scale value `s`, and
no group filter: the reduced index-space box is the box spanned by `P - r` and `P + r`,
`r` being `s` divided by the voxel size along each axis, which is the box from `P - r` to
`P + r` when `s` is not negative and is spanned by `P - s` and `P + s` for unit voxels,
and `getBoundingBox` returns the transform applied to that box; and in the two-leaf
scenario the result is the transform applied to the box from `(-0.1, -0.1, -0.1)` to
`(2.1, 0.1, 0.1)`, each 0.1 divided by the voxel size of its axis. -/
theorem getBoundingBox_single_point (t : Transform) (leaf : PointDataLeaf) (idx : Nat)
    (ic : Nat × Coord) (hs : leaf.hasSupportedPscale idx) (hpts : leaf.indexOn = [ic])
    (ht : t.translation = ⟨0, 0, 0⟩) (hx : 0 < t.scale.x) (hy : 0 < t.scale.y)
    (hz : 0 < t.scale.z) :
    GenerateBBoxOp.call ⟨t, BBoxd.empty, [], []⟩ [leaf] =
      .ok ⟨t, spanBox (leaf.indexPosition ic - t.indexSpaceRadius (leaf.pscaleValue idx ic.1))
        (leaf.indexPosition ic + t.indexSpaceRadius (leaf.pscaleValue idx ic.1)), [], []⟩ ∧
    getBoundingBox [⟨t, [leaf]⟩] [] [] =
      .ok (t.indexToWorldBBox
        (spanBox (leaf.indexPosition ic - t.indexSpaceRadius (leaf.pscaleValue idx ic.1))
          (leaf.indexPosition ic + t.indexSpaceRadius (leaf.pscaleValue idx ic.1)))) ∧
    (0 ≤ leaf.pscaleValue idx ic.1 →
      spanBox (leaf.indexPosition ic - t.indexSpaceRadius (leaf.pscaleValue idx ic.1))
          (leaf.indexPosition ic + t.indexSpaceRadius (leaf.pscaleValue idx ic.1)) =
        BBoxd.box (leaf.indexPosition ic - t.indexSpaceRadius (leaf.pscaleValue idx ic.1))
          (leaf.indexPosition ic + t.indexSpaceRadius (leaf.pscaleValue idx ic.1))) ∧
    (t.scale = ⟨1, 1, 1⟩ →
      t.indexSpaceRadius (leaf.pscaleValue idx ic.1) =
        Vec3d.splat (leaf.pscaleValue idx ic.1)) ∧
    getBoundingBox [⟨t, [leafThreePoints, leafAllHidden]⟩] [] ["hidden"] =
      .ok (t.indexToWorldBBox
        (BBoxd.box ⟨-(1 / 10 / t.scale.x), -(1 / 10 / t.scale.y), -(1 / 10 / t.scale.z)⟩
          ⟨2 + 1 / 10 / t.scale.x, 1 / 10 / t.scale.y, 1 / 10 / t.scale.z⟩)) ∧
    (t.scale = ⟨1, 1, 1⟩ →
      getBoundingBox [⟨t, [leafThreePoints, leafAllHidden]⟩] [] ["hidden"] =
        .ok (t.indexToWorldBBox
          (BBoxd.box ⟨-(1 / 10), -(1 / 10), -(1 / 10)⟩ ⟨21 / 10, 1 / 10, 1 / 10⟩))) := by
  have hsupp : ∀ l ∈ [leaf], ¬ l.hasUnsupportedPscale := by
    intro l hl
    simp only [List.mem_singleton] at hl
    subst hl
    exact PointDataLeaf.not_hasUnsupportedPscale hs
  have hcall : GenerateBBoxOp.call ⟨t, BBoxd.empty, [], []⟩ [leaf] =
      .ok ⟨t, spanBox (leaf.indexPosition ic - t.indexSpaceRadius (leaf.pscaleValue idx ic.1))
        (leaf.indexPosition ic + t.indexSpaceRadius (leaf.pscaleValue idx ic.1)), [], []⟩ := by
    rw [GenerateBBoxOp.call_of_supported [leaf] _ hsupp]
    simp only [rangeBox, BBoxd.empty_expandBox, BBoxd.expandBox_empty,
      leafBox_single_point t leaf idx ic hs hpts, spanBox,
      PointDataLeaf.indexRadius_of_no_translation leaf t idx ic.1 ht]
  have hscen := getBoundingBox_two_leaf_scenario_of_scale t ht hx hy hz
  refine ⟨hcall, ?_, ?_, ?_, hscen, ?_⟩
  · simp only [getBoundingBox, getBoundingBoxLoop, hcall, spanBox, BBoxd.isEmpty,
      BBoxd.empty_expandBox, Bool.false_eq_true, if_false]
  · intro hs0
    have h1 : 0 ≤ leaf.pscaleValue idx ic.1 / t.scale.x := div_nonneg hs0 (le_of_lt hx)
    have h2 : 0 ≤ leaf.pscaleValue idx ic.1 / t.scale.y := div_nonneg hs0 (le_of_lt hy)
    have h3 : 0 ≤ leaf.pscaleValue idx ic.1 / t.scale.z := div_nonneg hs0 (le_of_lt hz)
    simp only [spanBox, Transform.indexSpaceRadius, Vec3d.minComponent, Vec3d.maxComponent,
      Vec3d.sub_def, Vec3d.add_def, BBoxd.box.injEq, Vec3d.mk.injEq]
    refine ⟨⟨?_, ?_, ?_⟩, ?_, ?_, ?_⟩ <;>
      first
        | (apply min_eq_left; linarith)
        | (apply max_eq_right; linarith)
  · intro hsc
    simp [Transform.indexSpaceRadius, Vec3d.splat, hsc]
  · intro hsc
    rw [hscen, hsc]
    norm_num

/-- C13 (amended), witness: the single point of scale one tenth under voxel size two, whose
reduced box has half-width one twentieth. -/
theorem getBoundingBox_single_point_witness :
    leafWithPscale.hasSupportedPscale 0 ∧ leafWithPscale.indexOn = [(0, ⟨0, 0, 0⟩)] ∧
    doubleTransform.translation = ⟨0, 0, 0⟩ ∧
    0 < doubleTransform.scale.x ∧ 0 < doubleTransform.scale.y ∧ 0 < doubleTransform.scale.z ∧
    getBoundingBox [⟨doubleTransform, [leafWithPscale]⟩] [] [] =
      .ok (doubleTransform.indexToWorldBBox
        (spanBox (leafWithPscale.indexPosition (0, ⟨0, 0, 0⟩) -
            doubleTransform.indexSpaceRadius (leafWithPscale.pscaleValue 0 0))
          (leafWithPscale.indexPosition (0, ⟨0, 0, 0⟩) +
            doubleTransform.indexSpaceRadius (leafWithPscale.pscaleValue 0 0)))) ∧
    doubleTransform.indexSpaceRadius (leafWithPscale.pscaleValue 0 0) =
      ⟨1 / 20, 1 / 20, 1 / 20⟩ := by
  have hx : 0 < doubleTransform.scale.x := by norm_num [doubleTransform]
  have hy : 0 < doubleTransform.scale.y := by norm_num [doubleTransform]
  have hz : 0 < doubleTransform.scale.z := by norm_num [doubleTransform]
  refine ⟨⟨rfl, Or.inl rfl⟩, rfl, rfl, hx, hy, hz,
    (getBoundingBox_single_point doubleTransform leafWithPscale 0 (0, ⟨0, 0, 0⟩)
      ⟨rfl, Or.inl rfl⟩ rfl rfl hx hy hz).2.1, ?_⟩
  simp [Transform.indexSpaceRadius, doubleTransform, PointDataLeaf.pscaleValue,
    leafWithPscale, AttributeArray.get, AttrValue.toScalar]
  norm_num

/-! ## Speed to colour: a velocity of an unsupported type is skipped -/

/-- C15 (amended): in the speed-to-colour block, a tree whose first leaf declares `v` with
a type other than `Vec3f` and `Vec3H` produces no error: the colouring operator is not
run and the block returns the tree after the preparation of `Cd` alone, which is the tree
itself when `Cd` exists with a supported type; and the loop over the grids goes on with
the remaining grids, failing only if one of them fails. -/
theorem speedToColorTree_of_unsupported_velocity (parms : RenderParms)
    (length : Vec3d → ℚ) (validAttributes : List Name) (tree : List PointDataLeaf)
    (leaf : PointDataLeaf) (velocityIndex : Nat) (hhead : tree.head? = some leaf)
    (hv : leaf.find "v" = some velocityIndex)
    (h1 : leaf.type velocityIndex ≠ typeNameVec3f)
    (h2 : leaf.type velocityIndex ≠ typeNameVec3H) :
    speedToColorTree parms length validAttributes tree = .ok (prepareColor tree leaf) ∧
    (∀ colorIndex, leaf.find "Cd" = some colorIndex →
      leaf.type colorIndex = typeNameVec3f ∨ leaf.type colorIndex = typeNameVec3H →
      speedToColorTree parms length validAttributes tree = .ok tree) ∧
    ∀ (transform : Transform) (rest : List PointDataGrid),
      speedToColor parms length validAttributes (⟨transform, tree⟩ :: rest) =
        match speedToColor parms length validAttributes rest with
        | .error e => .error e
        | .ok rest1 => .ok (⟨transform, prepareColor tree leaf⟩ :: rest1) := by
  have hmain : speedToColorTree parms length validAttributes tree =
      .ok (prepareColor tree leaf) := by
    unfold speedToColorTree prepareColor
    simp only [hhead, hv, h1, h2, and_false, if_false]
    cases hc : leaf.find "Cd" with
    | none => simp
    | some colorIndex =>
      by_cases hs : leaf.type colorIndex = typeNameVec3f ∨
          leaf.type colorIndex = typeNameVec3H
      · rcases hs with hs | hs <;> simp [hs]
      · have hs1 : leaf.type colorIndex ≠ typeNameVec3f := fun h => hs (Or.inl h)
        have hs2 : leaf.type colorIndex ≠ typeNameVec3H := fun h => hs (Or.inr h)
        simp [hs1, hs2]
  refine ⟨hmain, ?_, ?_⟩
  · intro colorIndex hc hs
    rw [hmain]
    simp only [prepareColor, hc, hs, if_true]
  · intro transform rest
    simp only [speedToColor, hmain]

/-- C15 (amended), witness: the tree whose only leaf declares `v` as `vec3d` and has a
`Cd` of type `vec3s` comes back unchanged, without error. -/
theorem speedToColorTree_of_unsupported_velocity_witness :
    [leafDoubleVelocity].head? = some leafDoubleVelocity ∧
    leafDoubleVelocity.find "v" = some 1 ∧
    leafDoubleVelocity.type 1 ≠ typeNameVec3f ∧ leafDoubleVelocity.type 1 ≠ typeNameVec3H ∧
    speedToColorTree sampleParms axisLength [] [leafDoubleVelocity] =
      .ok [leafDoubleVelocity] :=
  ⟨rfl, rfl, by decide, by decide,
    (speedToColorTree_of_unsupported_velocity sampleParms axisLength [] [leafDoubleVelocity]
      leafDoubleVelocity 1 rfl rfl (by decide) (by decide)).2.1 0 rfl (Or.inl rfl)⟩

end OpenVDBPoints
